import Mathlib

/-!
# FATStatsReporter: the session-file parser

A shallow embedding of `parsers.go` (with the record types of `types.go`) and
proofs about it.

Conventions of the embedding.

* A Go `string` / `[]byte` is a `GoString`, a list of bytes, each byte written
  as the `Char` with that code.  Indexing, slicing and searching are therefore
  byte-wise, as in Go.
* A Go call returns a value, returns a non-nil `error`, panics at run time
  (index or slice out of range) or ends the process (`log.Fatalln`).  These four
  ways of ending are the constructors of `Res`.
* Functions of the Go standard library that the parser calls are modelled next
  to the code that calls them (`strings.Index`, `strings.Split`,
  `strings.Replace`, `bufio.Scanner`, `time.Parse` for the one layout used,
  `strconv.ParseBool`, `crypto/sha1`, `%x`).  `strconv.ParseFloat`,
  `strconv.ParseInt` and the lexer of `encoding/csv` are taken as parameters,
  bundled in `Lib`.
-/

set_option autoImplicit false

namespace FATStats

/-- A Go string: a sequence of bytes. -/
abbrev GoString := List Char

/-! ## Outcomes of a Go call -/

/-- The error values the parser can return. -/
inductive Error where
  /-- The error `bufio.ErrTooLong`, reported by `scanner.Err()`. -/
  | tokenTooLong
  /-- The error "invalid file, does not contain 4 sections". -/
  | invalidFile
  /-- The error made from "unable to parse timestamp: " and the normalised token
  (the two are joined and handed to `fmt.Sprintf` as its format). -/
  | timestamp (normalised : GoString)
  /-- The error "can not parse 'raw' as kind for 'column' column.". -/
  | cannotParse (raw kind column : GoString)
  /-- A lexical error of the CSV reader. -/
  | csvLexical
  /-- The error `csv.ErrFieldCount`: wrong number of fields in a record. -/
  | csvFieldCount
  /-- The error `*json.UnsupportedValueError` of `json.Marshal`, returned for a
  `float64` that is an infinity or not a number. -/
  | unsupportedValue
  deriving DecidableEq, Repr

/-- How a Go call ends. -/
inductive Res (α : Type) where
  /-- The call returns a value and a nil error. -/
  | ok (a : α)
  /-- The call returns a non-nil error (and a nil / zero value). -/
  | error (e : Error)
  /-- The call panics: index out of range or slice bounds out of range. -/
  | runtimePanic
  /-- The call ends the process through `log.Fatalln`. -/
  | fatalExit
  deriving DecidableEq, Repr

namespace Res

/-- Sequencing of Go statements: anything but a returned value ends the caller. -/
def bind {α β : Type} (r : Res α) (f : α → Res β) : Res β :=
  match r with
  | ok a => f a
  | error e => error e
  | runtimePanic => runtimePanic
  | fatalExit => fatalExit

/-- The pattern `v, err = f(...)` with `err` never inspected: a returned error
leaves the nil value `dflt` in `v` and execution goes on; a panic or a process
exit still ends the caller. -/
def ignoreError {α : Type} (dflt : α) (r : Res α) : Res α :=
  match r with
  | ok a => ok a
  | error _ => ok dflt
  | runtimePanic => runtimePanic
  | fatalExit => fatalExit

/-- The value of a successful call, converted. -/
def map {α β : Type} (f : α → β) (r : Res α) : Res β :=
  match r with
  | ok a => ok (f a)
  | error e => error e
  | runtimePanic => runtimePanic
  | fatalExit => fatalExit

/-- The call returned normally: a value or an error value. -/
def returns {α : Type} (r : Res α) : Bool :=
  match r with
  | ok _ => true
  | error _ => true
  | runtimePanic => false
  | fatalExit => false

/-- The call returned, and the value it returned is `v`: the value that comes
with a nil error, or the nil value `dflt` that comes with an error. -/
def resultIs {α : Type} (r : Res α) (dflt v : α) : Prop :=
  r = ok v ∨ ((∃ e, r = error e) ∧ v = dflt)

/-- The call returned an error value. -/
def isError {α : Type} (r : Res α) : Bool :=
  match r with
  | error _ => true
  | _ => false

end Res

instance : Monad Res where
  pure := Res.ok
  bind := Res.bind

/-! ## Package `strings` -/

/-- First index at which `substr` occurs in `s`, if any. -/
def indexOf? : GoString → GoString → Option Nat
  | [], substr => if substr.isEmpty then some 0 else none
  | c :: cs, substr =>
    if substr.isPrefixOf (c :: cs) then some 0
    else (indexOf? cs substr).map (· + 1)

/-- Go `strings.Index`: the index of the first instance of `substr` in `s`, or
`-1` if `substr` is not present. -/
def stringsIndex (s substr : GoString) : Int :=
  match indexOf? s substr with
  | some i => (i : Int)
  | none => -1

/-- Last index at which `substr` occurs in `s`, if any. -/
def lastIndexOf? : GoString → GoString → Option Nat
  | [], substr => if substr.isEmpty then some 0 else none
  | c :: cs, substr =>
    match lastIndexOf? cs substr with
    | some i => some (i + 1)
    | none => if substr.isPrefixOf (c :: cs) then some 0 else none

/-- Go `strings.LastIndex`: the index of the last instance of `substr` in `s`,
or `-1` if `substr` is not present. -/
def stringsLastIndex (s substr : GoString) : Int :=
  match lastIndexOf? s substr with
  | some i => (i : Int)
  | none => -1

/-- The loop of `strings.Split` for a non-empty separator: cut at the first
instance of `sep`, go on with what follows it. -/
def splitLoop (sep : GoString) : Nat → GoString → List GoString
  | 0, s => [s]
  | fuel + 1, s =>
    match indexOf? s sep with
    | none => [s]
    | some i => s.take i :: splitLoop sep fuel (s.drop (i + sep.length))

/-- Go `strings.Split` for a non-empty separator (every separator in the parser
is a non-empty constant).  Each cut removes at least one byte, so `s.length`
rounds are enough. -/
def stringsSplit (s sep : GoString) : List GoString :=
  splitLoop sep s.length s

/-- The loop of `strings.Replace` for a non-empty `old`: at most `n`
replacements, left to right, without overlap. -/
def replaceLoop (old new : GoString) : Nat → GoString → GoString
  | 0, s => s
  | n + 1, s =>
    match indexOf? s old with
    | none => s
    | some i => s.take i ++ new ++ replaceLoop old new n (s.drop (i + old.length))

/-- Go `strings.Replace` for a non-empty `old`: the first `n` instances are
replaced, all of them when `n < 0`. -/
def stringsReplace (s old new : GoString) (n : Int) : GoString :=
  if n < 0 then replaceLoop old new s.length s else replaceLoop old new n.toNat s

/-- Go `strings.Count` for a non-empty `substr`: the number of non-overlapping
instances of `substr` in `s`, counted left to right. -/
def countLoop (substr : GoString) : Nat → GoString → Nat
  | 0, _ => 0
  | fuel + 1, s =>
    match indexOf? s substr with
    | none => 0
    | some i => countLoop substr fuel (s.drop (i + substr.length)) + 1

/-- Go `strings.Count` for a non-empty `substr`. -/
def stringsCount (s substr : GoString) : Nat :=
  countLoop substr s.length s

/-- The text that follows the last of the non-overlapping instances of `substr`
counted by `stringsCount` (all of `s` when there is none). -/
def tailLoop (substr : GoString) : Nat → GoString → GoString
  | 0, s => s
  | fuel + 1, s =>
    match indexOf? s substr with
    | none => s
    | some i => tailLoop substr fuel (s.drop (i + substr.length))

/-- The text after the last non-overlapping instance of `substr` in `s`. -/
def afterLast (s substr : GoString) : GoString :=
  tailLoop substr s.length s

/-! ## The split function and the scanner -/

/-- The closure returned by `splitAt(substring)`, a `bufio.SplitFunc`: the
result is the pair `(advance, token)`, where `none` is the nil token; the
returned error is always nil. -/
def splitAt (substring : GoString) (data : GoString) (atEOF : Bool) :
    Nat × Option GoString :=
  if atEOF && data.length == 0 then (0, none)
  else
    let i := stringsIndex data substring
    if i ≥ 0 then (i.toNat + substring.length, some (data.take i.toNat))
    else if atEOF then (data.length, some data)
    else (0, none)

/-- Constant `bufio.MaxScanTokenSize`: the largest buffer of a `bufio.Scanner`. -/
def maxScanTokenSize : Nat := 64 * 1024

/-- The loop `for scanner.Scan() { sections = append(sections, scanner.Text()) }`
followed by `scanner.Err()`.

`rest` is the unread input.  The scanner hands the split function the unread
input it has buffered, at most `maxScanTokenSize` bytes of it, and `atEOF` holds
once all of the input is in the buffer and the reader has reported the end.  A
split function that finds its token in what is buffered returns it however much
more has been read, so the outcome is that of the call on the fullest buffer.
When the buffer is full and the split function asks for more, the scan stops
with `ErrTooLong`.  A scan that stops at the end of the input has a nil
`Err()`. -/
def scanLoop (split : GoString → Bool → Nat × Option GoString) :
    Nat → GoString → List GoString → List GoString × Option Error
  | 0, _, sections => (sections, none)
  | fuel + 1, rest, sections =>
    let atEOF := decide (rest.length < maxScanTokenSize)
    match split (rest.take maxScanTokenSize) atEOF with
    | (advance, some token) =>
      scanLoop split fuel (rest.drop advance) (sections ++ [token])
    | (_, none) =>
      if atEOF then (sections, none) else (sections, some Error.tokenTooLong)

/-- The sections of a file and the value of `scanner.Err()`, for the split
function `splitAt("\r\n\r\n")`.  Every token but the one that meets the end of
the input advances by at least the four bytes of the delimiter, so
`content.length + 1` rounds are enough. -/
def scanSections (content : GoString) : List GoString × Option Error :=
  scanLoop (splitAt "\r\n\r\n".toList) (content.length + 1) content []

/-! ## Package `time`: `time.Parse` for the layout "2006-01-02 15:04:05" -/

/-- A `time.Time` in UTC, by its calendar date and its time of day. -/
structure Time where
  year : Int
  month : Nat
  day : Nat
  hour : Nat
  minute : Nat
  second : Nat
  nanosecond : Nat
  deriving DecidableEq, Repr

/-- The test `'0' <= c && c <= '9'` of package `time`. -/
def isDigit (c : Char) : Bool :=
  decide (48 ≤ c.toNat) && decide (c.toNat ≤ 57)

/-- The value `c - '0'` of a digit. -/
def digitVal (c : Char) : Nat := c.toNat - 48

/-- Go `time.leadingInt`: the value of the leading digits of `s`, continuing the
value `x`, and the text after them.  (The overflow guard is left out: the parser
only reads numbers of at most nine digits.) -/
def leadingInt : GoString → Nat → Nat × GoString
  | [], x => (x, [])
  | c :: cs, x => if isDigit c then leadingInt cs (x * 10 + digitVal c) else (x, c :: cs)

/-- Go `time.atoi`: an optional sign, then digits up to the end of `s`. -/
def atoi (s : GoString) : Option Int :=
  let neg := decide (s.head? = some '-')
  let body := if s.head? = some '-' ∨ s.head? = some '+' then s.tail else s
  let r := leadingInt body 0
  if r.2.isEmpty then some (if neg then -(r.1 : Int) else (r.1 : Int)) else none

/-- Go `time.getnum`: a number of two digits, or of one digit when `fixed` is
false and the second byte is no digit; with the text after it. -/
def getnum : GoString → Bool → Option (Nat × GoString)
  | [], _ => none
  | [c0], fixed =>
    if isDigit c0 then (if fixed then none else some (digitVal c0, [])) else none
  | c0 :: c1 :: rest, fixed =>
    if isDigit c0 then
      if isDigit c1 then some (digitVal c0 * 10 + digitVal c1, rest)
      else if fixed then none else some (digitVal c0, c1 :: rest)
    else none

/-- Go `time.skip` for a layout prefix of one byte `p`: a space of the layout
stands for any run of spaces of the value (also none, at the end of the value),
any other byte for itself. -/
def skip (value : GoString) (p : Char) : Option GoString :=
  if p = ' ' then
    match value with
    | [] => some []
    | v :: rest => if v = ' ' then some ((v :: rest).dropWhile (· = ' ')) else none
  else
    match value with
    | [] => none
    | v :: rest => if v = p then some rest else none

/-- Go `time.isLeap`. -/
def isLeap (year : Int) : Bool :=
  decide (year % 4 = 0) && (decide (year % 100 ≠ 0) || decide (year % 400 = 0))

/-- Go `time.daysIn`: the number of days of month `m` (1 to 12) of `year`. -/
def daysIn (m : Nat) (year : Int) : Nat :=
  if m = 2 then (if isLeap year then 29 else 28)
  else if m = 4 ∨ m = 6 ∨ m = 9 ∨ m = 11 then 30
  else 31

/-- The special case of `time.Parse` after the seconds: a fraction of a second
in the value that the layout does not have ("," or "." and digits).  The result
is the nanoseconds and the text after the fraction. -/
def fractionalSecond (value : GoString) : Nat × GoString :=
  match value with
  | c :: d :: rest =>
    if (c = '.' ∨ c = ',') ∧ isDigit d then
      let digits := (d :: rest).takeWhile isDigit
      let used := digits.take 9
      ((leadingInt used 0).1 * 10 ^ (9 - used.length), (d :: rest).drop digits.length)
    else (0, value)
  | _ => (0, value)

/-- Go `time.Parse("2006-01-02 15:04:05", value)`: `none` when `Parse` returns
an error.  The layout asks for a year of four digits, "-", a month of two
digits, "-", a day of two digits, spaces, an hour of one or two digits, ":",
minutes and seconds of two digits; the ranges of the month, hour, minute and
second are checked as they are read, the day against the month once the value
is read to its end. -/
def timeParse (value : GoString) : Option Time :=
  -- "2006"
  if value.length < 4 ∨ (value.head?.map isDigit).getD false = false then none
  else
    (atoi (value.take 4)).bind fun year =>
    -- "-01"
    (skip (value.drop 4) '-').bind fun value =>
    (getnum value true).bind fun month =>
    if month.1 = 0 ∨ 12 < month.1 then none
    else
      -- "-02"
      (skip month.2 '-').bind fun value =>
      (getnum value true).bind fun day =>
      -- " 15"
      (skip day.2 ' ').bind fun value =>
      (getnum value false).bind fun hour =>
      if 24 ≤ hour.1 then none
      else
        -- ":04"
        (skip hour.2 ':').bind fun value =>
        (getnum value true).bind fun min =>
        if 60 ≤ min.1 then none
        else
          -- ":05"
          (skip min.2 ':').bind fun value =>
          (getnum value true).bind fun sec =>
          if 60 ≤ sec.1 then none
          else
            let nsec := fractionalSecond sec.2
            -- end of the layout
            if nsec.2 ≠ [] then none
            else if day.1 < 1 ∨ day.1 > daysIn month.1 year then none
            else some ⟨year, month.1, day.1, hour.1, min.1, sec.1, nsec.1⟩

/-! ## `parseTimeStamp` -/

/-- The slice expression `s[lo:hi]` of Go: it panics unless
`0 <= lo <= hi <= len(s)`. -/
def sliceStr (s : GoString) (lo hi : Int) : Res GoString :=
  if 0 ≤ lo ∧ lo ≤ hi ∧ hi ≤ (s.length : Int) then
    Res.ok ((s.drop lo.toNat).take (hi.toNat - lo.toNat))
  else Res.runtimePanic

/-- The function `parseTimeStamp` of `parsers.go`. -/
def parseTimeStamp (filePath : GoString) : Res Time :=
  let timeStampStartIndex := stringsLastIndex filePath " - ".toList
  let timeStampStartIndex := timeStampStartIndex + 3
  match sliceStr filePath timeStampStartIndex (timeStampStartIndex + 19) with
  | Res.ok timeStampString =>
    let timeStampString := stringsReplace timeStampString "-".toList " ".toList 1
    let dateTime := stringsSplit timeStampString " ".toList
    if dateTime.length ≠ 2 then Res.fatalExit
    else
      let date := dateTime.getD 0 []
      let date := stringsReplace date ".".toList "-".toList (-1)
      let clock := dateTime.getD 1 []
      let clock := stringsReplace clock ".".toList ":".toList (-1)
      let timeStampString := date ++ " ".toList ++ clock
      match timeParse timeStampString with
      | some timestamp => Res.ok timestamp
      | none => Res.error (Error.timestamp timeStampString)
  | Res.error e => Res.error e
  | Res.runtimePanic => Res.runtimePanic
  | Res.fatalExit => Res.fatalExit

/-! ## Package `crypto/sha1` and the verb `%x` -/

/-- Rotation of a 32-bit word to the left by `n` bits. -/
def rotl32 (x n : Nat) : Nat :=
  ((x <<< n) ||| (x >>> (32 - n))) % 2 ^ 32

/-- The four bytes of a 32-bit word, most significant first. -/
def wordBytes (w : Nat) : List Nat :=
  [w / 2 ^ 24 % 256, w / 2 ^ 16 % 256, w / 2 ^ 8 % 256, w % 256]

/-- The message padded to a multiple of 64 bytes: a byte 0x80, zeros, and the
length of the message in bits as a 64-bit big-endian number. -/
def sha1Pad (msg : List Nat) : List Nat :=
  let bits := 8 * msg.length
  msg ++ [0x80] ++ List.replicate ((64 - (msg.length + 9) % 64) % 64) 0
    ++ wordBytes (bits / 2 ^ 32) ++ wordBytes bits

/-- The big-endian 32-bit words of a sequence of bytes. -/
def bytesToWords : List Nat → List Nat
  | b0 :: b1 :: b2 :: b3 :: rest =>
    (b0 * 2 ^ 24 + b1 * 2 ^ 16 + b2 * 2 ^ 8 + b3) :: bytesToWords rest
  | _ => []

/-- The message schedule: `n` more words after the words `w`, each the rotation
of the exclusive or of the words 3, 8, 14 and 16 places before it. -/
def sha1Schedule : Nat → List Nat → List Nat
  | 0, w => w
  | n + 1, w =>
    let t := w.length
    let x := (w.getD (t - 3) 0) ^^^ (w.getD (t - 8) 0) ^^^ (w.getD (t - 14) 0)
      ^^^ (w.getD (t - 16) 0)
    sha1Schedule n (w ++ [rotl32 x 1])

/-- The working variables `a, b, c, d, e` of SHA-1. -/
structure Sha1State where
  a : Nat
  b : Nat
  c : Nat
  d : Nat
  e : Nat
  deriving DecidableEq, Repr

/-- Round `t` of the compression function, on the word `w` of the schedule. -/
def sha1Round (st : Sha1State) (t w : Nat) : Sha1State :=
  let not_b := st.b ^^^ (2 ^ 32 - 1)
  let f :=
    if t < 20 then (st.b &&& st.c) ||| (not_b &&& st.d)
    else if t < 40 then st.b ^^^ st.c ^^^ st.d
    else if t < 60 then (st.b &&& st.c) ||| (st.b &&& st.d) ||| (st.c &&& st.d)
    else st.b ^^^ st.c ^^^ st.d
  let k :=
    if t < 20 then 0x5A827999
    else if t < 40 then 0x6ED9EBA1
    else if t < 60 then 0x8F1BBCDC
    else 0xCA62C1D6
  let temp := (rotl32 st.a 5 + f + st.e + k + w) % 2 ^ 32
  ⟨temp, st.a, rotl32 st.b 30, st.c, st.d⟩

/-- The eighty rounds over the schedule `ws`, starting at round `t`. -/
def sha1Rounds : List Nat → Nat → Sha1State → Sha1State
  | [], _, st => st
  | w :: ws, t, st => sha1Rounds ws (t + 1) (sha1Round st t w)

/-- The compression of one block of sixteen words into the chaining value. -/
def sha1Block (h : Sha1State) (block : List Nat) : Sha1State :=
  let st := sha1Rounds (sha1Schedule 64 block) 0 h
  ⟨(h.a + st.a) % 2 ^ 32, (h.b + st.b) % 2 ^ 32, (h.c + st.c) % 2 ^ 32,
    (h.d + st.d) % 2 ^ 32, (h.e + st.e) % 2 ^ 32⟩

/-- The chaining over the blocks of sixteen words of the padded message. -/
def sha1Blocks : Nat → List Nat → Sha1State → Sha1State
  | 0, _, h => h
  | n + 1, ws, h => sha1Blocks n (ws.drop 16) (sha1Block h (ws.take 16))

/-- The calls `hash := sha1.New(); hash.Write(msg); hash.Sum(nil)`: the SHA-1
digest of the bytes `msg`, twenty bytes. -/
def sha1Sum (msg : List Nat) : List Nat :=
  let ws := bytesToWords (sha1Pad msg)
  let h := sha1Blocks (ws.length / 16) ws
    ⟨0x67452301, 0xEFCDAB89, 0x98BADCFE, 0x10325476, 0xC3D2E1F0⟩
  wordBytes h.a ++ wordBytes h.b ++ wordBytes h.c ++ wordBytes h.d ++ wordBytes h.e

/-- The lower-case hexadecimal digit of a number below sixteen. -/
def hexDigit (n : Nat) : Char :=
  if n < 10 then Char.ofNat (48 + n) else Char.ofNat (87 + n)

/-- The call `fmt.Sprintf("%x", bytes)`: two lower-case hexadecimal digits for
each byte. -/
def sprintfHex : List Nat → GoString
  | [] => []
  | b :: bs => hexDigit (b / 16 % 16) :: hexDigit (b % 16) :: sprintfHex bs

/-- The conversion `[]byte(s)`. -/
def toBytes (s : GoString) : List Nat :=
  s.map (fun c => c.toNat % 256)

/-! ## Package `strconv`, package `encoding/csv` and the record types -/

/-- Go `strconv.ParseBool`: `none` when it returns an error (its value is then
`false`). -/
def parseBool (str : GoString) : Option Bool :=
  if str = "1".toList ∨ str = "t".toList ∨ str = "T".toList ∨ str = "true".toList
      ∨ str = "TRUE".toList ∨ str = "True".toList then some true
  else if str = "0".toList ∨ str = "f".toList ∨ str = "F".toList ∨ str = "false".toList
      ∨ str = "FALSE".toList ∨ str = "False".toList then some false
  else none

/-- The library functions that the embedding takes as given, over a type `F` of
`float64` values. -/
structure Lib (F : Type) where
  /-- The `float64` zero, the value of a field never assigned. -/
  zero : F
  /-- Go `strconv.ParseFloat(s, 0)`: the value returned and whether the error
  returned is nil. -/
  ParseFloat : GoString → F × Bool
  /-- Go `strconv.ParseInt(s, 0, 64)`: `none` when it returns an error. -/
  ParseInt : GoString → Option Int
  /-- The lexer of `csv.Reader`: the records that the successive calls of
  `Read` find in the text, and how reading ends, with `io.EOF` (`none`) or with
  an error.  The check of the number of fields is not part of it. -/
  csvRead : GoString → List (List GoString) × Option Error

/-- The struct `GeneralSettings` of `types.go`. -/
structure GeneralSettings (F : Type) where
  InputLag : F
  MaxFPS : F
  SensScale : GoString
  HorizSens : F
  VertSens : F
  FOV : F
  HideGun : Bool
  Crosshair : GoString
  CrosshairScale : F
  CrosshairColor : GoString
  deriving DecidableEq

/-- The struct `WeaponSettings` of `types.go`. -/
structure WeaponSettings (F : Type) where
  Weapon : GoString
  Shots : Int
  Hits : Int
  DamageDone : F
  DamagePossible : F
  SensScale : GoString
  HorizSens : F
  VertSens : F
  FOV : F
  HideGun : Bool
  Crosshair : GoString
  CrosshairScale : F
  CrosshairColor : GoString
  ADSSens : F
  ADSZoomScale : F
  deriving DecidableEq

/-- The struct `Statistics` of `types.go`. -/
structure Statistics (F : Type) where
  Kills : F
  Deaths : F
  FightTime : F
  AvgTTK : F
  DamageDone : F
  DamageTaken : F
  Midairs : F
  Midaired : F
  Directs : F
  Directed : F
  DistanceTraveled : F
  Scenario : GoString
  Score : F
  Hash : GoString
  GameVersion : GoString
  deriving DecidableEq

/-- The struct `Kill` of `types.go`. -/
structure Kill (F : Type) where
  KillNumber : F
  Timestamp : GoString
  Bot : GoString
  Weapon : GoString
  TTK : GoString
  Shots : F
  Hits : F
  Accuracy : F
  DamageDone : F
  DamagePossible : F
  Efficiency : F
  Cheated : Bool
  deriving DecidableEq

/-- The struct `Session`, with the fields of the composite literal in
`parseSession` (the literal sets `SessionHash`, which the declaration in
`types.go` does not list).  A nil pointer is `none`, a nil slice is `[]`. -/
structure Session (F : Type) where
  SessionHash : GoString
  Time : Time
  GeneralSettings : Option (GeneralSettings F)
  WeaponSettings : Option (WeaponSettings F)
  Statistics : Option (Statistics F)
  Kills : List (Kill F)
  deriving DecidableEq

/-- A Go `map[string]string`, newest binding first. -/
abbrev GoMap := List (GoString × GoString)

/-- The index expression `m[key]`: the empty string for a key not in the map. -/
def GoMap.get (m : GoMap) (key : GoString) : GoString :=
  match m.find? (fun kv => kv.1 = key) with
  | some kv => kv.2
  | none => []

/-- The assignment `m[key] = value`. -/
def GoMap.set (m : GoMap) (key value : GoString) : GoMap :=
  (key, value) :: m

/-- The index expression `record[i]` on a slice: it panics when `i` is out of
range. -/
def index (record : List GoString) (i : Nat) : Res GoString :=
  match record.get? i with
  | some v => Res.ok v
  | none => Res.runtimePanic

/-- The statements
`v, err := strconv.ParseFloat(raw, 0); if err != nil { return nil, errors.New(...) }`. -/
def floatOrError {F : Type} (lib : Lib F) (raw kind column : GoString) : Res F :=
  match lib.ParseFloat raw with
  | (v, true) => Res.ok v
  | (_, false) => Res.error (Error.cannotParse raw kind column)

/-- The statements
`v, err := strconv.ParseInt(raw, 0, 64); if err != nil { return nil, errors.New(...) }`. -/
def intOrError {F : Type} (lib : Lib F) (raw kind column : GoString) : Res Int :=
  match lib.ParseInt raw with
  | some v => Res.ok v
  | none => Res.error (Error.cannotParse raw kind column)

/-- The statements
`v, err := strconv.ParseBool(raw); if err != nil { return nil, errors.New(...) }`. -/
def boolOrError (raw kind column : GoString) : Res Bool :=
  match parseBool raw with
  | some v => Res.ok v
  | none => Res.error (Error.cannotParse raw kind column)

/-! ## The key-value decoders -/

/-- The loop over the lines in `parseGeneralSettings`: a line that is not empty
is cut at ":," and its first two pieces are bound in the map. -/
def generalSettingsLines : List GoString → GoMap → Res GoMap
  | [], m => Res.ok m
  | column :: columns, m =>
    let headingAndValue := stringsSplit column ":,".toList
    if column.length ≥ 1 then
      (index headingAndValue 0).bind fun heading =>
      (index headingAndValue 1).bind fun value =>
      generalSettingsLines columns (m.set heading value)
    else generalSettingsLines columns m

/-- The function `parseGeneralSettings` of `parsers.go`. -/
def parseGeneralSettings {F : Type} (lib : Lib F) (s : GoString) :
    Res (GeneralSettings F) := do
  let m ← generalSettingsLines (stringsSplit s "\r\n".toList) []
  let columnName := "Input Lag".toList
  let inputLag ← floatOrError lib (m.get columnName) "float".toList columnName
  let columnName := "Max FPS (config)".toList
  let maxFPS ← floatOrError lib (m.get columnName) "float".toList columnName
  let columnName := "Horiz Sens".toList
  let horizSens ← floatOrError lib (m.get columnName) "float".toList columnName
  let columnName := "Vert Sens".toList
  let vertSens ← floatOrError lib (m.get columnName) "float".toList columnName
  let columnName := "FOV".toList
  let fov ← floatOrError lib (m.get columnName) "float".toList columnName
  let columnName := "Hide Gun".toList
  let hideGun ← boolOrError (m.get columnName) "float".toList columnName
  let columnName := "Crosshair Scale".toList
  let crosshairScale ← floatOrError lib (m.get columnName) "float".toList columnName
  pure {
    InputLag := inputLag
    MaxFPS := maxFPS
    SensScale := m.get "Sens Scale".toList
    HorizSens := horizSens
    VertSens := vertSens
    FOV := fov
    HideGun := hideGun
    Crosshair := m.get "Crosshair".toList
    CrosshairScale := crosshairScale
    CrosshairColor := m.get "Crosshair Color".toList }

/-- The loop over the lines in `parseSessionStats`: every line, empty or not, is
cut at ":," and its first two pieces are bound in the map. -/
def sessionStatsLines : List GoString → GoMap → Res GoMap
  | [], m => Res.ok m
  | column :: columns, m =>
    let headingAndValue := stringsSplit column ":,".toList
    (index headingAndValue 0).bind fun heading =>
    (index headingAndValue 1).bind fun value =>
    sessionStatsLines columns (m.set heading value)

/-- The function `parseSessionStats` of `parsers.go`. -/
def parseSessionStats {F : Type} (lib : Lib F) (s : GoString) :
    Res (Statistics F) := do
  let m ← sessionStatsLines (stringsSplit s "\r\n".toList) []
  let columnName := "Kills".toList
  let kills ← floatOrError lib (m.get columnName) "float".toList columnName
  let columnName := "Deaths".toList
  let deaths ← floatOrError lib (m.get columnName) "float".toList columnName
  let columnName := "Fight Time".toList
  let fightTime ← floatOrError lib (m.get columnName) "float".toList columnName
  let columnName := "Avg TTK".toList
  let avgTTK ← floatOrError lib (m.get columnName) "float".toList columnName
  let columnName := "Damage Done".toList
  let damageDone ← floatOrError lib (m.get columnName) "float".toList columnName
  let columnName := "Damage Taken".toList
  let damageTaken ← floatOrError lib (m.get columnName) "float".toList columnName
  let columnName := "Midairs".toList
  let midairs ← floatOrError lib (m.get columnName) "float".toList columnName
  let columnName := "Midaired".toList
  let midaired ← floatOrError lib (m.get columnName) "float".toList columnName
  let columnName := "Directs".toList
  let directs ← floatOrError lib (m.get columnName) "float".toList columnName
  let columnName := "Directed".toList
  let directed ← floatOrError lib (m.get columnName) "float".toList columnName
  let columnName := "Distance Traveled".toList
  let distanceTraveled ← floatOrError lib (m.get columnName) "float".toList columnName
  let columnName := "Score".toList
  let score ← floatOrError lib (m.get columnName) "float".toList columnName
  pure {
    Kills := kills
    Deaths := deaths
    FightTime := fightTime
    AvgTTK := avgTTK
    DamageDone := damageDone
    DamageTaken := damageTaken
    Midairs := midairs
    Midaired := midaired
    Directs := directs
    Directed := directed
    DistanceTraveled := distanceTraveled
    Scenario := m.get "Scenario".toList
    Score := score
    Hash := m.get "Hash".toList
    GameVersion := m.get "Game Version".toList }

/-! ## The tabular decoders -/

/-- The body of `if row > 0` in `parseWeaponSettings`: a fresh
`WeaponSettings` filled from the columns of `record`. -/
def weaponSettingsRow {F : Type} (lib : Lib F) (record : List GoString) :
    Res (WeaponSettings F) := do
  let shots ← intOrError lib (← index record 1) "float".toList "Shots".toList
  let hits ← intOrError lib (← index record 2) "int64".toList "Hits".toList
  let damageDone ← floatOrError lib (← index record 3) "float".toList "Damage Done".toList
  let damagePossible ←
    floatOrError lib (← index record 4) "float".toList "Damage Possible".toList
  let settings : WeaponSettings F := {
    Weapon := []
    Shots := shots
    Hits := hits
    DamageDone := damageDone
    DamagePossible := damagePossible
    SensScale := []
    HorizSens := lib.zero
    VertSens := lib.zero
    FOV := lib.zero
    HideGun := false
    Crosshair := []
    CrosshairScale := lib.zero
    CrosshairColor := []
    ADSSens := lib.zero
    ADSZoomScale := lib.zero }
  if record.length ≥ 7 then
    let horizSens := (lib.ParseFloat (← index record 7)).1
    let vertSens := (lib.ParseFloat (← index record 8)).1
    let fov := (lib.ParseFloat (← index record 9)).1
    let hideGun := (parseBool (← index record 10)).getD false
    let crosshairScale := (lib.ParseFloat (← index record 12)).1
    let adsSens := (lib.ParseFloat (← index record 14)).1
    let adsZoomScale := (lib.ParseFloat (← index record 15)).1
    pure { settings with
      HorizSens := horizSens
      VertSens := vertSens
      FOV := fov
      HideGun := hideGun
      CrosshairScale := crosshairScale
      ADSSens := adsSens
      ADSZoomScale := adsZoomScale }
  else pure settings

/-- The loop `for { record, err := csvReader.Read() ... }` of
`parseWeaponSettings` over the records still to be read; `atEnd` is how the
reader ends after them, `row` and `settings` are the variables of the loop. -/
def weaponSettingsLoop {F : Type} (lib : Lib F) (atEnd : Option Error) :
    List (List GoString) → Nat → Option (WeaponSettings F) →
    Res (Option (WeaponSettings F))
  | [], _, settings =>
    match atEnd with
    | none => Res.ok settings
    | some e => Res.error e
  | record :: records, row, settings =>
    if row > 0 then
      (weaponSettingsRow lib record).bind fun fresh =>
      weaponSettingsLoop lib atEnd records (row + 1) (some fresh)
    else weaponSettingsLoop lib atEnd records (row + 1) settings

/-- The function `parseWeaponSettings` of `parsers.go`; the reader has
`FieldsPerRecord = -1`, so it accepts records of any length. -/
def parseWeaponSettings {F : Type} (lib : Lib F) (s : GoString) :
    Res (Option (WeaponSettings F)) :=
  weaponSettingsLoop lib (lib.csvRead s).2 (lib.csvRead s).1 0 none

/-- The body of `if row > 0` in `parseKills`: the `Kill` of one record. -/
def killRow {F : Type} (lib : Lib F) (record : List GoString) : Res (Kill F) := do
  let killNumber ← floatOrError lib (← index record 0) "float".toList "Kill #".toList
  let shots ← floatOrError lib (← index record 5) "float".toList "Shots".toList
  let hits ← floatOrError lib (← index record 6) "float".toList "Hits".toList
  let accuracy ← floatOrError lib (← index record 7) "float".toList "Accuracy".toList
  let damageDone ← floatOrError lib (← index record 8) "float".toList "Damage Done".toList
  let damagePossible ←
    floatOrError lib (← index record 9) "float".toList "Damage Possible".toList
  let efficiency ← floatOrError lib (← index record 10) "float".toList "Efficiency".toList
  let cheated ← boolOrError (← index record 11) "bool".toList "Cheated".toList
  pure {
    KillNumber := killNumber
    Timestamp := ← index record 1
    Bot := ← index record 2
    Weapon := ← index record 3
    TTK := ← index record 4
    Shots := shots
    Hits := hits
    Accuracy := accuracy
    DamageDone := damageDone
    DamagePossible := damagePossible
    Efficiency := efficiency
    Cheated := cheated }

/-- The loop `for { record, err := csvReader.Read() ... }` of `parseKills`.
The reader is left with `FieldsPerRecord = 0`: `Read` sets it to the length of
the first record and returns `ErrFieldCount` for a later record of another
length; `fieldsPerRecord` is that field of the reader. -/
def killsLoop {F : Type} (lib : Lib F) (atEnd : Option Error) :
    List (List GoString) → Nat → Nat → List (Kill F) → Res (List (Kill F))
  | [], _, _, kills =>
    match atEnd with
    | none => Res.ok kills
    | some e => Res.error e
  | record :: records, fieldsPerRecord, row, kills =>
    if fieldsPerRecord > 0 ∧ record.length ≠ fieldsPerRecord then
      Res.error Error.csvFieldCount
    else
      let fieldsPerRecord := if fieldsPerRecord = 0 then record.length else fieldsPerRecord
      if row > 0 then
        (killRow lib record).bind fun kill =>
        killsLoop lib atEnd records fieldsPerRecord (row + 1) (kills ++ [kill])
      else killsLoop lib atEnd records fieldsPerRecord (row + 1) kills

/-- The function `parseKills` of `parsers.go`. -/
def parseKills {F : Type} (lib : Lib F) (s : GoString) : Res (List (Kill F)) :=
  killsLoop lib (lib.csvRead s).2 (lib.csvRead s).1 0 0 []

/-! ## `parseSession` -/

/-- The function `parseSession` of `parsers.go`, on the name and the content of
the file. -/
def parseSession {F : Type} (lib : Lib F) (fileName content : GoString) :
    Res (Session F) :=
  let sections := (scanSections content).1
  match (scanSections content).2 with
  | some e => Res.error e
  | none =>
    if sections.length ≠ 4 then Res.error Error.invalidFile
    else
      let sha1Hash := sprintfHex (sha1Sum (toBytes fileName))
      (parseTimeStamp fileName).bind fun timeStamp =>
      (if sections.length ≥ 4 then
          (index sections 3).bind fun block =>
            Res.ignoreError none ((parseGeneralSettings lib block).map some)
        else Res.ok none).bind fun generalSettings =>
      (if sections.length ≥ 2 then
          (index sections 1).bind fun block =>
            Res.ignoreError none (parseWeaponSettings lib block)
        else Res.ok none).bind fun weaponSettings =>
      (if sections.length ≥ 3 then
          (index sections 2).bind fun block =>
            Res.ignoreError none ((parseSessionStats lib block).map some)
        else Res.ok none).bind fun sessionStats =>
      (if sections.length ≥ 1 then
          (index sections 0).bind fun block =>
            Res.ignoreError [] (parseKills lib block)
        else Res.ok []).bind fun kills =>
      Res.ok {
        SessionHash := sha1Hash
        Time := timeStamp
        GeneralSettings := generalSettings
        WeaponSettings := weaponSettings
        Statistics := sessionStats
        Kills := kills }

/-! ## The key-value format, as the specification words it -/

/-- The heading of a line `heading:,value`: the text before the first ":," (the
whole line when it has no ":,"). -/
def lineHeading (line : GoString) : GoString :=
  match indexOf? line ":,".toList with
  | some i => line.take i
  | none => line

/-- The raw value of a line `heading:,value`: all the text after the first ":,"
(empty when the line has no ":,"). -/
def valueText (line : GoString) : GoString :=
  match indexOf? line ":,".toList with
  | some i => line.drop (i + 2)
  | none => []

/-- The raw value of a line cut at a second ":,": the text between the first
":," of the line and the next one, all of the raw value when it contains no
":,". -/
def lineValue (line : GoString) : GoString :=
  match indexOf? (valueText line) ":,".toList with
  | some j => (valueText line).take j
  | none => valueText line

/-- The value that a block gives to `heading`: the raw value, cut at a second
":,", of the last of its non-empty lines with this heading; `none` when no line
has the heading. -/
def lastValue (block heading : GoString) : Option GoString :=
  (((stringsSplit block "\r\n".toList).filter (fun line => line ≠ [])).reverse.find?
    (fun line => lineHeading line = heading)).map lineValue

/-- The whole raw value that a block gives to `heading`, on the last of its
non-empty lines with this heading; `none` when no line has the heading. -/
def lastValueText (block heading : GoString) : Option GoString :=
  (((stringsSplit block "\r\n".toList).filter (fun line => line ≠ [])).reverse.find?
    (fun line => lineHeading line = heading)).map valueText

/-- The line contains the separator ":,". -/
def hasSeparator (line : GoString) : Prop :=
  (indexOf? line ":,".toList).isSome = true

instance (line : GoString) : Decidable (hasSeparator line) := by
  unfold hasSeparator
  infer_instance

/-- The number that a run of decimal digits writes. -/
def decimalValue (digits : GoString) : Nat :=
  digits.foldl (fun x c => x * 10 + digitVal c) 0

/-- The general-settings block of the specification's example. -/
def exampleGeneralSettings : GoString :=
  ("Input Lag:,5\r\nMax FPS (config):,240\r\nHoriz Sens:,1.2\r\nVert Sens:,1.2\r\n"
    ++ "FOV:,103\r\nHide Gun:,true\r\nCrosshair Scale:,1.0\r\n").toList

/-- A statistics block with the twelve required headings and a scenario name. -/
def exampleStatistics : GoString :=
  ("Kills:,12\r\nDeaths:,0\r\nFight Time:,58.3\r\nAvg TTK:,4.8\r\nDamage Done:,2400\r\n"
    ++ "Damage Taken:,0\r\nMidairs:,0\r\nMidaired:,0\r\nDirects:,0\r\nDirected:,0\r\n"
    ++ "Distance Traveled:,0\r\nScore:,1200.5\r\nScenario:,1wall5targets_pasu").toList

/-! ## An instance of the library parameters

The embedding runs on any `Lib`.  `sampleLib` is one on which it can be
evaluated: floats are decimal literals kept exactly, integers are runs of
digits, and a CSV text is lines ending in CRLF with fields separated by commas,
no quoting. -/

/-- The decimal number `mantissa / 10 ^ scale`. -/
structure Dec where
  mantissa : Nat
  scale : Nat
  deriving DecidableEq, Repr

/-- The decimal literal `digits` or `digits.digits`. -/
def decimalLiteral (s : GoString) : Option Dec :=
  let whole := s.takeWhile isDigit
  if whole.isEmpty then none
  else
    match s.dropWhile isDigit with
    | [] => some ⟨(leadingInt whole 0).1, 0⟩
    | c :: frac =>
      if c = '.' ∧ frac.all isDigit ∧ frac ≠ [] then
        some ⟨(leadingInt (whole ++ frac) 0).1, frac.length⟩
      else none

/-- A sample of the library parameters. -/
def sampleLib : Lib Dec where
  zero := ⟨0, 0⟩
  ParseFloat := fun s =>
    match decimalLiteral s with
    | some d => (d, true)
    | none => (⟨0, 0⟩, false)
  ParseInt := fun s =>
    if s.all isDigit ∧ s ≠ [] then some ((leadingInt s 0).1 : Int) else none
  csvRead := fun s =>
    (((stringsSplit s "\r\n".toList).filter (fun line => line ≠ [])).map
      (fun line => stringsSplit line ",".toList), none)

/-- A file name of the upstream naming convention. -/
def exampleFileName : GoString :=
  "1wall5targets_pasu - Challenge - 2020.05.17-13.06.53 Stats.csv".toList

/-- A file of four sections: a kill log and a weapon table with their header
rows only, statistics whose "Kills" is no number, and the general settings of
the specification's example. -/
def exampleContent : GoString :=
  "Kill #,Timestamp\r\n\r\nWeapon,Shots\r\n\r\nKills:,none\r\n\r\n".toList
    ++ exampleGeneralSettings

/-- Another file of four sections, none of which decodes. -/
def otherContent : GoString :=
  "a\r\n\r\nb\r\n\r\nc:,d\r\n\r\nd:,u".toList

/-- The session that `exampleContent` holds under the name `exampleFileName`. -/
def exampleSession : Session Dec where
  SessionHash := sprintfHex (sha1Sum (toBytes exampleFileName))
  Time := ⟨2020, 5, 17, 13, 6, 53, 0⟩
  GeneralSettings := some {
    InputLag := ⟨5, 0⟩
    MaxFPS := ⟨240, 0⟩
    SensScale := []
    HorizSens := ⟨12, 1⟩
    VertSens := ⟨12, 1⟩
    FOV := ⟨103, 0⟩
    HideGun := true
    Crosshair := []
    CrosshairScale := ⟨10, 1⟩
    CrosshairColor := [] }
  WeaponSettings := none
  Statistics := none
  Kills := []

/-- The session that `otherContent` holds under the name `exampleFileName`. -/
def otherSession : Session Dec where
  SessionHash := sprintfHex (sha1Sum (toBytes exampleFileName))
  Time := ⟨2020, 5, 17, 13, 6, 53, 0⟩
  GeneralSettings := none
  WeaponSettings := none
  Statistics := none
  Kills := []

/-! ## `strings.Join`, the scanner for any delimiter, and the loop of `bufferFiles` -/

/-- Go `strings.Join`: the elements, with `sep` between each two. -/
def stringsJoin : List GoString → GoString → GoString
  | [], _ => []
  | [a], _ => a
  | a :: b :: rest, sep => a ++ sep ++ stringsJoin (b :: rest) sep

/-- A list of blocks without its last block when that block is empty. -/
def dropEmptyLast (blocks : List GoString) : List GoString :=
  if blocks.getLast? = some [] then blocks.dropLast else blocks

/-- The blocks of a content as the specification words them: the split of the
content on the delimiter `d` (`strings.Split`, which cuts at every
non-overlapping instance from the left); an empty block after the last
delimiter is not counted. -/
def splitBlocks (d content : GoString) : List GoString :=
  dropEmptyLast (stringsSplit content d)

/-- The sections of a content and the value of `scanner.Err()`, for the split
function `splitAt(d)`; `scanSections` is `scanWith` of "\r\n\r\n". -/
def scanWith (d content : GoString) : List GoString × Option Error :=
  scanLoop (splitAt d) (content.length + 1) content []

/-- The loop `for _, session := range sessions` of `bufferFiles`, which fills the
buffer: each session is marshalled and written, followed by "\r\n".  `marshal`
is `json.Marshal` on a `*Session`; its error ends `bufferFiles`. -/
def bufferSessions {F : Type} (marshal : Session F → Res GoString) :
    List (Session F) → GoString → Res GoString
  | [], buffer => Res.ok buffer
  | session :: sessions, buffer =>
    (marshal session).bind fun jsonInBytes =>
    bufferSessions marshal sessions (buffer ++ (jsonInBytes ++ "\r\n".toList))

/-! ## The required fields and columns, as the specification words them -/

/-- The type a required field is coerced to. -/
inductive FieldType where
  | float
  | int
  | bool
  deriving DecidableEq, Repr

/-- Whether `raw` coerces to the type `ty`: the `strconv` function for the type
returns a nil error. -/
def coerces {F : Type} (lib : Lib F) (ty : FieldType) (raw : GoString) : Bool :=
  match ty with
  | FieldType.float => (lib.ParseFloat raw).2
  | FieldType.int => (lib.ParseInt raw).isSome
  | FieldType.bool => (parseBool raw).isSome

/-- The required headings of `parseGeneralSettings`, in the order in which it
reads them, each with its type. -/
def generalSettingsRequired : List (GoString × FieldType) :=
  [("Input Lag".toList, FieldType.float), ("Max FPS (config)".toList, FieldType.float),
   ("Horiz Sens".toList, FieldType.float), ("Vert Sens".toList, FieldType.float),
   ("FOV".toList, FieldType.float), ("Hide Gun".toList, FieldType.bool),
   ("Crosshair Scale".toList, FieldType.float)]

/-- The required headings of `parseSessionStats`, in the order in which it reads
them; all are floats. -/
def sessionStatsRequired : List (GoString × FieldType) :=
  ["Kills", "Deaths", "Fight Time", "Avg TTK", "Damage Done", "Damage Taken", "Midairs",
    "Midaired", "Directs", "Directed", "Distance Traveled", "Score"].map
    (fun h => (h.toList, FieldType.float))

/-- The raw value of a heading in a block as the decoders read it: the value on
its last line, cut at a second ":,"; the empty string when no line has the
heading. -/
def rawValue (block heading : GoString) : GoString :=
  (lastValue block heading).getD []

/-- The first of the required fields `fields` whose raw value in `block` does
not coerce. -/
def firstFailing {F : Type} (lib : Lib F) (fields : List (GoString × FieldType))
    (block : GoString) : Option (GoString × FieldType) :=
  fields.find? (fun f => !coerces lib f.2 (rawValue block f.1))

/-- A required column of a tabular decoder: its index in the record, the type it
is coerced to, and the words for the type and for the column in the error
message. -/
structure Column where
  index : Nat
  ty : FieldType
  kind : GoString
  name : GoString
  deriving DecidableEq, Repr

/-- The required columns of `parseKills`, in the order in which it reads them. -/
def killsRequired : List Column :=
  [⟨0, FieldType.float, "float".toList, "Kill #".toList⟩,
   ⟨5, FieldType.float, "float".toList, "Shots".toList⟩,
   ⟨6, FieldType.float, "float".toList, "Hits".toList⟩,
   ⟨7, FieldType.float, "float".toList, "Accuracy".toList⟩,
   ⟨8, FieldType.float, "float".toList, "Damage Done".toList⟩,
   ⟨9, FieldType.float, "float".toList, "Damage Possible".toList⟩,
   ⟨10, FieldType.float, "float".toList, "Efficiency".toList⟩,
   ⟨11, FieldType.bool, "bool".toList, "Cheated".toList⟩]

/-- The required columns of `parseWeaponSettings`, in the order in which it reads
them (the message for "Shots" says float). -/
def weaponRequired : List Column :=
  [⟨1, FieldType.int, "float".toList, "Shots".toList⟩,
   ⟨2, FieldType.int, "int64".toList, "Hits".toList⟩,
   ⟨3, FieldType.float, "float".toList, "Damage Done".toList⟩,
   ⟨4, FieldType.float, "float".toList, "Damage Possible".toList⟩]

/-- Every column of `columns` coerces in `record`. -/
def columnsCoerce {F : Type} (lib : Lib F) (columns : List Column)
    (record : List GoString) : Bool :=
  columns.all (fun c => coerces lib c.ty (record.getD c.index []))

/-- The first column of `columns` that does not coerce in `record`. -/
def firstFailingColumn {F : Type} (lib : Lib F) (columns : List Column)
    (record : List GoString) : Option Column :=
  columns.find? (fun c => !coerces lib c.ty (record.getD c.index []))

/-- The `Kill` that a data row of the kill log writes: the coerced values of
columns 0 and 5 to 11, and columns 1 to 4 as they are. -/
def killOfRow {F : Type} (lib : Lib F) (record : List GoString) : Kill F where
  KillNumber := (lib.ParseFloat (record.getD 0 [])).1
  Timestamp := record.getD 1 []
  Bot := record.getD 2 []
  Weapon := record.getD 3 []
  TTK := record.getD 4 []
  Shots := (lib.ParseFloat (record.getD 5 [])).1
  Hits := (lib.ParseFloat (record.getD 6 [])).1
  Accuracy := (lib.ParseFloat (record.getD 7 [])).1
  DamageDone := (lib.ParseFloat (record.getD 8 [])).1
  DamagePossible := (lib.ParseFloat (record.getD 9 [])).1
  Efficiency := (lib.ParseFloat (record.getD 10 [])).1
  Cheated := (parseBool (record.getD 11 [])).getD false

/-- The `WeaponSettings` that a data row of the weapon table writes: the coerced
values of columns 1 to 4, the values that the `strconv` functions return for
columns 7, 8, 9, 10, 12, 14 and 15 when the row has at least 7 fields, zero
values otherwise, and empty text fields. -/
def weaponOfRow {F : Type} (lib : Lib F) (record : List GoString) : WeaponSettings F where
  Weapon := []
  Shots := (lib.ParseInt (record.getD 1 [])).getD 0
  Hits := (lib.ParseInt (record.getD 2 [])).getD 0
  DamageDone := (lib.ParseFloat (record.getD 3 [])).1
  DamagePossible := (lib.ParseFloat (record.getD 4 [])).1
  SensScale := []
  HorizSens := if record.length ≥ 7 then (lib.ParseFloat (record.getD 7 [])).1 else lib.zero
  VertSens := if record.length ≥ 7 then (lib.ParseFloat (record.getD 8 [])).1 else lib.zero
  FOV := if record.length ≥ 7 then (lib.ParseFloat (record.getD 9 [])).1 else lib.zero
  HideGun := if record.length ≥ 7 then (parseBool (record.getD 10 [])).getD false else false
  Crosshair := []
  CrosshairScale :=
    if record.length ≥ 7 then (lib.ParseFloat (record.getD 12 [])).1 else lib.zero
  CrosshairColor := []
  ADSSens := if record.length ≥ 7 then (lib.ParseFloat (record.getD 14 [])).1 else lib.zero
  ADSZoomScale :=
    if record.length ≥ 7 then (lib.ParseFloat (record.getD 15 [])).1 else lib.zero

/-- The text fields of a `WeaponSettings` are empty. -/
def WeaponSettings.textFieldsEmpty {F : Type} (w : WeaponSettings F) : Prop :=
  w.Weapon = [] ∧ w.SensScale = [] ∧ w.Crosshair = [] ∧ w.CrosshairColor = []

/-! ## More sample inputs -/

/-- A general-settings block whose "Max FPS (config)" and "FOV" are no numbers. -/
def exampleBadSettings : GoString :=
  "Input Lag:,5\r\nMax FPS (config):,fast\r\nFOV:,wide".toList

/-- The library parameters `sampleLib` with one more float, +Inf (`none`):
`strconv.ParseFloat` returns ±Inf together with `ErrRange` for a well-formed
text out of the range of `float64`, such as "1e999". -/
def overflowLib : Lib (Option Dec) where
  zero := some ⟨0, 0⟩
  ParseFloat := fun s =>
    if s = "1e999".toList then (none, false)
    else
      match decimalLiteral s with
      | some d => (some d, true)
      | none => (some ⟨0, 0⟩, false)
  ParseInt := sampleLib.ParseInt
  csvRead := sampleLib.csvRead

/-- The fields of a line of unquoted CSV text. -/
def csvFields (line : GoString) : List GoString :=
  stringsSplit line ",".toList

/-- The header row of the kill log. -/
def killLogHeader : GoString :=
  ("Kill #,Timestamp,Bot,Weapon,TTK,Shots,Hits,Accuracy,Damage Done,Damage Possible,"
    ++ "Efficiency,Cheated").toList

/-- A kill log of two data rows. -/
def exampleKillLog : GoString :=
  killLogHeader ++ "\r\n1,13:06:01,target,LG,0.5s,3,2,0.66,100,150,0.66,false".toList
    ++ "\r\n2,13:06:03,target,LG,0.7s,4,4,1.0,200,200,1.0,false".toList

/-- The first data row of `exampleKillLog`. -/
def exampleKillRow1 : List GoString :=
  csvFields "1,13:06:01,target,LG,0.5s,3,2,0.66,100,150,0.66,false".toList

/-- The second data row of `exampleKillLog`. -/
def exampleKillRow2 : List GoString :=
  csvFields "2,13:06:03,target,LG,0.7s,4,4,1.0,200,200,1.0,false".toList

/-- A kill log whose header row has one field, before a data row of twelve. -/
def shortHeaderKillLog : GoString :=
  "Kills\r\n1,13:06:01,target,LG,0.5s,3,2,0.66,100,150,0.66,false".toList

/-- A kill log whose data row has one field more than the header row; its
columns coerce. -/
def longRowKillLog : GoString :=
  killLogHeader ++ "\r\n1,13:06:01,target,LG,0.5s,3,2,0.66,100,150,0.66,false,extra".toList

/-- A kill log whose data row has one field more than the header row, and
"first" for its kill number. -/
def longBadRowKillLog : GoString :=
  killLogHeader
    ++ "\r\nfirst,13:06:01,target,LG,0.5s,3,2,0.66,100,150,0.66,false,extra".toList

/-- A kill log whose second data row has "many" for its shots. -/
def badShotsKillLog : GoString :=
  killLogHeader ++ "\r\n1,13:06:01,target,LG,0.5s,3,2,0.66,100,150,0.66,false".toList
    ++ "\r\n2,13:06:03,target,LG,0.7s,many,4,1.0,200,200,1.0,false".toList

/-- The header row of the weapon table. -/
def weaponHeader : GoString :=
  ("Weapon,Shots,Hits,Damage Done,Damage Possible,,Sens Scale,Horiz Sens,Vert Sens,FOV,"
    ++ "Hide Gun,Crosshair,Crosshair Scale,Crosshair Color,ADS Sens,ADS Zoom Scale").toList

/-- A weapon table whose data rows have five and sixteen fields. -/
def exampleWeaponTable : GoString :=
  weaponHeader ++ "\r\nLG,10,5,50,100".toList
    ++ "\r\nRL,20,8,640,1600,,cm/360,1.2,1.2,103,true,plus.png,1.0,White,0.8,1.0".toList

/-- A weapon table whose data row has seven fields. -/
def sevenFieldWeaponTable : GoString :=
  weaponHeader ++ "\r\nLG,10,5,50,100,,cm/360".toList

/-- A weapon table whose data row has sixteen fields, the ADS sensitivity a
number out of the range of `float64`. -/
def overflowWeaponTable : GoString :=
  weaponHeader
    ++ "\r\nRL,20,8,640,1600,,cm/360,1.2,1.2,103,true,plus.png,1.0,White,1e999,1.0".toList

/-- A stand-in for `json.Marshal`, to run `bufferSessions` on: one object with
the identifier only. -/
def sampleMarshal (session : Session Dec) : Res GoString :=
  Res.ok ("\x7b\"session_hash\":\"".toList ++ session.SessionHash ++ "\"\x7d".toList)

/-- A session with nothing decoded, of identifier `hash`. -/
def emptySession (hash : String) : Session Dec where
  SessionHash := hash.toList
  Time := ⟨2020, 5, 17, 13, 6, 53, 0⟩
  GeneralSettings := none
  WeaponSettings := none
  Statistics := none
  Kills := []

/-- The content `otherContent` followed by one more delimiter: the split on the
delimiter has a fifth, empty block. -/
def trailingDelimiterContent : GoString :=
  otherContent ++ "\r\n\r\n".toList

/-- The general settings of the specification's example, with a crosshair whose
raw value contains ":,". -/
def cutCrosshairSettings : GoString :=
  exampleGeneralSettings ++ "Crosshair:,plus:,big.png".toList

/-- The statistics `exampleStatistics`, with a hash whose raw value contains
":,". -/
def cutHashStatistics : GoString :=
  exampleStatistics ++ "\r\nHash:,abc:,def".toList

/-- The statistics `exampleStatistics`, with a last line for "Kills" whose raw
value, "12:,junk", is no number. -/
def cutKillsStatistics : GoString :=
  exampleStatistics ++ "\r\nKills:,12:,junk".toList

/-- The `float64` fields of a `GeneralSettings`. -/
def GeneralSettings.floats {F : Type} (g : GeneralSettings F) : List F :=
  [g.InputLag, g.MaxFPS, g.HorizSens, g.VertSens, g.FOV, g.CrosshairScale]

/-- The `float64` fields of a `WeaponSettings`. -/
def WeaponSettings.floats {F : Type} (w : WeaponSettings F) : List F :=
  [w.DamageDone, w.DamagePossible, w.HorizSens, w.VertSens, w.FOV, w.CrosshairScale,
    w.ADSSens, w.ADSZoomScale]

/-- The `float64` fields of a `Statistics`. -/
def Statistics.floats {F : Type} (st : Statistics F) : List F :=
  [st.Kills, st.Deaths, st.FightTime, st.AvgTTK, st.DamageDone, st.DamageTaken, st.Midairs,
    st.Midaired, st.Directs, st.Directed, st.DistanceTraveled, st.Score]

/-- The `float64` fields of a `Kill`. -/
def Kill.floats {F : Type} (k : Kill F) : List F :=
  [k.KillNumber, k.Shots, k.Hits, k.Accuracy, k.DamageDone, k.DamagePossible, k.Efficiency]

/-- The `float64` values that `json.Marshal` has to write for a `Session`: those
of the records that are not nil. -/
def Session.floats {F : Type} (s : Session F) : List F :=
  (s.GeneralSettings.map GeneralSettings.floats).getD []
    ++ (s.WeaponSettings.map WeaponSettings.floats).getD []
    ++ (s.Statistics.map Statistics.floats).getD []
    ++ (s.Kills.map Kill.floats).flatten

/-- A stand-in for `json.Marshal` on sessions over the floats of `overflowLib`:
`json.Marshal` returns an `UnsupportedValueError` when a `float64` it has to
write is an infinity (`none`); a session without one is written as
`sampleMarshal` writes it. -/
def overflowMarshal (session : Session (Option Dec)) : Res GoString :=
  if session.floats.all Option.isSome then
    Res.ok ("\x7b\"session_hash\":\"".toList ++ session.SessionHash ++ "\"\x7d".toList)
  else Res.error Error.unsupportedValue

/-- A file of four sections whose weapon table is `overflowWeaponTable`; its
other sections do not decode. -/
def overflowContent : GoString :=
  "a\r\n\r\n".toList ++ overflowWeaponTable ++ "\r\n\r\nc:,d\r\n\r\nd:,u".toList

/-- The session that `overflowContent` holds under the name `exampleFileName`,
with the floats of `overflowLib`: its ADS sensitivity is +Inf. -/
def overflowSession : Session (Option Dec) where
  SessionHash := sprintfHex (sha1Sum (toBytes exampleFileName))
  Time := ⟨2020, 5, 17, 13, 6, 53, 0⟩
  GeneralSettings := none
  WeaponSettings := some {
    Weapon := []
    Shots := 20
    Hits := 8
    DamageDone := some ⟨640, 0⟩
    DamagePossible := some ⟨1600, 0⟩
    SensScale := []
    HorizSens := some ⟨12, 1⟩
    VertSens := some ⟨12, 1⟩
    FOV := some ⟨103, 0⟩
    HideGun := true
    Crosshair := []
    CrosshairScale := some ⟨10, 1⟩
    CrosshairColor := []
    ADSSens := none
    ADSZoomScale := some ⟨10, 1⟩ }
  Statistics := none
  Kills := []

/-- The session `overflowSession` without its weapon settings: it has no float
to write. -/
def finiteSession : Session (Option Dec) where
  SessionHash := sprintfHex (sha1Sum (toBytes exampleFileName))
  Time := ⟨2020, 5, 17, 13, 6, 53, 0⟩
  GeneralSettings := none
  WeaponSettings := none
  Statistics := none
  Kills := []

/-! # Theorems -/

set_option maxRecDepth 100000

/-! ## Sequencing -/

section Basics

variable {α β : Type}

@[simp] theorem Res.bind_ok (a : α) (f : α → Res β) : (Res.ok a).bind f = f a := rfl
@[simp] theorem Res.bind_error (e : Error) (f : α → Res β) :
    (Res.error e : Res α).bind f = Res.error e := rfl
@[simp] theorem Res.bind_runtimePanic (f : α → Res β) :
    (Res.runtimePanic : Res α).bind f = Res.runtimePanic := rfl
@[simp] theorem Res.bind_fatalExit (f : α → Res β) :
    (Res.fatalExit : Res α).bind f = Res.fatalExit := rfl
@[simp] theorem Res.monad_bind (r : Res α) (f : α → Res β) : (r >>= f) = r.bind f := rfl
@[simp] theorem Res.monad_pure (a : α) : (pure a : Res α) = Res.ok a := rfl

theorem Res.bind_eq_ok {r : Res α} {f : α → Res β} {b : β} (h : r.bind f = Res.ok b) :
    ∃ a, r = Res.ok a ∧ f a = Res.ok b := by
  cases r <;> simp_all

theorem Res.ignoreError_eq_ok {dflt v : α} {r : Res α}
    (h : Res.ignoreError dflt r = Res.ok v) : r.resultIs dflt v := by
  cases r <;> simp_all [Res.ignoreError, Res.resultIs]

theorem Res.ignoreError_of_returns {dflt : α} {r : Res α} (h : r.returns = true) :
    ∃ v, Res.ignoreError dflt r = Res.ok v ∧ r.resultIs dflt v := by
  cases r <;> simp_all [Res.ignoreError, Res.resultIs, Res.returns]

end Basics


/-! ## Searching and splitting -/

section Strings

theorem indexOf?_nil_of_ne_nil {d : GoString} (hd : d ≠ []) : indexOf? [] d = none := by
  cases d with
  | nil => exact absurd rfl hd
  | cons c cs => simp [indexOf?]

theorem indexOf?_add_length_le (d : GoString) :
    ∀ (s : GoString) (i : Nat), indexOf? s d = some i → i + d.length ≤ s.length := by
  intro s
  induction s with
  | nil =>
    intro i h
    cases d with
    | nil => simp [indexOf?] at h; omega
    | cons c cs => simp [indexOf?] at h
  | cons c cs ih =>
    intro i h
    unfold indexOf? at h
    split at h
    · rename_i hp
      cases h
      have := ( List.isPrefixOf_iff_prefix.mp hp).length_le
      omega
    · cases hcs : indexOf? cs d with
      | none => simp [hcs] at h
      | some j =>
        simp [hcs] at h
        have := ih j hcs
        subst h
        simp only [List.length_cons]; omega

theorem indexOf?_lt_length {d : GoString} (hd : d ≠ [])
    (s : GoString) (i : Nat) (h : indexOf? s d = some i) : i < s.length := by
  have := indexOf?_add_length_le d s i h
  have hd' : 0 < d.length := List.length_pos.mpr hd
  omega

theorem isPrefixOf_take (d s : GoString) (n : Nat) (h : d.length ≤ n) :
    d.isPrefixOf (s.take n) = d.isPrefixOf s := by
  rw [Bool.eq_iff_iff]
  simp only [ List.isPrefixOf_iff_prefix, List.prefix_take_iff]
  exact ⟨fun h => h.1, fun h' => ⟨h', h⟩⟩

theorem indexOf?_take (d : GoString) :
    ∀ (s : GoString) (n i : Nat), indexOf? (s.take n) d = some i →
      indexOf? s d = some i := by
  intro s
  induction s with
  | nil => intro n i h; simpa using h
  | cons c cs ih =>
    intro n i h
    have hle := indexOf?_add_length_le d _ i h
    cases n with
    | zero =>
      have hd : d = [] := by
        apply List.length_eq_zero.mp
        simp only [List.take_zero, List.length_nil] at hle
        omega
      subst hd
      simp [indexOf?] at h ⊢
      exact h
    | succ n =>
      have hdn : d.length ≤ n + 1 := by
        simp only [List.take_succ_cons, List.length_cons, List.length_take] at hle
        omega
      have hp := isPrefixOf_take d (c :: cs) (n + 1) hdn
      rw [List.take_succ_cons] at h hp
      unfold indexOf? at h ⊢
      rw [hp] at h
      split at h
      · rename_i hq; simp [hq, h]
      · rename_i hq
        simp only [hq]
        cases hcs : indexOf? (List.take n cs) d with
        | none => simp [hcs] at h
        | some j =>
          simp [hcs] at h
          rw [ih n j hcs, ← h]
          simp

theorem length_drop_lt {d s : GoString} (hd : d ≠ []) {i n : Nat}
    (h : indexOf? s d = some i) (hn : s.length ≤ n + 1) :
    (s.drop (i + d.length)).length ≤ n := by
  have := indexOf?_lt_length hd s i h
  have hd' : 0 < d.length := List.length_pos.mpr hd
  simp only [List.length_drop]
  omega

theorem countLoop_stable {d : GoString} (hd : d ≠ []) :
    ∀ (n m : Nat) (s : GoString), s.length ≤ n → s.length ≤ m →
      countLoop d n s = countLoop d m s := by
  intro n
  induction n with
  | zero =>
    intro m s hn _
    have : s = [] := List.length_eq_zero.mp (Nat.le_zero.mp hn)
    subst this
    cases m <;> simp [countLoop, indexOf?_nil_of_ne_nil hd]
  | succ n ih =>
    intro m s hn hm
    cases m with
    | zero =>
      have : s = [] := List.length_eq_zero.mp (Nat.le_zero.mp hm)
      subst this
      simp [countLoop, indexOf?_nil_of_ne_nil hd]
    | succ m =>
      simp only [countLoop]
      cases h : indexOf? s d with
      | none => rfl
      | some i =>
        simp only
        rw [ih m _ (length_drop_lt hd h hn) (length_drop_lt hd h hm)]

theorem tailLoop_stable {d : GoString} (hd : d ≠ []) :
    ∀ (n m : Nat) (s : GoString), s.length ≤ n → s.length ≤ m →
      tailLoop d n s = tailLoop d m s := by
  intro n
  induction n with
  | zero =>
    intro m s hn _
    have : s = [] := List.length_eq_zero.mp (Nat.le_zero.mp hn)
    subst this
    cases m <;> simp [tailLoop, indexOf?_nil_of_ne_nil hd]
  | succ n ih =>
    intro m s hn hm
    cases m with
    | zero =>
      have : s = [] := List.length_eq_zero.mp (Nat.le_zero.mp hm)
      subst this
      simp [tailLoop, indexOf?_nil_of_ne_nil hd]
    | succ m =>
      simp only [tailLoop]
      cases h : indexOf? s d with
      | none => rfl
      | some i =>
        simp only
        rw [ih m _ (length_drop_lt hd h hn) (length_drop_lt hd h hm)]

theorem stringsCount_of_none {d s : GoString} (h : indexOf? s d = none) :
    stringsCount s d = 0 := by
  unfold stringsCount
  cases hl : s.length <;> simp [countLoop, h]

theorem stringsCount_of_some {d s : GoString} (hd : d ≠ []) {i : Nat}
    (h : indexOf? s d = some i) :
    stringsCount s d = stringsCount (s.drop (i + d.length)) d + 1 := by
  unfold stringsCount
  have hlt := indexOf?_lt_length hd s i h
  cases hl : s.length with
  | zero => omega
  | succ n =>
    simp only [countLoop, h]
    rw [countLoop_stable hd n _ _ (length_drop_lt hd h (by omega)) (le_refl _)]

theorem afterLast_of_none {d s : GoString} (h : indexOf? s d = none) :
    afterLast s d = s := by
  unfold afterLast
  cases hl : s.length <;> simp [tailLoop, h]

theorem afterLast_of_some {d s : GoString} (hd : d ≠ []) {i : Nat}
    (h : indexOf? s d = some i) :
    afterLast s d = afterLast (s.drop (i + d.length)) d := by
  unfold afterLast
  have hlt := indexOf?_lt_length hd s i h
  cases hl : s.length with
  | zero => omega
  | succ n =>
    simp only [tailLoop, h]
    rw [tailLoop_stable hd n _ _ (length_drop_lt hd h (by omega)) (le_refl _)]


theorem stringsIndex_of_some {s d : GoString} {i : Nat} (h : indexOf? s d = some i) :
    stringsIndex s d = (i : Int) := by
  simp [stringsIndex, h]

theorem stringsIndex_of_none {s d : GoString} (h : indexOf? s d = none) :
    stringsIndex s d = -1 := by
  simp [stringsIndex, h]

theorem splitAt_of_some {d data : GoString} {i : Nat} (atEOF : Bool)
    (h : indexOf? data d = some i) (hne : data ≠ []) :
    splitAt d data atEOF = (i + d.length, some (data.take i)) := by
  have : data.length ≠ 0 := fun h0 => hne (List.length_eq_zero.mp h0)
  simp [splitAt, stringsIndex_of_some h, this]

theorem splitAt_of_none_atEOF {d data : GoString}
    (h : indexOf? data d = none) (hne : data ≠ []) :
    splitAt d data true = (data.length, some data) := by
  have : data.length ≠ 0 := fun h0 => hne (List.length_eq_zero.mp h0)
  simp [splitAt, stringsIndex_of_none h, this]

theorem splitAt_of_none {d data : GoString} (h : indexOf? data d = none) :
    splitAt d data false = (0, none) := by
  simp [splitAt, stringsIndex_of_none h]

theorem splitAt_nil_atEOF (d : GoString) : splitAt d [] true = (0, none) := by
  simp [splitAt]

theorem scanLoop_nil (d : GoString) (fuel : Nat) (acc : List GoString) :
    scanLoop (splitAt d) (fuel + 1) [] acc = (acc, none) := by
  have hM : (0 : Nat) < maxScanTokenSize := by decide
  simp [scanLoop, splitAt_nil_atEOF, hM]

/-- The sections found from `rest` on, against the count of delimiters in `rest`. -/
theorem scanLoop_count {d : GoString} (hd : d ≠ []) :
    ∀ (fuel : Nat) (rest : GoString) (acc : List GoString), rest.length < fuel →
      (scanLoop (splitAt d) fuel rest acc).1.length ≤ acc.length + stringsCount rest d + 1 ∧
      ((scanLoop (splitAt d) fuel rest acc).2 = none →
        (scanLoop (splitAt d) fuel rest acc).1.length
          = acc.length + stringsCount rest d + (if afterLast rest d = [] then 0 else 1)) := by
  intro fuel
  induction fuel with
  | zero => intro rest acc h; omega
  | succ fuel ih =>
    intro rest acc hlt
    cases rest with
    | nil =>
      have h0 : indexOf? ([] : GoString) d = none := indexOf?_nil_of_ne_nil hd
      simp [scanLoop_nil, stringsCount_of_none h0, afterLast_of_none h0]
    | cons c cs =>
      have hM : 0 < maxScanTokenSize := by decide
      cases hi : indexOf? ((c :: cs).take maxScanTokenSize) d with
      | some i =>
        have hi' := indexOf?_take d _ _ _ hi
        have hlen : ((c :: cs).drop (i + d.length)).length < fuel := by
          have := length_drop_lt hd (n := fuel) hi' (by omega)
          have h1 := indexOf?_lt_length hd _ _ hi'
          have hd' : 0 < d.length := List.length_pos.mpr hd
          simp only [List.length_drop] at this ⊢
          omega
        have key := ih ((c :: cs).drop (i + d.length))
          (acc ++ [((c :: cs).take maxScanTokenSize).take i]) hlen
        have hstep : scanLoop (splitAt d) (fuel + 1) (c :: cs) acc
            = scanLoop (splitAt d) fuel ((c :: cs).drop (i + d.length))
                (acc ++ [((c :: cs).take maxScanTokenSize).take i]) := by
          have hne : (c :: cs).take maxScanTokenSize ≠ [] := by
            intro h0
            have := congrArg List.length h0
            simp only [List.length_take, List.length_cons, List.length_nil] at this
            omega
          simp only [scanLoop, splitAt_of_some _ hi hne]
        rw [hstep, stringsCount_of_some hd hi', afterLast_of_some hd hi']
        simp only [List.length_append, List.length_singleton] at key
        constructor
        · omega
        · intro he; have := key.2 he; omega
      | none =>
        by_cases hE : (c :: cs).length < maxScanTokenSize
        · have htake : (c :: cs).take maxScanTokenSize = c :: cs :=
            List.take_of_length_le (by omega)
          rw [htake] at hi
          have hfuel : fuel ≠ 0 := by
            simp only [List.length_cons] at hlt; omega
          obtain ⟨k, rfl⟩ := Nat.exists_eq_succ_of_ne_zero hfuel
          have hstep : scanLoop (splitAt d) (k + 1 + 1) (c :: cs) acc
              = (acc ++ [c :: cs], none) := by
            rw [scanLoop, htake]
            simp only [hE, decide_True, splitAt_of_none_atEOF hi (List.cons_ne_nil c cs)]
            rw [List.drop_length, scanLoop_nil]
          rw [hstep, stringsCount_of_none hi, afterLast_of_none hi]
          simp
        · have hstep : scanLoop (splitAt d) (fuel + 1) (c :: cs) acc
              = (acc, some Error.tokenTooLong) := by
            rw [scanLoop]
            simp only [hE, decide_False, splitAt_of_none hi]
            simp
          rw [hstep]
          simp
          omega

end Strings

/-! ## `parseSession` -/

section Session

variable {F : Type}

/-- With four sections and no scanner error, `parseSession` is the chain of the five
parsers. -/
theorem parseSession_of_sections (lib : Lib F) (fileName content b0 b1 b2 b3 : GoString)
    (h : scanSections content = ([b0, b1, b2, b3], none)) :
    parseSession lib fileName content =
      (parseTimeStamp fileName).bind fun timeStamp =>
      (Res.ignoreError none ((parseGeneralSettings lib b3).map some)).bind fun g =>
      (Res.ignoreError none (parseWeaponSettings lib b1)).bind fun w =>
      (Res.ignoreError none ((parseSessionStats lib b2).map some)).bind fun st =>
      (Res.ignoreError [] (parseKills lib b0)).bind fun kills =>
      Res.ok ⟨sprintfHex (sha1Sum (toBytes fileName)), timeStamp, g, w, st, kills⟩ := by
  simp [parseSession, h, index]

/-- A successful `parseSession` had four sections and no scanner error. -/
theorem sections_of_parseSession_ok (lib : Lib F) (fileName content : GoString)
    (s : Session F) (h : parseSession lib fileName content = Res.ok s) :
    ∃ b0 b1 b2 b3, scanSections content = ([b0, b1, b2, b3], none) := by
  unfold parseSession at h
  rcases hs : scanSections content with ⟨sections, err⟩
  rw [hs] at h
  cases err with
  | some e => simp at h
  | none =>
    simp only at h
    by_cases hl : sections.length = 4
    · match sections, hl with
      | [b0, b1, b2, b3], _ => exact ⟨b0, b1, b2, b3, rfl⟩
    · simp [hl] at h

end Session

section SessionClaims
variable {F : Type}

theorem sha1Sum_length (msg : List Nat) : (sha1Sum msg).length = 20 := by
  simp [sha1Sum, wordBytes]

/-- The digest of "abc", the first test vector of the SHA-1 standard. -/
theorem sha1Sum_test_vector :
    sprintfHex (sha1Sum (toBytes "abc".toList))
      = "a9993e364706816aba3e25717850c26c9cd0d89d".toList := by
  decide

/-- The digest of the 56-byte message of the SHA-1 standard, whose padding fills
a second block. -/
theorem sha1Sum_test_vector_two_blocks :
    sprintfHex (sha1Sum
        (toBytes "abcdbcdecdefdefgefghfghighijhijkijkljklmklmnlmnomnopnopq".toList))
      = "84983e441c3bd26ebaae4aa1f95129e5e54670f1".toList := by
  decide

/-- The digest of the file name `exampleFileName`. -/
theorem sha1Sum_exampleFileName :
    sprintfHex (sha1Sum (toBytes exampleFileName))
      = "461c7b7f512cc5da0e6af28a5ee74e9a38bada5a".toList := by
  decide

theorem sprintfHex_length (bs : List Nat) : (sprintfHex bs).length = 2 * bs.length := by
  induction bs with
  | nil => rfl
  | cons b bs ih => simp [sprintfHex, ih]; omega

theorem hexDigit_mem (n : Nat) (h : n < 16) : hexDigit n ∈ "0123456789abcdef".toList := by
  interval_cases n <;> decide

theorem sprintfHex_chars (bs : List Nat) :
    ∀ c ∈ sprintfHex bs, c ∈ "0123456789abcdef".toList := by
  induction bs with
  | nil => simp [sprintfHex]
  | cons b bs ih =>
    intro c hc
    simp only [sprintfHex, List.mem_cons] at hc
    rcases hc with rfl | rfl | hc
    · exact hexDigit_mem _ (Nat.mod_lt _ (by decide))
    · exact hexDigit_mem _ (Nat.mod_lt _ (by decide))
    · exact ih c hc

/-- Claim C1 as stated fails: the file name gives a timestamp and the content
splits into exactly four blocks, but the general-settings block is the line
"d", which has no ":,", and `parseSession` panics on `headingAndValue[1]`. -/
theorem parseSession_crash_on_malformed :
    parseTimeStamp "x - 2023.01.15-14.05.30.csv".toList = Res.ok ⟨2023, 1, 15, 14, 5, 30, 0⟩ ∧
    scanSections "a\r\n\r\nb\r\n\r\nc\r\n\r\nd".toList
      = (["a".toList, "b".toList, "c".toList, "d".toList], none) ∧
    parseSession sampleLib "x - 2023.01.15-14.05.30.csv".toList
      "a\r\n\r\nb\r\n\r\nc\r\n\r\nd".toList = Res.runtimePanic := by
  decide

/-- The session that `parseSession` returns, from the results of the five
parsers. -/
theorem parseSession_eq_ok (lib : Lib F) (fileName content b0 b1 b2 b3 : GoString)
    (t : Time) (g : Option (GeneralSettings F)) (w : Option (WeaponSettings F))
    (st : Option (Statistics F)) (kills : List (Kill F))
    (hs : scanSections content = ([b0, b1, b2, b3], none))
    (ht : parseTimeStamp fileName = Res.ok t)
    (hg : ((parseGeneralSettings lib b3).map some).resultIs none g)
    (hw : (parseWeaponSettings lib b1).resultIs none w)
    (hst : ((parseSessionStats lib b2).map some).resultIs none st)
    (hk : (parseKills lib b0).resultIs [] kills) :
    parseSession lib fileName content =
      Res.ok ⟨sprintfHex (sha1Sum (toBytes fileName)), t, g, w, st, kills⟩ := by
  rw [parseSession_of_sections lib fileName content b0 b1 b2 b3 hs, ht]
  have e1 : Res.ignoreError none ((parseGeneralSettings lib b3).map some) = Res.ok g := by
    rcases hg with h | ⟨⟨e, h⟩, rfl⟩ <;> simp [h, Res.ignoreError]
  have e2 : Res.ignoreError none (parseWeaponSettings lib b1) = Res.ok w := by
    rcases hw with h | ⟨⟨e, h⟩, rfl⟩ <;> simp [h, Res.ignoreError]
  have e3 : Res.ignoreError none ((parseSessionStats lib b2).map some) = Res.ok st := by
    rcases hst with h | ⟨⟨e, h⟩, rfl⟩ <;> simp [h, Res.ignoreError]
  have e4 : Res.ignoreError [] (parseKills lib b0) = Res.ok kills := by
    rcases hk with h | ⟨⟨e, h⟩, rfl⟩ <;> simp [h, Res.ignoreError]
  simp [e1, e2, e3, e4]

/-- What a successful `parseSession` says about the five parsers. -/
theorem parseSession_ok_inv (lib : Lib F) (fileName content : GoString) (s : Session F)
    (h : parseSession lib fileName content = Res.ok s) :
    ∃ b0 b1 b2 b3, scanSections content = ([b0, b1, b2, b3], none) ∧
      s.SessionHash = sprintfHex (sha1Sum (toBytes fileName)) ∧
      parseTimeStamp fileName = Res.ok s.Time ∧
      ((parseGeneralSettings lib b3).map some).resultIs none s.GeneralSettings ∧
      (parseWeaponSettings lib b1).resultIs none s.WeaponSettings ∧
      ((parseSessionStats lib b2).map some).resultIs none s.Statistics ∧
      (parseKills lib b0).resultIs [] s.Kills := by
  obtain ⟨b0, b1, b2, b3, hs⟩ := sections_of_parseSession_ok lib fileName content s h
  refine ⟨b0, b1, b2, b3, hs, ?_⟩
  rw [parseSession_of_sections lib fileName content b0 b1 b2 b3 hs] at h
  obtain ⟨t, ht, h⟩ := Res.bind_eq_ok h
  obtain ⟨g, hg, h⟩ := Res.bind_eq_ok h
  obtain ⟨w, hw, h⟩ := Res.bind_eq_ok h
  obtain ⟨st, hst, h⟩ := Res.bind_eq_ok h
  obtain ⟨kills, hk, h⟩ := Res.bind_eq_ok h
  cases h
  exact ⟨rfl, ht, Res.ignoreError_eq_ok hg, Res.ignoreError_eq_ok hw,
    Res.ignoreError_eq_ok hst, Res.ignoreError_eq_ok hk⟩

/-- Claim C4.  Fixed section order: when `parseSession` succeeds, the content
has exactly four blocks `b0, b1, b2, b3` in file order, `Kills` is the result of
`parseKills b0`, `WeaponSettings` that of `parseWeaponSettings b1`, `Statistics`
that of `parseSessionStats b2`, `GeneralSettings` that of
`parseGeneralSettings b3` (the nil value when the parser returned an error), and
`Time` is the result of `parseTimeStamp` on the file name. -/
theorem parseSession_section_order (lib : Lib F) (fileName content : GoString)
    (s : Session F) (h : parseSession lib fileName content = Res.ok s) :
    ∃ b0 b1 b2 b3, scanSections content = ([b0, b1, b2, b3], none) ∧
      (parseKills lib b0).resultIs [] s.Kills ∧
      (parseWeaponSettings lib b1).resultIs none s.WeaponSettings ∧
      ((parseSessionStats lib b2).map some).resultIs none s.Statistics ∧
      ((parseGeneralSettings lib b3).map some).resultIs none s.GeneralSettings ∧
      parseTimeStamp fileName = Res.ok s.Time := by
  obtain ⟨b0, b1, b2, b3, hs, -, ht, hg, hw, hst, hk⟩ :=
    parseSession_ok_inv lib fileName content s h
  exact ⟨b0, b1, b2, b3, hs, hk, hw, hst, hg, ht⟩

/-- Claim C3.  The identifier is a function of the file name only: for every
file name and every two contents on which `parseSession` succeeds, the
identifier is the `%x` encoding of the SHA-1 digest of the bytes of the file
name, forty lower-case hexadecimal digits, and the two sessions have the same
identifier.  The digest is that of the SHA-1 standard: on the two test messages
of the standard it has the values the standard gives, and the identifier of
every session read from a file named
"1wall5targets_pasu - Challenge - 2020.05.17-13.06.53 Stats.csv" is
461c7b7f512cc5da0e6af28a5ee74e9a38bada5a. -/
theorem parseSession_identifier (lib : Lib F) (fileName c1 c2 : GoString)
    (s1 s2 : Session F) (h1 : parseSession lib fileName c1 = Res.ok s1)
    (h2 : parseSession lib fileName c2 = Res.ok s2) :
    s1.SessionHash = sprintfHex (sha1Sum (toBytes fileName)) ∧
    s1.SessionHash.length = 40 ∧
    (∀ c ∈ s1.SessionHash, c ∈ "0123456789abcdef".toList) ∧
    s2.SessionHash = s1.SessionHash ∧
    sprintfHex (sha1Sum (toBytes "abc".toList))
      = "a9993e364706816aba3e25717850c26c9cd0d89d".toList ∧
    sprintfHex (sha1Sum
        (toBytes "abcdbcdecdefdefgefghfghighijhijkijkljklmklmnlmnomnopnopq".toList))
      = "84983e441c3bd26ebaae4aa1f95129e5e54670f1".toList ∧
    (fileName = "1wall5targets_pasu - Challenge - 2020.05.17-13.06.53 Stats.csv".toList →
      s1.SessionHash = "461c7b7f512cc5da0e6af28a5ee74e9a38bada5a".toList) := by
  obtain ⟨_, _, _, _, -, e1, -⟩ := parseSession_ok_inv lib fileName c1 s1 h1
  obtain ⟨_, _, _, _, -, e2, -⟩ := parseSession_ok_inv lib fileName c2 s2 h2
  refine ⟨e1, ?_, ?_, by rw [e1, e2], sha1Sum_test_vector, sha1Sum_test_vector_two_blocks, ?_⟩
  · rw [e1, sprintfHex_length, sha1Sum_length]
  · rw [e1]; exact sprintfHex_chars _
  · intro hn
    rw [e1, hn]
    exact sha1Sum_exampleFileName

/-- Claim C1, amended.  Assembly is best-effort for decode errors: for every
file name from which `parseTimeStamp` returns a timestamp and every content that
the scanner splits into exactly four blocks, if each of the four decoders
returns on its block (a value or an error, no panic on an index out of range),
`parseSession` returns a `Session` and no error, and each of `GeneralSettings`,
`WeaponSettings`, `Statistics` and `Kills` whose decoder returned an error is
absent (nil, empty) in that `Session`. -/
theorem parseSession_best_effort (lib : Lib F) (fileName content b0 b1 b2 b3 : GoString)
    (t : Time) (ht : parseTimeStamp fileName = Res.ok t)
    (hs : scanSections content = ([b0, b1, b2, b3], none))
    (hg : (parseGeneralSettings lib b3).returns = true)
    (hw : (parseWeaponSettings lib b1).returns = true)
    (hst : (parseSessionStats lib b2).returns = true)
    (hk : (parseKills lib b0).returns = true) :
    ∃ s, parseSession lib fileName content = Res.ok s ∧
      ((parseGeneralSettings lib b3).isError = true → s.GeneralSettings = none) ∧
      ((parseWeaponSettings lib b1).isError = true → s.WeaponSettings = none) ∧
      ((parseSessionStats lib b2).isError = true → s.Statistics = none) ∧
      ((parseKills lib b0).isError = true → s.Kills = []) := by
  rw [parseSession_of_sections lib fileName content b0 b1 b2 b3 hs, ht]
  cases hg' : parseGeneralSettings lib b3 <;> simp [hg', Res.returns] at hg <;>
  cases hw' : parseWeaponSettings lib b1 <;> simp [hw', Res.returns] at hw <;>
  cases hst' : parseSessionStats lib b2 <;> simp [hst', Res.returns] at hst <;>
  cases hk' : parseKills lib b0 <;> simp [hk', Res.returns] at hk <;>
  simp [Res.ignoreError, Res.map, Res.isError]
end SessionClaims

section SessionWitnesses

theorem parseSession_example :
    parseSession sampleLib exampleFileName exampleContent = Res.ok exampleSession :=
  parseSession_eq_ok sampleLib exampleFileName exampleContent
    "Kill #,Timestamp".toList "Weapon,Shots".toList "Kills:,none".toList exampleGeneralSettings
    _ _ _ _ _ (by decide) (by decide) (Or.inl (by decide)) (Or.inl (by decide))
    (Or.inr ⟨⟨Error.cannotParse "none".toList "float".toList "Kills".toList, by decide⟩, rfl⟩)
    (Or.inl (by decide))

theorem parseSession_other :
    parseSession sampleLib exampleFileName otherContent = Res.ok otherSession :=
  parseSession_eq_ok sampleLib exampleFileName otherContent
    "a".toList "b".toList "c:,d".toList "d:,u".toList
    _ _ _ _ _ (by decide) (by decide)
    (Or.inr ⟨⟨Error.cannotParse [] "float".toList "Input Lag".toList, by decide⟩, rfl⟩)
    (Or.inl (by decide))
    (Or.inr ⟨⟨Error.cannotParse [] "float".toList "Kills".toList, by decide⟩, rfl⟩)
    (Or.inl (by decide))

theorem parseSession_best_effort_witness :
    ∃ s, parseSession sampleLib exampleFileName exampleContent = Res.ok s ∧
      ((parseGeneralSettings sampleLib exampleGeneralSettings).isError = true →
        s.GeneralSettings = none) ∧
      ((parseWeaponSettings sampleLib "Weapon,Shots".toList).isError = true →
        s.WeaponSettings = none) ∧
      ((parseSessionStats sampleLib "Kills:,none".toList).isError = true →
        s.Statistics = none) ∧
      ((parseKills sampleLib "Kill #,Timestamp".toList).isError = true → s.Kills = []) :=
  parseSession_best_effort sampleLib exampleFileName exampleContent
    "Kill #,Timestamp".toList "Weapon,Shots".toList "Kills:,none".toList exampleGeneralSettings
    ⟨2020, 5, 17, 13, 6, 53, 0⟩ (by decide) (by decide) (by decide) (by decide) (by decide)
    (by decide)

theorem parseSession_identifier_witness :
    exampleContent ≠ otherContent ∧
    exampleSession.SessionHash = "461c7b7f512cc5da0e6af28a5ee74e9a38bada5a".toList ∧
    otherSession.SessionHash = "461c7b7f512cc5da0e6af28a5ee74e9a38bada5a".toList := by
  have h := parseSession_identifier sampleLib exampleFileName exampleContent otherContent
    exampleSession otherSession parseSession_example parseSession_other
  have e := h.2.2.2.2.2.2 rfl
  exact ⟨by decide, e, by rw [h.2.2.2.1, e]⟩

theorem parseSession_section_order_witness :
    ∃ b0 b1 b2 b3, scanSections exampleContent = ([b0, b1, b2, b3], none) ∧
      (parseKills sampleLib b0).resultIs [] exampleSession.Kills ∧
      (parseWeaponSettings sampleLib b1).resultIs none exampleSession.WeaponSettings ∧
      ((parseSessionStats sampleLib b2).map some).resultIs none exampleSession.Statistics ∧
      ((parseGeneralSettings sampleLib b3).map some).resultIs none
        exampleSession.GeneralSettings ∧
      parseTimeStamp exampleFileName = Res.ok exampleSession.Time :=
  parseSession_section_order sampleLib exampleFileName exampleContent exampleSession
    parseSession_example

end SessionWitnesses

/-! ## The scanner and `parseTimeStamp` -/

section ScannerAndTimestamp

/-- Claim C5, amended.  For every content, the number of blocks that the scan
with `splitAt("\r\n\r\n")` yields is at most the number of non-overlapping
instances of the delimiter plus one; when the scan ends without a scanner error
it is that number plus one if some text follows the last instance, and that
number if none does (the empty content, a content that ends with the
delimiter).  So a content with fewer than three instances never yields exactly
four blocks. -/
theorem scanSections_block_count (content : GoString) :
    (scanSections content).1.length ≤ stringsCount content "\r\n\r\n".toList + 1 ∧
    ((scanSections content).2 = none →
      (scanSections content).1.length = stringsCount content "\r\n\r\n".toList
        + (if afterLast content "\r\n\r\n".toList = [] then 0 else 1)) ∧
    (stringsCount content "\r\n\r\n".toList < 3 → (scanSections content).1.length ≠ 4) := by
  have h := scanLoop_count (d := "\r\n\r\n".toList) (by decide) (content.length + 1) content []
    (Nat.lt_succ_self _)
  simp only [List.length_nil, Nat.zero_add] at h
  refine ⟨h.1, h.2, fun hlt => ?_⟩
  have := h.1
  unfold scanSections
  omega

theorem scanSections_block_count_witness :
    (scanSections "a\r\n\r\nb".toList).1.length = 2 ∧
    stringsCount "a\r\n\r\nb".toList "\r\n\r\n".toList = 1 ∧
    (scanSections "a\r\n\r\nb".toList).1.length ≠ 4 :=
  ⟨by decide, by decide,
    (scanSections_block_count "a\r\n\r\nb".toList).2.2 (by decide)⟩

/-- Claim C5 as stated fails: a content that ends with the delimiter has two
instances of it and two blocks, not three. -/
theorem scanSections_trailing_delimiter :
    (scanSections "a\r\n\r\nb\r\n\r\n".toList).1 = ["a".toList, "b".toList] ∧
    stringsCount "a\r\n\r\nb\r\n\r\n".toList "\r\n\r\n".toList = 2 ∧
    (scanSections "a\r\n\r\nb\r\n\r\n".toList).1.length
      ≠ stringsCount "a\r\n\r\nb\r\n\r\n".toList "\r\n\r\n".toList + 1 := by
  decide

/-- Claim C6, amended.  On the file name
"Score - 1v1novawall - 2023.01.15-14.05.30.csv", in which the last " - " stands
right before the 19-byte token `YYYY.MM.DD-HH.MM.SS`, `parseTimeStamp` returns
the timestamp 2023-01-15 14:05:30 and no error. -/
theorem parseTimeStamp_example :
    parseTimeStamp "Score - 1v1novawall - 2023.01.15-14.05.30.csv".toList
      = Res.ok ⟨2023, 1, 15, 14, 5, 30, 0⟩ := by
  decide

/-- Claim C6 as stated fails: in "Score - 1v1novawall - 2023.01.15 - 14.05.30.csv"
the last " - " stands between the date and the time, twelve bytes follow it, and
the slice of nineteen bytes panics. -/
theorem parseTimeStamp_spaced_token_panics :
    parseTimeStamp "Score - 1v1novawall - 2023.01.15 - 14.05.30.csv".toList
      = Res.runtimePanic := by
  decide

theorem indexOf?_singleton_of_not_mem (c : Char) :
    ∀ (s : GoString), c ∉ s → indexOf? s [c] = none := by
  intro s
  induction s with
  | nil => intro _; rfl
  | cons x xs ih =>
    intro h
    simp only [List.mem_cons, not_or] at h
    have hx : (c == x) = false := by simpa using h.1
    simp [indexOf?, List.isPrefixOf, hx, ih h.2]

theorem stringsLastIndex_ge (s d : GoString) : -1 ≤ stringsLastIndex s d := by
  unfold stringsLastIndex
  cases lastIndexOf? s d with
  | none => exact le_refl _
  | some i => exact Int.le_trans (by decide) (Int.ofNat_nonneg i)

/-- Claim C7, amended.  For every file name that has nineteen bytes from the
start index on (the index after the last " - ", or 2 when there is no " - "),
`parseTimeStamp` ends in one of three ways.  It ends the process through
`log.Fatalln` when the window of nineteen bytes, its first "-" replaced by a
space, does not split at spaces into exactly two fields; this is so for every
window that has neither a "-" nor a space.  Otherwise it returns the timestamp
that `time.Parse` reads in the normalised text, or, when `time.Parse` rejects
that text, the error "unable to parse timestamp: " with the text. -/
theorem parseTimeStamp_outcomes (filePath : GoString)
    (hrange : stringsLastIndex filePath " - ".toList + 3 + 19 ≤ (filePath.length : Int)) :
    let window := (filePath.drop (stringsLastIndex filePath " - ".toList + 3).toNat).take 19
    let fields := stringsSplit (stringsReplace window "-".toList " ".toList 1) " ".toList
    let text := stringsReplace (fields.getD 0 []) ".".toList "-".toList (-1) ++ " ".toList
      ++ stringsReplace (fields.getD 1 []) ".".toList ":".toList (-1)
    (fields.length ≠ 2 → parseTimeStamp filePath = Res.fatalExit) ∧
    (fields.length = 2 → ∀ t, timeParse text = some t → parseTimeStamp filePath = Res.ok t) ∧
    (fields.length = 2 → timeParse text = none →
      parseTimeStamp filePath = Res.error (Error.timestamp text)) ∧
    ('-' ∉ window → ' ' ∉ window → parseTimeStamp filePath = Res.fatalExit) := by
  intro window fields text
  have hge := stringsLastIndex_ge filePath " - ".toList
  have hslice : sliceStr filePath (stringsLastIndex filePath " - ".toList + 3)
      (stringsLastIndex filePath " - ".toList + 3 + 19) = Res.ok window := by
    unfold sliceStr
    rw [if_pos ⟨by omega, by omega, hrange⟩]
    have e : (stringsLastIndex filePath " - ".toList + 3 + 19).toNat
        - (stringsLastIndex filePath " - ".toList + 3).toNat = 19 := by omega
    rw [e]
  have hmain : parseTimeStamp filePath =
      if fields.length ≠ 2 then Res.fatalExit
      else match timeParse text with
        | some timestamp => Res.ok timestamp
        | none => Res.error (Error.timestamp text) := by
    unfold parseTimeStamp
    simp only [hslice]
  have hfatal : fields.length ≠ 2 → parseTimeStamp filePath = Res.fatalExit := by
    intro h
    rw [hmain, if_pos h]
  refine ⟨hfatal, ?_, ?_, ?_⟩
  · intro h t ht
    rw [hmain, if_neg (not_not.mpr h), ht]
  · intro h ht
    rw [hmain, if_neg (not_not.mpr h), ht]
  · intro h1 h2
    apply hfatal
    have e1 : stringsReplace window "-".toList " ".toList 1 = window := by
      simp [stringsReplace, replaceLoop, indexOf?_singleton_of_not_mem '-' window h1]
    have e2 : fields = [window] := by
      show stringsSplit (stringsReplace window "-".toList " ".toList 1) " ".toList = [window]
      rw [e1]
      unfold stringsSplit
      cases window.length <;>
        simp [splitLoop, indexOf?_singleton_of_not_mem ' ' window h2]
    rw [e2]
    simp

theorem parseTimeStamp_outcomes_witness :
    parseTimeStamp "x - 2023.02.30-14.05.30".toList
      = Res.error (Error.timestamp "2023-02-30 14:05:30".toList) :=
  (parseTimeStamp_outcomes "x - 2023.02.30-14.05.30".toList (by decide)).2.2.1
    (by decide) (by decide)

/-- Claim C7 as stated fails: a token with no "-" ends the process through
`log.Fatalln`; no error is returned. -/
theorem parseTimeStamp_exits_without_hyphen :
    parseTimeStamp "x - 2023.01.15.14.05.30".toList = Res.fatalExit := by
  decide

end ScannerAndTimestamp

section UpstreamConvention

theorem isDigit_ne {c : Char} (h : isDigit c = true) :
    (c ≠ '-' ∧ c ≠ '.' ∧ c ≠ ' ') ∧ ('-' ≠ c ∧ '.' ≠ c ∧ ' ' ≠ c) := by
  refine ⟨⟨?_, ?_, ?_⟩, ?_, ?_, ?_⟩ <;> (intro e; subst e; revert h; decide)

theorem upstream_normalise (y1 y2 y3 y4 m1 m2 d1 d2 h1 h2 n1 n2 s1 s2 : Char)
    (hd : ∀ c ∈ [y1, y2, y3, y4, m1, m2, d1, d2, h1, h2, n1, n2, s1, s2], isDigit c = true) :
    stringsSplit (stringsReplace
      [y1, y2, y3, y4, '.', m1, m2, '.', d1, d2, '-', h1, h2, '.', n1, n2, '.', s1, s2]
      "-".toList " ".toList 1) " ".toList
      = [[y1, y2, y3, y4, '.', m1, m2, '.', d1, d2], [h1, h2, '.', n1, n2, '.', s1, s2]] := by
  simp only [List.mem_cons, List.mem_singleton, forall_eq_or_imp, forall_eq, List.not_mem_nil, false_implies, implies_true, and_true] at hd
  obtain ⟨a1, a2, a3, a4, a5, a6, a7, a8, a9, a10, a11, a12, a13, a14⟩ := hd
  have b1 := isDigit_ne a1; have b2 := isDigit_ne a2; have b3 := isDigit_ne a3
  have b4 := isDigit_ne a4; have b5 := isDigit_ne a5; have b6 := isDigit_ne a6
  have b7 := isDigit_ne a7; have b8 := isDigit_ne a8; have b9 := isDigit_ne a9
  have b10 := isDigit_ne a10; have b11 := isDigit_ne a11; have b12 := isDigit_ne a12
  have b13 := isDigit_ne a13; have b14 := isDigit_ne a14
  simp [stringsSplit, stringsReplace, splitLoop, replaceLoop, indexOf?, b1, b2, b3, b4, b5, b6, b7, b8, b9, b10, b11, b12, b13, b14]


theorem skip_literal (c : Char) (rest : GoString) (hc : c ≠ ' ') :
    skip (c :: rest) c = some rest := by
  simp [skip, hc]

theorem skip_space (c : Char) (rest : GoString) (hc : c ≠ ' ') :
    skip (' ' :: c :: rest) ' ' = some (c :: rest) := by
  simp [skip, List.dropWhile, hc]

theorem getnum_two (a b : Char) (rest : GoString) (fixed : Bool)
    (ha : isDigit a = true) (hb : isDigit b = true) :
    getnum (a :: b :: rest) fixed = some (digitVal a * 10 + digitVal b, rest) := by
  simp [getnum, ha, hb]

theorem upstream_timeParse (y1 y2 y3 y4 m1 m2 d1 d2 h1 h2 n1 n2 s1 s2 : Char)
    (hd : ∀ c ∈ [y1, y2, y3, y4, m1, m2, d1, d2, h1, h2, n1, n2, s1, s2], isDigit c = true)
    (hmonth : 1 ≤ decimalValue [m1, m2] ∧ decimalValue [m1, m2] ≤ 12)
    (hday : 1 ≤ decimalValue [d1, d2] ∧
      decimalValue [d1, d2] ≤ daysIn (decimalValue [m1, m2]) (decimalValue [y1, y2, y3, y4]))
    (hhour : decimalValue [h1, h2] < 24)
    (hmin : decimalValue [n1, n2] < 60)
    (hsec : decimalValue [s1, s2] < 60) :
    timeParse
      [y1, y2, y3, y4, '-', m1, m2, '-', d1, d2, ' ', h1, h2, ':', n1, n2, ':', s1, s2]
      = some ⟨decimalValue [y1, y2, y3, y4], decimalValue [m1, m2], decimalValue [d1, d2],
          decimalValue [h1, h2], decimalValue [n1, n2], decimalValue [s1, s2], 0⟩ := by
  simp only [List.mem_cons, List.mem_singleton, forall_eq_or_imp, forall_eq, List.not_mem_nil, false_implies, implies_true, and_true] at hd
  obtain ⟨a1, a2, a3, a4, a5, a6, a7, a8, a9, a10, a11, a12, a13, a14⟩ := hd
  have b9 := isDigit_ne a9
  simp only [decimalValue, List.foldl, Nat.zero_mul, Nat.zero_add] at hmonth hday hhour hmin hsec ⊢
  have hy : atoi [y1, y2, y3, y4] = some (((((digitVal y1 * 10 + digitVal y2) * 10 + digitVal y3) * 10 + digitVal y4 : Nat)) : Int) := by
    have := isDigit_ne a1
    have hp : y1 ≠ '+' := by intro e; subst e; revert a1; decide
    simp [atoi, leadingInt, a1, a2, a3, a4, this, hp]
  have hm : ¬ (digitVal m1 * 10 + digitVal m2 = 0 ∨ 12 < digitVal m1 * 10 + digitVal m2) := by omega
  have hdd : ¬ (digitVal d1 * 10 + digitVal d2 < 1 ∨ digitVal d1 * 10 + digitVal d2 >
      daysIn (digitVal m1 * 10 + digitVal m2)
        (((((digitVal y1 * 10 + digitVal y2) * 10 + digitVal y3) * 10 + digitVal y4 : Nat)) : Int)) := by
    omega
  unfold timeParse
  simp only [List.length_cons, List.length_nil, List.head?_cons, Option.map_some', Option.getD_some, a1,
    List.take_succ_cons, List.take_zero, List.drop_succ_cons, List.drop_zero, hy, Option.some_bind,
    skip_literal '-' _ (by decide), skip_literal ':' _ (by decide), skip_space h1 _ b9.1.2.2,
    getnum_two _ _ _ _ a5 a6, getnum_two _ _ _ _ a7 a8, getnum_two _ _ _ _ a9 a10,
    getnum_two _ _ _ _ a11 a12, getnum_two _ _ _ _ a13 a14, if_neg hm, if_neg hdd,
    if_neg (Nat.not_le.mpr hhour), if_neg (Nat.not_le.mpr hmin), if_neg (Nat.not_le.mpr hsec),
    fractionalSecond]
  simp

theorem upstream_replace (y1 y2 y3 y4 m1 m2 d1 d2 h1 h2 n1 n2 s1 s2 : Char)
    (hd : ∀ c ∈ [y1, y2, y3, y4, m1, m2, d1, d2, h1, h2, n1, n2, s1, s2], isDigit c = true) :
    stringsReplace [y1, y2, y3, y4, '.', m1, m2, '.', d1, d2] ".".toList "-".toList (-1)
      = [y1, y2, y3, y4, '-', m1, m2, '-', d1, d2] ∧
    stringsReplace [h1, h2, '.', n1, n2, '.', s1, s2] ".".toList ":".toList (-1)
      = [h1, h2, ':', n1, n2, ':', s1, s2] := by
  simp only [List.mem_cons, List.mem_singleton, forall_eq_or_imp, forall_eq, List.not_mem_nil, false_implies, implies_true, and_true] at hd
  obtain ⟨a1, a2, a3, a4, a5, a6, a7, a8, a9, a10, a11, a12, a13, a14⟩ := hd
  have b1 := isDigit_ne a1; have b2 := isDigit_ne a2; have b3 := isDigit_ne a3
  have b4 := isDigit_ne a4; have b5 := isDigit_ne a5; have b6 := isDigit_ne a6
  have b7 := isDigit_ne a7; have b8 := isDigit_ne a8; have b9 := isDigit_ne a9
  have b10 := isDigit_ne a10; have b11 := isDigit_ne a11; have b12 := isDigit_ne a12
  have b13 := isDigit_ne a13; have b14 := isDigit_ne a14
  constructor <;>
  simp [stringsReplace, replaceLoop, indexOf?, b1, b2, b3, b4, b5, b6, b7, b8, b9, b10, b11, b12, b13, b14]

theorem sliceStr_window (s : GoString) (i : Nat) (n : Nat) (w : GoString)
    (hw : (s.drop i).take n = w) (hn : w.length = n) (hpos : 0 < n) :
    sliceStr s (i : Int) ((i : Int) + n) = Res.ok w := by
  have hlen : i + n ≤ s.length := by
    have := congrArg List.length hw
    rw [hn, List.length_take, List.length_drop] at this
    have := Nat.min_le_right n (s.length - i)
    omega
  unfold sliceStr
  have h1 : (0 : Int) ≤ i ∧ (i : Int) ≤ i + n ∧ (i : Int) + n ≤ (s.length : Int) := by omega
  rw [if_pos h1]
  have h2 : ((i : Int) + n).toNat - (i : Int).toNat = n := by omega
  rw [h2, Int.toNat_ofNat, hw]

/-- Claim C8.  The upstream naming convention: for every file name in which the
last " - " (at index `i`) is followed by the nineteen bytes
`YYYY.MM.DD-HH.MM.SS`, all of `Y M D H M S` digits, that write a month from 1 to
12, a day of that month, an hour below 24 and minutes and seconds below 60,
`parseTimeStamp` returns exactly that date and time, without error.  The result
is given by the nineteen bytes alone: not by what stands before the " - " or
after the window. -/
theorem parseTimeStamp_upstream (filePath : GoString) (i : Nat)
    (y1 y2 y3 y4 m1 m2 d1 d2 h1 h2 n1 n2 s1 s2 : Char)
    (hlast : stringsLastIndex filePath " - ".toList = (i : Int))
    (hwin : (filePath.drop (i + 3)).take 19
      = [y1, y2, y3, y4, '.', m1, m2, '.', d1, d2, '-', h1, h2, '.', n1, n2, '.', s1, s2])
    (hd : ∀ c ∈ [y1, y2, y3, y4, m1, m2, d1, d2, h1, h2, n1, n2, s1, s2], isDigit c = true)
    (hmonth : 1 ≤ decimalValue [m1, m2] ∧ decimalValue [m1, m2] ≤ 12)
    (hday : 1 ≤ decimalValue [d1, d2] ∧
      decimalValue [d1, d2] ≤ daysIn (decimalValue [m1, m2]) (decimalValue [y1, y2, y3, y4]))
    (hhour : decimalValue [h1, h2] < 24)
    (hmin : decimalValue [n1, n2] < 60)
    (hsec : decimalValue [s1, s2] < 60) :
    parseTimeStamp filePath
      = Res.ok ⟨decimalValue [y1, y2, y3, y4], decimalValue [m1, m2], decimalValue [d1, d2],
          decimalValue [h1, h2], decimalValue [n1, n2], decimalValue [s1, s2], 0⟩ := by
  have hs := sliceStr_window filePath (i + 3) 19 _ hwin rfl (by decide)
  have hr := upstream_replace y1 y2 y3 y4 m1 m2 d1 d2 h1 h2 n1 n2 s1 s2 hd
  unfold parseTimeStamp
  simp only [hlast]
  have e1 : ((i : Int) + 3) = ((i + 3 : Nat) : Int) := by push_cast; rfl
  have e2 : ((i : Int) + 3 + 19) = ((i + 3 : Nat) : Int) + (19 : Nat) := by push_cast; rfl
  rw [e2, e1, hs]
  simp only [upstream_normalise y1 y2 y3 y4 m1 m2 d1 d2 h1 h2 n1 n2 s1 s2 hd]
  simp only [List.length_cons, List.length_nil, List.getD_cons_zero, List.getD_cons_succ, hr.1, hr.2]
  have ht := upstream_timeParse y1 y2 y3 y4 m1 m2 d1 d2 h1 h2 n1 n2 s1 s2 hd hmonth hday hhour
    hmin hsec
  simp only [String.toList, List.cons_append, List.nil_append] at ht ⊢
  simp [ht]

theorem parseTimeStamp_upstream_witness :
    parseTimeStamp "1wall5targets_pasu - Challenge - 2020.05.17-13.06.53 Stats.csv".toList
      = Res.ok ⟨2020, 5, 17, 13, 6, 53, 0⟩ :=
  parseTimeStamp_upstream
    "1wall5targets_pasu - Challenge - 2020.05.17-13.06.53 Stats.csv".toList 30
    '2' '0' '2' '0' '0' '5' '1' '7' '1' '3' '0' '6' '5' '3'
    (by decide) (by decide) (by decide) (by decide) (by decide) (by decide) (by decide) (by decide)

end UpstreamConvention

/-! ## `strings.Split`, cut by cut -/

theorem splitLoop_stable {d : GoString} (hd : d ≠ []) :
    ∀ (n m : Nat) (s : GoString), s.length ≤ n → s.length ≤ m →
      splitLoop d n s = splitLoop d m s := by
  intro n
  induction n with
  | zero =>
    intro m s hn _
    have : s = [] := List.length_eq_zero.mp (Nat.le_zero.mp hn)
    subst this
    cases m <;> simp [splitLoop, indexOf?_nil_of_ne_nil hd]
  | succ n ih =>
    intro m s hn hm
    cases m with
    | zero =>
      have : s = [] := List.length_eq_zero.mp (Nat.le_zero.mp hm)
      subst this
      simp [splitLoop, indexOf?_nil_of_ne_nil hd]
    | succ m =>
      simp only [splitLoop]
      cases h : indexOf? s d with
      | none => rfl
      | some i =>
        simp only
        rw [ih m _ (length_drop_lt hd h hn) (length_drop_lt hd h hm)]

theorem stringsSplit_of_none {d s : GoString} (h : indexOf? s d = none) :
    stringsSplit s d = [s] := by
  unfold stringsSplit
  cases hl : s.length <;> simp [splitLoop, h]

theorem stringsSplit_of_some {d s : GoString} (hd : d ≠ []) {i : Nat}
    (h : indexOf? s d = some i) :
    stringsSplit s d = s.take i :: stringsSplit (s.drop (i + d.length)) d := by
  unfold stringsSplit
  have hlt := indexOf?_lt_length hd s i h
  cases hl : s.length with
  | zero => omega
  | succ n =>
    simp only [splitLoop, h]
    rw [splitLoop_stable hd n _ _ (length_drop_lt hd h (by omega)) (le_refl _)]

/-! ## The key-value decoders -/

section KeyValue
variable {F : Type}

theorem splitLoop_ne_nil (sep : GoString) (n : Nat) (s : GoString) :
    ∃ x xs, splitLoop sep n s = x :: xs := by
  cases n with
  | zero => exact ⟨s, [], rfl⟩
  | succ n =>
    unfold splitLoop
    cases indexOf? s sep with
    | none => exact ⟨s, [], rfl⟩
    | some i => exact ⟨_, _, rfl⟩

theorem hasSeparator_ne_nil {line : GoString} (h : hasSeparator line) : line ≠ [] := by
  intro e
  subst e
  simp [hasSeparator, indexOf?] at h

theorem lineHeading_of_some {line : GoString} {i : Nat}
    (h : indexOf? line ":,".toList = some i) : lineHeading line = line.take i := by
  unfold lineHeading
  rw [h]

theorem valueText_of_some {line : GoString} {i : Nat}
    (h : indexOf? line ":,".toList = some i) : valueText line = line.drop (i + 2) := by
  unfold valueText
  rw [h]

/-- The first two pieces of `strings.Split(line, ":,")` on a line that contains
":,": its heading, and its raw value cut at a second ":,". -/
theorem stringsSplit_of_hasSeparator {line : GoString} (h : hasSeparator line) :
    ∃ rest, stringsSplit line ":,".toList = lineHeading line :: lineValue line :: rest := by
  have hd : ":,".toList ≠ [] := by decide
  unfold hasSeparator at h
  obtain ⟨i, hi⟩ := Option.isSome_iff_exists.mp h
  have e := stringsSplit_of_some hd hi
  have h2 : i + ":,".toList.length = i + 2 := rfl
  rw [h2] at e
  rw [e, lineHeading_of_some hi]
  unfold lineValue
  rw [valueText_of_some hi]
  cases hj : indexOf? (line.drop (i + 2)) ":,".toList with
  | none => exact ⟨[], by rw [stringsSplit_of_none hj]⟩
  | some j => exact ⟨_, by rw [stringsSplit_of_some hd hj]⟩

/-- The bindings that the lines of a block make, newest first. -/
theorem generalSettingsLines_eq :
    ∀ (lines : List GoString) (m : GoMap),
      (∀ line ∈ lines, line ≠ [] → hasSeparator line) →
      generalSettingsLines lines m =
        Res.ok (((lines.filter (fun line => line ≠ [])).reverse.map
          (fun line => (lineHeading line, lineValue line))) ++ m) := by
  intro lines
  induction lines with
  | nil => intro m _; rfl
  | cons line lines ih =>
    intro m h
    have ih' := fun m => ih m (fun l hl => h l (List.mem_cons_of_mem _ hl))
    unfold generalSettingsLines
    by_cases hl : line = []
    · subst hl
      simp [ih']
    · have hlen : line.length ≥ 1 := List.length_pos.mpr hl
      obtain ⟨rest, e⟩ := stringsSplit_of_hasSeparator (h line (List.mem_cons_self _ _) hl)
      simp only [hlen, if_true, e, index, List.get?_cons_zero, List.get?_cons_succ,
        Res.bind_ok, ih', GoMap.set]
      simp [hl]

theorem sessionStatsLines_eq :
    ∀ (lines : List GoString) (m : GoMap),
      (∀ line ∈ lines, hasSeparator line) →
      sessionStatsLines lines m =
        Res.ok (((lines.filter (fun line => line ≠ [])).reverse.map
          (fun line => (lineHeading line, lineValue line))) ++ m) := by
  intro lines
  induction lines with
  | nil => intro m _; rfl
  | cons line lines ih =>
    intro m h
    have ih' := fun m => ih m (fun l hl => h l (List.mem_cons_of_mem _ hl))
    have hs := h line (List.mem_cons_self _ _)
    have hl := hasSeparator_ne_nil hs
    unfold sessionStatsLines
    obtain ⟨rest, e⟩ := stringsSplit_of_hasSeparator hs
    simp only [e, index, List.get?_cons_zero, List.get?_cons_succ, Res.bind_ok, ih', GoMap.set]
    simp [hl]

theorem GoMap_get_map (lines : List GoString) (heading : GoString) :
    GoMap.get (lines.map (fun line => (lineHeading line, lineValue line)) ++ []) heading
      = ((lines.find? (fun line => lineHeading line = heading)).map lineValue).getD [] := by
  unfold GoMap.get
  rw [List.append_nil, List.find?_map]
  have e : ((fun kv : GoString × GoString => decide (kv.1 = heading)) ∘
      fun line => (lineHeading line, lineValue line))
      = fun line => decide (lineHeading line = heading) := rfl
  rw [e]
  cases lines.find? (fun line => decide (lineHeading line = heading)) <;> rfl

theorem GoMap_get_lines (block heading : GoString) :
    GoMap.get ((((stringsSplit block "\r\n".toList).filter (fun line => line ≠ [])).reverse.map
      (fun line => (lineHeading line, lineValue line))) ++ []) heading
      = (lastValue block heading).getD [] :=
  GoMap_get_map _ heading

theorem floatOrError_ok (lib : Lib F) (raw kind column : GoString) (v : F)
    (h : lib.ParseFloat raw = (v, true)) : floatOrError lib raw kind column = Res.ok v := by
  simp [floatOrError, h]

theorem boolOrError_ok (raw kind column : GoString) (v : Bool)
    (h : parseBool raw = some v) : boolOrError raw kind column = Res.ok v := by
  simp [boolOrError, h]

/-- A raw value that contains no ":," is read whole. -/
theorem lastValue_of_valueText (s heading v : GoString)
    (h : lastValueText s heading = some v) (hv : indexOf? v ":,".toList = none) :
    lastValue s heading = some v := by
  unfold lastValueText at h
  unfold lastValue
  cases hl : List.find? (fun line => decide (lineHeading line = heading))
      (List.filter (fun line => decide (line ≠ [])) (stringsSplit s "\r\n".toList)).reverse with
  | none => rw [hl] at h; cases h
  | some line =>
    rw [hl] at h
    simp only [Option.map_some', Option.some.injEq] at h ⊢
    unfold lineValue
    rw [h, hv]

/-- The record that `parseGeneralSettings` returns when every required value
coerces. -/
theorem parseGeneralSettings_ok (lib : Lib F) (s : GoString)
    (inputLag maxFPS horizSens vertSens fov crosshairScale : F) (hideGun : Bool)
    (hsep : ∀ line ∈ stringsSplit s "\r\n".toList, line ≠ [] → hasSeparator line)
    (h1 : ∃ raw, lastValue s "Input Lag".toList = some raw ∧
      lib.ParseFloat raw = (inputLag, true))
    (h2 : ∃ raw, lastValue s "Max FPS (config)".toList = some raw ∧
      lib.ParseFloat raw = (maxFPS, true))
    (h3 : ∃ raw, lastValue s "Horiz Sens".toList = some raw ∧
      lib.ParseFloat raw = (horizSens, true))
    (h4 : ∃ raw, lastValue s "Vert Sens".toList = some raw ∧
      lib.ParseFloat raw = (vertSens, true))
    (h5 : ∃ raw, lastValue s "FOV".toList = some raw ∧ lib.ParseFloat raw = (fov, true))
    (h6 : ∃ raw, lastValue s "Hide Gun".toList = some raw ∧ parseBool raw = some hideGun)
    (h7 : ∃ raw, lastValue s "Crosshair Scale".toList = some raw ∧
      lib.ParseFloat raw = (crosshairScale, true)) :
    parseGeneralSettings lib s = Res.ok {
      InputLag := inputLag
      MaxFPS := maxFPS
      SensScale := (lastValue s "Sens Scale".toList).getD []
      HorizSens := horizSens
      VertSens := vertSens
      FOV := fov
      HideGun := hideGun
      Crosshair := (lastValue s "Crosshair".toList).getD []
      CrosshairScale := crosshairScale
      CrosshairColor := (lastValue s "Crosshair Color".toList).getD [] } := by
  obtain ⟨r1, l1, p1⟩ := h1
  obtain ⟨r2, l2, p2⟩ := h2
  obtain ⟨r3, l3, p3⟩ := h3
  obtain ⟨r4, l4, p4⟩ := h4
  obtain ⟨r5, l5, p5⟩ := h5
  obtain ⟨r6, l6, p6⟩ := h6
  obtain ⟨r7, l7, p7⟩ := h7
  unfold parseGeneralSettings
  simp only [Res.monad_bind, Res.monad_pure, generalSettingsLines_eq _ _ hsep, Res.bind_ok,
    GoMap_get_lines, l1, l2, l3, l4, l5, l6, l7, Option.getD_some,
    floatOrError_ok lib _ _ _ _ p1, floatOrError_ok lib _ _ _ _ p2,
    floatOrError_ok lib _ _ _ _ p3, floatOrError_ok lib _ _ _ _ p4,
    floatOrError_ok lib _ _ _ _ p5, boolOrError_ok _ _ _ _ p6,
    floatOrError_ok lib _ _ _ _ p7]

/-- Claim C9, amended.  General-settings decode, for every block whose non-empty
lines each contain ":,".  The decoder reads of a line its heading, the text
before the first ":,", and its raw value cut at a second ":,": the text between
the first ":," and the next one, which is the whole raw value when that contains
no ":,".  When the text so read on the last line of each required heading
coerces (six floats and the boolean "Hide Gun"), `parseGeneralSettings` returns
no error and the record of the coerced values, with `SensScale`, `Crosshair`
and `CrosshairColor` the texts so read on the last line of their headings, or
the empty string for a heading that is absent.  For the block of the
specification's example the record has `InputLag` the float of "5", `MaxFPS`
the float of "240" and `HideGun = true`. -/
theorem parseGeneralSettings_decodes (lib : Lib F) :
    (∀ (s : GoString) (inputLag maxFPS horizSens vertSens fov crosshairScale : F)
        (hideGun : Bool),
      (∀ line ∈ stringsSplit s "\r\n".toList, line ≠ [] → hasSeparator line) →
      (∃ raw, lastValue s "Input Lag".toList = some raw ∧
        lib.ParseFloat raw = (inputLag, true)) →
      (∃ raw, lastValue s "Max FPS (config)".toList = some raw ∧
        lib.ParseFloat raw = (maxFPS, true)) →
      (∃ raw, lastValue s "Horiz Sens".toList = some raw ∧
        lib.ParseFloat raw = (horizSens, true)) →
      (∃ raw, lastValue s "Vert Sens".toList = some raw ∧
        lib.ParseFloat raw = (vertSens, true)) →
      (∃ raw, lastValue s "FOV".toList = some raw ∧ lib.ParseFloat raw = (fov, true)) →
      (∃ raw, lastValue s "Hide Gun".toList = some raw ∧ parseBool raw = some hideGun) →
      (∃ raw, lastValue s "Crosshair Scale".toList = some raw ∧
        lib.ParseFloat raw = (crosshairScale, true)) →
      parseGeneralSettings lib s = Res.ok {
        InputLag := inputLag
        MaxFPS := maxFPS
        SensScale := (lastValue s "Sens Scale".toList).getD []
        HorizSens := horizSens
        VertSens := vertSens
        FOV := fov
        HideGun := hideGun
        Crosshair := (lastValue s "Crosshair".toList).getD []
        CrosshairScale := crosshairScale
        CrosshairColor := (lastValue s "Crosshair Color".toList).getD [] }) ∧
    (∀ (v5 v240 v12 v103 v10 : F),
      lib.ParseFloat "5".toList = (v5, true) →
      lib.ParseFloat "240".toList = (v240, true) →
      lib.ParseFloat "1.2".toList = (v12, true) →
      lib.ParseFloat "103".toList = (v103, true) →
      lib.ParseFloat "1.0".toList = (v10, true) →
      parseGeneralSettings lib exampleGeneralSettings = Res.ok {
        InputLag := v5
        MaxFPS := v240
        SensScale := []
        HorizSens := v12
        VertSens := v12
        FOV := v103
        HideGun := true
        Crosshair := []
        CrosshairScale := v10
        CrosshairColor := [] }) ∧
    (∀ (s heading v : GoString), lastValueText s heading = some v →
      indexOf? v ":,".toList = none → lastValue s heading = some v) := by
  refine ⟨fun s inputLag maxFPS horizSens vertSens fov crosshairScale hideGun hsep h1 h2 h3
    h4 h5 h6 h7 => parseGeneralSettings_ok lib s inputLag maxFPS horizSens vertSens fov
      crosshairScale hideGun hsep h1 h2 h3 h4 h5 h6 h7, ?_, lastValue_of_valueText⟩
  intro v5 v240 v12 v103 v10 p5 p240 p12 p103 p10
  exact parseGeneralSettings_ok lib exampleGeneralSettings v5 v240 v12 v12 v103 v10 true
    (by decide) ⟨"5".toList, by decide, p5⟩ ⟨"240".toList, by decide, p240⟩
    ⟨"1.2".toList, by decide, p12⟩ ⟨"1.2".toList, by decide, p12⟩
    ⟨"103".toList, by decide, p103⟩ ⟨"true".toList, by decide, by decide⟩
    ⟨"1.0".toList, by decide, p10⟩

theorem parseGeneralSettings_decodes_witness :
    parseGeneralSettings sampleLib exampleGeneralSettings = Res.ok {
      InputLag := ⟨5, 0⟩
      MaxFPS := ⟨240, 0⟩
      SensScale := []
      HorizSens := ⟨12, 1⟩
      VertSens := ⟨12, 1⟩
      FOV := ⟨103, 0⟩
      HideGun := true
      Crosshair := []
      CrosshairScale := ⟨10, 1⟩
      CrosshairColor := [] } :=
  (parseGeneralSettings_decodes sampleLib).2.1 ⟨5, 0⟩ ⟨240, 0⟩ ⟨12, 1⟩ ⟨103, 0⟩ ⟨10, 1⟩
    (by decide) (by decide) (by decide) (by decide) (by decide)

/-- Claim C9 as stated fails: the last line of the block is
"Crosshair:,plus:,big.png", whose raw value is "plus:,big.png", and the record
that `parseGeneralSettings` returns has the crosshair "plus". -/
theorem parseGeneralSettings_cuts_value :
    lastValueText cutCrosshairSettings "Crosshair".toList = some "plus:,big.png".toList ∧
    parseGeneralSettings sampleLib cutCrosshairSettings = Res.ok {
      InputLag := ⟨5, 0⟩
      MaxFPS := ⟨240, 0⟩
      SensScale := []
      HorizSens := ⟨12, 1⟩
      VertSens := ⟨12, 1⟩
      FOV := ⟨103, 0⟩
      HideGun := true
      Crosshair := "plus".toList
      CrosshairScale := ⟨10, 1⟩
      CrosshairColor := [] } := by
  decide

/-- The record that `parseSessionStats` returns when every required value
coerces. -/
theorem parseSessionStats_ok (lib : Lib F) (s : GoString)
    (kills deaths fightTime avgTTK damageDone damageTaken midairs midaired directs directed
      distanceTraveled score : F)
    (hsep : ∀ line ∈ stringsSplit s "\r\n".toList, hasSeparator line)
    (h1 : ∃ raw, lastValue s "Kills".toList = some raw ∧ lib.ParseFloat raw = (kills, true))
    (h2 : ∃ raw, lastValue s "Deaths".toList = some raw ∧ lib.ParseFloat raw = (deaths, true))
    (h3 : ∃ raw, lastValue s "Fight Time".toList = some raw ∧
      lib.ParseFloat raw = (fightTime, true))
    (h4 : ∃ raw, lastValue s "Avg TTK".toList = some raw ∧ lib.ParseFloat raw = (avgTTK, true))
    (h5 : ∃ raw, lastValue s "Damage Done".toList = some raw ∧
      lib.ParseFloat raw = (damageDone, true))
    (h6 : ∃ raw, lastValue s "Damage Taken".toList = some raw ∧
      lib.ParseFloat raw = (damageTaken, true))
    (h7 : ∃ raw, lastValue s "Midairs".toList = some raw ∧ lib.ParseFloat raw = (midairs, true))
    (h8 : ∃ raw, lastValue s "Midaired".toList = some raw ∧
      lib.ParseFloat raw = (midaired, true))
    (h9 : ∃ raw, lastValue s "Directs".toList = some raw ∧ lib.ParseFloat raw = (directs, true))
    (h10 : ∃ raw, lastValue s "Directed".toList = some raw ∧
      lib.ParseFloat raw = (directed, true))
    (h11 : ∃ raw, lastValue s "Distance Traveled".toList = some raw ∧
      lib.ParseFloat raw = (distanceTraveled, true))
    (h12 : ∃ raw, lastValue s "Score".toList = some raw ∧ lib.ParseFloat raw = (score, true)) :
    parseSessionStats lib s = Res.ok {
      Kills := kills
      Deaths := deaths
      FightTime := fightTime
      AvgTTK := avgTTK
      DamageDone := damageDone
      DamageTaken := damageTaken
      Midairs := midairs
      Midaired := midaired
      Directs := directs
      Directed := directed
      DistanceTraveled := distanceTraveled
      Scenario := (lastValue s "Scenario".toList).getD []
      Score := score
      Hash := (lastValue s "Hash".toList).getD []
      GameVersion := (lastValue s "Game Version".toList).getD [] } := by
  obtain ⟨r1, l1, p1⟩ := h1
  obtain ⟨r2, l2, p2⟩ := h2
  obtain ⟨r3, l3, p3⟩ := h3
  obtain ⟨r4, l4, p4⟩ := h4
  obtain ⟨r5, l5, p5⟩ := h5
  obtain ⟨r6, l6, p6⟩ := h6
  obtain ⟨r7, l7, p7⟩ := h7
  obtain ⟨r8, l8, p8⟩ := h8
  obtain ⟨r9, l9, p9⟩ := h9
  obtain ⟨r10, l10, p10⟩ := h10
  obtain ⟨r11, l11, p11⟩ := h11
  obtain ⟨r12, l12, p12⟩ := h12
  unfold parseSessionStats
  simp only [Res.monad_bind, Res.monad_pure, sessionStatsLines_eq _ _ hsep, Res.bind_ok,
    GoMap_get_lines, l1, l2, l3, l4, l5, l6, l7, l8, l9, l10, l11, l12, Option.getD_some,
    floatOrError_ok lib _ _ _ _ p1, floatOrError_ok lib _ _ _ _ p2,
    floatOrError_ok lib _ _ _ _ p3, floatOrError_ok lib _ _ _ _ p4,
    floatOrError_ok lib _ _ _ _ p5, floatOrError_ok lib _ _ _ _ p6,
    floatOrError_ok lib _ _ _ _ p7, floatOrError_ok lib _ _ _ _ p8,
    floatOrError_ok lib _ _ _ _ p9, floatOrError_ok lib _ _ _ _ p10,
    floatOrError_ok lib _ _ _ _ p11, floatOrError_ok lib _ _ _ _ p12]

/-- Claim C10, amended.  Statistics decode, for every block each of whose lines
contains ":,".  The decoder reads of a line its heading, the text before the
first ":,", and its raw value cut at a second ":,", which is the whole raw value
when that contains no ":,".  When the text so read on the last line of each of
the twelve required headings coerces to a float, `parseSessionStats` returns no
error and the record of the twelve coerced values, with `Scenario`, `Hash` and
`GameVersion` the texts so read on the last line of "Scenario", "Hash" and
"Game Version", or the empty string for a heading that is absent. -/
theorem parseSessionStats_decodes (lib : Lib F) (s : GoString)
    (kills deaths fightTime avgTTK damageDone damageTaken midairs midaired directs directed
      distanceTraveled score : F)
    (hsep : ∀ line ∈ stringsSplit s "\r\n".toList, hasSeparator line)
    (h1 : ∃ raw, lastValue s "Kills".toList = some raw ∧ lib.ParseFloat raw = (kills, true))
    (h2 : ∃ raw, lastValue s "Deaths".toList = some raw ∧ lib.ParseFloat raw = (deaths, true))
    (h3 : ∃ raw, lastValue s "Fight Time".toList = some raw ∧
      lib.ParseFloat raw = (fightTime, true))
    (h4 : ∃ raw, lastValue s "Avg TTK".toList = some raw ∧ lib.ParseFloat raw = (avgTTK, true))
    (h5 : ∃ raw, lastValue s "Damage Done".toList = some raw ∧
      lib.ParseFloat raw = (damageDone, true))
    (h6 : ∃ raw, lastValue s "Damage Taken".toList = some raw ∧
      lib.ParseFloat raw = (damageTaken, true))
    (h7 : ∃ raw, lastValue s "Midairs".toList = some raw ∧ lib.ParseFloat raw = (midairs, true))
    (h8 : ∃ raw, lastValue s "Midaired".toList = some raw ∧
      lib.ParseFloat raw = (midaired, true))
    (h9 : ∃ raw, lastValue s "Directs".toList = some raw ∧ lib.ParseFloat raw = (directs, true))
    (h10 : ∃ raw, lastValue s "Directed".toList = some raw ∧
      lib.ParseFloat raw = (directed, true))
    (h11 : ∃ raw, lastValue s "Distance Traveled".toList = some raw ∧
      lib.ParseFloat raw = (distanceTraveled, true))
    (h12 : ∃ raw, lastValue s "Score".toList = some raw ∧ lib.ParseFloat raw = (score, true)) :
    parseSessionStats lib s = Res.ok {
      Kills := kills
      Deaths := deaths
      FightTime := fightTime
      AvgTTK := avgTTK
      DamageDone := damageDone
      DamageTaken := damageTaken
      Midairs := midairs
      Midaired := midaired
      Directs := directs
      Directed := directed
      DistanceTraveled := distanceTraveled
      Scenario := (lastValue s "Scenario".toList).getD []
      Score := score
      Hash := (lastValue s "Hash".toList).getD []
      GameVersion := (lastValue s "Game Version".toList).getD [] } ∧
    (∀ heading v : GoString, lastValueText s heading = some v →
      indexOf? v ":,".toList = none → lastValue s heading = some v) :=
  ⟨parseSessionStats_ok lib s kills deaths fightTime avgTTK damageDone damageTaken midairs
    midaired directs directed distanceTraveled score hsep h1 h2 h3 h4 h5 h6 h7 h8 h9 h10 h11
    h12, lastValue_of_valueText s⟩

theorem parseSessionStats_decodes_witness :
    parseSessionStats sampleLib exampleStatistics = Res.ok {
      Kills := ⟨12, 0⟩
      Deaths := ⟨0, 0⟩
      FightTime := ⟨583, 1⟩
      AvgTTK := ⟨48, 1⟩
      DamageDone := ⟨2400, 0⟩
      DamageTaken := ⟨0, 0⟩
      Midairs := ⟨0, 0⟩
      Midaired := ⟨0, 0⟩
      Directs := ⟨0, 0⟩
      Directed := ⟨0, 0⟩
      DistanceTraveled := ⟨0, 0⟩
      Scenario := "1wall5targets_pasu".toList
      Score := ⟨12005, 1⟩
      Hash := []
      GameVersion := [] } :=
  (parseSessionStats_decodes sampleLib exampleStatistics ⟨12, 0⟩ ⟨0, 0⟩ ⟨583, 1⟩ ⟨48, 1⟩
    ⟨2400, 0⟩ ⟨0, 0⟩ ⟨0, 0⟩ ⟨0, 0⟩ ⟨0, 0⟩ ⟨0, 0⟩ ⟨0, 0⟩ ⟨12005, 1⟩
    (by decide)
    ⟨"12".toList, by decide, by decide⟩ ⟨"0".toList, by decide, by decide⟩
    ⟨"58.3".toList, by decide, by decide⟩ ⟨"4.8".toList, by decide, by decide⟩
    ⟨"2400".toList, by decide, by decide⟩ ⟨"0".toList, by decide, by decide⟩
    ⟨"0".toList, by decide, by decide⟩ ⟨"0".toList, by decide, by decide⟩
    ⟨"0".toList, by decide, by decide⟩ ⟨"0".toList, by decide, by decide⟩
    ⟨"0".toList, by decide, by decide⟩ ⟨"1200.5".toList, by decide, by decide⟩).1

/-- Claim C10 as stated fails: the last line of the block is "Hash:,abc:,def",
whose raw value is "abc:,def", and the record that `parseSessionStats` returns
has the hash "abc". -/
theorem parseSessionStats_cuts_value :
    lastValueText cutHashStatistics "Hash".toList = some "abc:,def".toList ∧
    parseSessionStats sampleLib cutHashStatistics = Res.ok {
      Kills := ⟨12, 0⟩
      Deaths := ⟨0, 0⟩
      FightTime := ⟨583, 1⟩
      AvgTTK := ⟨48, 1⟩
      DamageDone := ⟨2400, 0⟩
      DamageTaken := ⟨0, 0⟩
      Midairs := ⟨0, 0⟩
      Midaired := ⟨0, 0⟩
      Directs := ⟨0, 0⟩
      Directed := ⟨0, 0⟩
      DistanceTraveled := ⟨0, 0⟩
      Scenario := "1wall5targets_pasu".toList
      Score := ⟨12005, 1⟩
      Hash := "abc".toList
      GameVersion := [] } := by
  decide

end KeyValue

/-! ## The key-value decoders: errors and empty lines -/

theorem floatOrError_eq {F : Type} (lib : Lib F) (raw kind column : GoString) :
    floatOrError lib raw kind column =
      if coerces lib FieldType.float raw = true then Res.ok (lib.ParseFloat raw).1
      else Res.error (Error.cannotParse raw kind column) := by
  unfold floatOrError coerces
  rcases h : lib.ParseFloat raw with ⟨v, b⟩
  cases b <;> simp

theorem boolOrError_eq (raw kind column : GoString) {F : Type} (lib : Lib F) :
    boolOrError raw kind column =
      if coerces lib FieldType.bool raw = true then Res.ok ((parseBool raw).getD false)
      else Res.error (Error.cannotParse raw kind column) := by
  unfold boolOrError coerces
  cases h : parseBool raw <;> simp

theorem find?_cons_failing {F : Type} (lib : Lib F) (block : GoString)
    (x : GoString × FieldType) (xs : List (GoString × FieldType)) (f : GoString × FieldType)
    (hf : List.find? (fun f => !coerces lib f.2 (rawValue block f.1)) (x :: xs) = some f) :
    (coerces lib x.2 (rawValue block x.1) = false ∧ f = x) ∨
    (coerces lib x.2 (rawValue block x.1) = true ∧
      List.find? (fun f => !coerces lib f.2 (rawValue block f.1)) xs = some f) := by
  rw [List.find?_cons] at hf
  cases hc : coerces lib x.2 (rawValue block x.1)
  · simp only [hc, Bool.not_false] at hf
    exact Or.inl ⟨rfl, (Option.some.inj hf).symm⟩
  · simp only [hc, Bool.not_true] at hf
    exact Or.inr ⟨rfl, hf⟩

theorem parseGeneralSettings_first_failing {F : Type} (lib : Lib F) (s : GoString)
    (hsep : ∀ line ∈ stringsSplit s "\r\n".toList, line ≠ [] → hasSeparator line)
    (f : GoString × FieldType)
    (hf : firstFailing lib generalSettingsRequired s = some f) :
    parseGeneralSettings lib s
      = Res.error (Error.cannotParse (rawValue s f.1) "float".toList f.1) := by
  unfold parseGeneralSettings
  simp only [Res.monad_bind, Res.monad_pure, generalSettingsLines_eq _ _ hsep, Res.bind_ok,
    GoMap_get_lines, floatOrError_eq, boolOrError_eq _ _ _ lib]
  unfold firstFailing generalSettingsRequired at hf
  iterate 7
    rcases find?_cons_failing lib s _ _ f hf with ⟨hc, rfl⟩ | ⟨hc, hf'⟩
    · simp only [rawValue] at hc
      simp only [hc, Bool.false_eq_true, if_false, Res.bind_error, rawValue]
    clear hf
    rename' hf' => hf
    simp only [rawValue] at hc
    simp only [hc, if_true, Res.bind_ok]
    clear hc
  simp at hf

theorem parseSessionStats_first_failing {F : Type} (lib : Lib F) (s : GoString)
    (hsep : ∀ line ∈ stringsSplit s "\r\n".toList, hasSeparator line)
    (f : GoString × FieldType)
    (hf : firstFailing lib sessionStatsRequired s = some f) :
    parseSessionStats lib s
      = Res.error (Error.cannotParse (rawValue s f.1) "float".toList f.1) := by
  unfold parseSessionStats
  simp only [Res.monad_bind, Res.monad_pure, sessionStatsLines_eq _ _ hsep, Res.bind_ok,
    GoMap_get_lines, floatOrError_eq]
  unfold firstFailing sessionStatsRequired at hf
  simp only [List.map] at hf
  iterate 12
    rcases find?_cons_failing lib s _ _ f hf with ⟨hc, rfl⟩ | ⟨hc, hf'⟩
    · simp only [rawValue] at hc
      simp only [hc, Bool.false_eq_true, if_false, Res.bind_error, rawValue]
    clear hf
    rename' hf' => hf
    simp only [rawValue] at hc
    simp only [hc, if_true, Res.bind_ok]
    clear hc
  simp at hf

theorem firstFailing_exists {F : Type} (lib : Lib F) (fields : List (GoString × FieldType))
    (s : GoString) (f : GoString × FieldType) (hmem : f ∈ fields)
    (hfail : coerces lib f.2 (rawValue s f.1) = false) :
    ∃ g, firstFailing lib fields s = some g := by
  cases h : firstFailing lib fields s with
  | some g => exact ⟨g, rfl⟩
  | none =>
    unfold firstFailing at h
    have := List.find?_eq_none.mp h f hmem
    simp [hfail] at this

theorem absent_not_coerces {F : Type} (lib : Lib F) (hempty : (lib.ParseFloat []).2 = false)
    (s : GoString) (f : GoString × FieldType) (hty : f.2 ≠ FieldType.int)
    (habs : lastValue s f.1 = none) : coerces lib f.2 (rawValue s f.1) = false := by
  unfold rawValue
  rw [habs]
  rcases f with ⟨h, ty⟩
  cases ty
  · exact hempty
  · exact absurd rfl hty
  · rfl

/-- Claim C11, amended.  Key-value decoding is all-or-nothing on required
fields.  Take a block all of whose lines contain ":," (for
`parseGeneralSettings`: all of whose non-empty lines do).  The value that the
decoder reads for a heading is the raw value on its last line cut at a second
":,", the empty string when the heading is absent.  If a required heading is
absent from the block, or the value so read does not coerce to its type, the
decoder returns an error and no record, and the error is "can not parse 'raw' as
float for 'heading' column." for the first heading, in the order in which the
decoder reads them, whose value so read does not coerce; `raw` is that value.
(That the empty string is no float is a fact of `strconv.ParseFloat`, taken as
the hypothesis `hempty`.) -/
theorem keyValue_all_or_nothing {F : Type} (lib : Lib F)
    (hempty : (lib.ParseFloat []).2 = false) (s : GoString) :
    ((∀ line ∈ stringsSplit s "\r\n".toList, line ≠ [] → hasSeparator line) →
      ∀ f ∈ generalSettingsRequired,
        (lastValue s f.1 = none ∨ coerces lib f.2 (rawValue s f.1) = false) →
        ∃ g, firstFailing lib generalSettingsRequired s = some g ∧
          (lastValue s g.1 = none → rawValue s g.1 = []) ∧
          parseGeneralSettings lib s
            = Res.error (Error.cannotParse (rawValue s g.1) "float".toList g.1)) ∧
    ((∀ line ∈ stringsSplit s "\r\n".toList, hasSeparator line) →
      ∀ f ∈ sessionStatsRequired,
        (lastValue s f.1 = none ∨ coerces lib f.2 (rawValue s f.1) = false) →
        ∃ g, firstFailing lib sessionStatsRequired s = some g ∧
          (lastValue s g.1 = none → rawValue s g.1 = []) ∧
          parseSessionStats lib s
            = Res.error (Error.cannotParse (rawValue s g.1) "float".toList g.1)) := by
  constructor
  · intro hsep f hmem hf
    have hfail : coerces lib f.2 (rawValue s f.1) = false := by
      rcases hf with habs | hfail
      · have hty : ∀ f ∈ generalSettingsRequired, f.2 ≠ FieldType.int := by decide
        exact absent_not_coerces lib hempty s f (hty f hmem) habs
      · exact hfail
    obtain ⟨g, hg⟩ := firstFailing_exists lib _ s f hmem hfail
    exact ⟨g, hg, fun h => by simp [rawValue, h],
      parseGeneralSettings_first_failing lib s hsep g hg⟩
  · intro hsep f hmem hf
    have hfail : coerces lib f.2 (rawValue s f.1) = false := by
      rcases hf with habs | hfail
      · have hty : ∀ f ∈ sessionStatsRequired, f.2 ≠ FieldType.int := by decide
        exact absent_not_coerces lib hempty s f (hty f hmem) habs
      · exact hfail
    obtain ⟨g, hg⟩ := firstFailing_exists lib _ s f hmem hfail
    exact ⟨g, hg, fun h => by simp [rawValue, h],
      parseSessionStats_first_failing lib s hsep g hg⟩

theorem keyValue_all_or_nothing_witness :
    parseGeneralSettings sampleLib exampleBadSettings
      = Res.error (Error.cannotParse "fast".toList "float".toList "Max FPS (config)".toList) := by
  obtain ⟨g, hg, -, h⟩ := (keyValue_all_or_nothing sampleLib (by decide) exampleBadSettings).1
    (by decide) ("FOV".toList, FieldType.float) (by decide) (Or.inr (by decide))
  have e : firstFailing sampleLib generalSettingsRequired exampleBadSettings
      = some ("Max FPS (config)".toList, FieldType.float) := by decide
  rw [e] at hg
  cases hg
  rw [h]
  decide

/-- Claim C11 as stated fails: the last line for "Kills" is "Kills:,12:,junk",
whose raw value "12:,junk" does not coerce to a float, every line has the form
`heading:,value`, and `parseSessionStats` returns a record and no error, with
the float of "12" for `Kills`. -/
theorem parseSessionStats_cut_value_coerces :
    (∀ line ∈ stringsSplit cutKillsStatistics "\r\n".toList, hasSeparator line) ∧
    lastValueText cutKillsStatistics "Kills".toList = some "12:,junk".toList ∧
    coerces sampleLib FieldType.float "12:,junk".toList = false ∧
    parseSessionStats sampleLib cutKillsStatistics = Res.ok {
      Kills := ⟨12, 0⟩
      Deaths := ⟨0, 0⟩
      FightTime := ⟨583, 1⟩
      AvgTTK := ⟨48, 1⟩
      DamageDone := ⟨2400, 0⟩
      DamageTaken := ⟨0, 0⟩
      Midairs := ⟨0, 0⟩
      Midaired := ⟨0, 0⟩
      Directs := ⟨0, 0⟩
      Directed := ⟨0, 0⟩
      DistanceTraveled := ⟨0, 0⟩
      Scenario := "1wall5targets_pasu".toList
      Score := ⟨12005, 1⟩
      Hash := []
      GameVersion := [] } := by
  decide

theorem indexOf?_crlf_cons (x : Char) (s : GoString) :
    indexOf? (x :: s) ['\r', '\n']
      = if x = '\r' ∧ s.head? = some '\n' then some 0
        else (indexOf? s ['\r', '\n']).map (· + 1) := by
  rw [indexOf?]
  cases s with
  | nil => simp [List.isPrefixOf]
  | cons y s =>
    simp only [List.isPrefixOf, List.head?_cons, Option.some.injEq, Bool.and_true,
      Bool.and_eq_true, beq_iff_eq]
    by_cases h : x = '\r' ∧ y = '\n'
    · rw [if_pos ⟨h.1.symm, h.2.symm⟩, if_pos h]
    · rw [if_neg (fun h' => h ⟨h'.1.symm, h'.2.symm⟩), if_neg h]

theorem head?_append_crlf (a b : GoString) :
    ((a ++ '\r' :: '\n' :: b).head? = some '\n') ↔ (a.head? = some '\n') := by
  cases a with
  | nil => simp
  | cons y a => simp

/-- The first line break of `a ++ "\r\n" ++ b` is that of `a`, or the one written
after `a` when `a` has none. -/
theorem indexOf?_append_crlf (b : GoString) :
    ∀ (a : GoString), indexOf? (a ++ '\r' :: '\n' :: b) ['\r', '\n']
      = some ((indexOf? a ['\r', '\n']).getD a.length) := by
  intro a
  induction a with
  | nil => simp [indexOf?_crlf_cons, indexOf?]
  | cons x a ih =>
    rw [List.cons_append, indexOf?_crlf_cons, indexOf?_crlf_cons x a, ih]
    by_cases h : x = '\r' ∧ a.head? = some '\n'
    · rw [if_pos h, if_pos ⟨h.1, (head?_append_crlf a b).mpr h.2⟩]
      rfl
    · rw [if_neg h, if_neg (fun h' => h ⟨h'.1, (head?_append_crlf a b).mp h'.2⟩)]
      cases indexOf? a ['\r', '\n'] <;> simp

theorem stringsSplit_append_crlf (b : GoString) :
    ∀ (n : Nat) (a : GoString), a.length ≤ n →
      stringsSplit (a ++ '\r' :: '\n' :: b) ['\r', '\n']
        = stringsSplit a ['\r', '\n'] ++ stringsSplit b ['\r', '\n'] := by
  have hd : (['\r', '\n'] : GoString) ≠ [] := by simp
  intro n
  induction n with
  | zero =>
    intro a ha
    have : a = [] := List.length_eq_zero.mp (Nat.le_zero.mp ha)
    subst this
    rw [stringsSplit_of_some hd (indexOf?_append_crlf b [])]
    simp [stringsSplit, splitLoop, indexOf?]
  | succ n ih =>
    intro a ha
    rw [stringsSplit_of_some hd (indexOf?_append_crlf b a)]
    cases h : indexOf? a ['\r', '\n'] with
    | none =>
      rw [stringsSplit_of_none h]
      simp
    | some i =>
      have hle := indexOf?_add_length_le _ a i h
      simp only [List.length_cons, List.length_nil] at hle
      rw [stringsSplit_of_some hd h]
      simp only [Option.getD_some, List.length_cons, List.length_nil, List.cons_append]
      have e1 : List.take i (a ++ '\r' :: '\n' :: b) = List.take i a := by
        rw [List.take_append_of_le_length (by omega)]
      have e2 : List.drop (i + (0 + 1 + 1)) (a ++ '\r' :: '\n' :: b)
          = List.drop (i + (0 + 1 + 1)) a ++ '\r' :: '\n' :: b := by
        rw [List.drop_append_of_le_length (by omega)]
      rw [e1, e2, ih _ (by simp only [List.length_drop]; omega)]

theorem crlf_toList : "\r\n".toList = ['\r', '\n'] := rfl

theorem stringsSplit_insert_empty (a b : GoString) :
    stringsSplit (a ++ "\r\n".toList ++ "\r\n".toList ++ b) "\r\n".toList
      = stringsSplit a "\r\n".toList ++ [] :: stringsSplit b "\r\n".toList ∧
    stringsSplit (a ++ "\r\n".toList ++ b) "\r\n".toList
      = stringsSplit a "\r\n".toList ++ stringsSplit b "\r\n".toList := by
  simp only [crlf_toList, List.append_assoc, List.cons_append, List.nil_append]
  rw [stringsSplit_append_crlf _ _ a (le_refl _), stringsSplit_append_crlf _ _ a (le_refl _)]
  have := stringsSplit_append_crlf b 0 [] (le_refl _)
  simp only [List.nil_append] at this
  rw [this]
  exact ⟨rfl, rfl⟩

theorem stringsSplit_trailing_empty (s : GoString) :
    stringsSplit (s ++ "\r\n".toList) "\r\n".toList
      = stringsSplit s "\r\n".toList ++ [[]] := by
  simp only [crlf_toList]
  exact stringsSplit_append_crlf [] _ s (le_refl _)

theorem generalSettingsLines_skip_empty :
    ∀ (l1 l2 : List GoString) (m : GoMap),
      generalSettingsLines (l1 ++ [] :: l2) m = generalSettingsLines (l1 ++ l2) m := by
  intro l1
  induction l1 with
  | nil => intro l2 m; simp [generalSettingsLines]
  | cons line l1 ih =>
    intro l2 m
    simp only [List.cons_append, generalSettingsLines, List.append_eq, ih]

theorem generalSettingsLines_skip_last (l : List GoString) (m : GoMap) :
    generalSettingsLines (l ++ [[]]) m = generalSettingsLines l m := by
  have := generalSettingsLines_skip_empty l [] m
  rwa [List.append_nil] at this

theorem sessionStatsLines_empty_line :
    ∀ (l1 l2 : List GoString) (m : GoMap),
      sessionStatsLines (l1 ++ [] :: l2) m = Res.runtimePanic := by
  intro l1
  induction l1 with
  | nil => intro l2 m; rfl
  | cons line l1 ih =>
    intro l2 m
    simp only [List.cons_append, sessionStatsLines, List.append_eq, ih, index]
    cases (stringsSplit line ":,".toList).get? 0 <;>
      cases (stringsSplit line ":,".toList).get? 1 <;> rfl

/-- `parseGeneralSettings` skips empty lines: a second "\r\n" after a line
break, or a "\r\n" at the end of the block, does not change its result. -/
theorem parseGeneralSettings_empty_line {F : Type} (lib : Lib F) :
    (∀ a b : GoString,
      parseGeneralSettings lib (a ++ "\r\n".toList ++ "\r\n".toList ++ b)
        = parseGeneralSettings lib (a ++ "\r\n".toList ++ b)) ∧
    (∀ s : GoString,
      parseGeneralSettings lib (s ++ "\r\n".toList) = parseGeneralSettings lib s) := by
  refine ⟨?_, ?_⟩
  · intro a b
    unfold parseGeneralSettings
    rw [(stringsSplit_insert_empty a b).1, (stringsSplit_insert_empty a b).2,
      generalSettingsLines_skip_empty]
  · intro s
    unfold parseGeneralSettings
    rw [stringsSplit_trailing_empty, generalSettingsLines_skip_last]

/-- `parseSessionStats` has no test `len(column) >= 1`: called on a block with an
empty line it reads `headingAndValue[1]` of that line, which is out of range. -/
theorem parseSessionStats_empty_line {F : Type} (lib : Lib F) :
    (∀ a b : GoString,
      parseSessionStats lib (a ++ "\r\n".toList ++ "\r\n".toList ++ b)
        = Res.runtimePanic) ∧
    (∀ s : GoString, parseSessionStats lib (s ++ "\r\n".toList) = Res.runtimePanic) := by
  refine ⟨?_, ?_⟩
  · intro a b
    unfold parseSessionStats
    rw [(stringsSplit_insert_empty a b).1, sessionStatsLines_empty_line]
    rfl
  · intro s
    unfold parseSessionStats
    rw [stringsSplit_trailing_empty, sessionStatsLines_empty_line]
    rfl

/-! ## The tabular decoders -/

theorem intOrError_eq {F : Type} (lib : Lib F) (raw kind column : GoString) :
    intOrError lib raw kind column =
      if coerces lib FieldType.int raw = true then Res.ok ((lib.ParseInt raw).getD 0)
      else Res.error (Error.cannotParse raw kind column) := by
  unfold intOrError coerces
  cases h : lib.ParseInt raw <;> simp

theorem index_of_lt (record : List GoString) (i : Nat) (h : i < record.length) :
    index record i = Res.ok (record.getD i []) := by
  unfold index
  rw [List.get?_eq_get h]
  simp [List.getElem?_eq_getElem h]

theorem index_of_le (record : List GoString) (i : Nat) (h : record.length ≤ i) :
    index record i = Res.runtimePanic := by
  unfold index
  rw [List.get?_eq_none.mpr h]

theorem killRow_ok {F : Type} (lib : Lib F) (record : List GoString)
    (hlen : 12 ≤ record.length) (hc : columnsCoerce lib killsRequired record = true) :
    killRow lib record = Res.ok (killOfRow lib record) := by
  simp only [columnsCoerce, killsRequired, List.all_cons, List.all_nil, Bool.and_true,
    Bool.and_eq_true] at hc
  obtain ⟨c0, c5, c6, c7, c8, c9, c10, c11⟩ := hc
  unfold killRow
  simp only [Res.monad_bind, Res.monad_pure, index_of_lt record _ (show 0 < _ by omega),
    index_of_lt record _ (show 1 < _ by omega), index_of_lt record _ (show 2 < _ by omega),
    index_of_lt record _ (show 3 < _ by omega), index_of_lt record _ (show 4 < _ by omega),
    index_of_lt record _ (show 5 < _ by omega), index_of_lt record _ (show 6 < _ by omega),
    index_of_lt record _ (show 7 < _ by omega), index_of_lt record _ (show 8 < _ by omega),
    index_of_lt record _ (show 9 < _ by omega), index_of_lt record _ (show 10 < _ by omega),
    index_of_lt record _ (show 11 < _ by omega), Res.bind_ok, floatOrError_eq,
    boolOrError_eq _ _ _ lib, c0, c5, c6, c7, c8, c9, c10, c11, if_true]
  rfl

theorem firstFailingColumn_cons {F : Type} (lib : Lib F) (record : List GoString)
    (x : Column) (xs : List Column) (c : Column)
    (hf : firstFailingColumn lib (x :: xs) record = some c) :
    (coerces lib x.ty (record.getD x.index []) = false ∧ c = x) ∨
    (coerces lib x.ty (record.getD x.index []) = true ∧
      firstFailingColumn lib xs record = some c) := by
  unfold firstFailingColumn at hf ⊢
  rw [List.find?_cons] at hf
  cases hc : coerces lib x.ty (record.getD x.index [])
  · simp only [hc, Bool.not_false] at hf
    exact Or.inl ⟨rfl, (Option.some.inj hf).symm⟩
  · simp only [hc, Bool.not_true] at hf
    exact Or.inr ⟨rfl, hf⟩

theorem killRow_failing {F : Type} (lib : Lib F) (record : List GoString) (c : Column)
    (hf : firstFailingColumn lib killsRequired record = some c)
    (hlt : c.index < record.length) :
    killRow lib record
      = Res.error (Error.cannotParse (record.getD c.index []) c.kind c.name) := by
  unfold killRow
  simp only [Res.monad_bind, Res.monad_pure, floatOrError_eq, boolOrError_eq _ _ _ lib]
  unfold killsRequired at hf
  iterate 8
    rcases firstFailingColumn_cons lib record _ _ c hf with ⟨hc, rfl⟩ | ⟨hc, hf'⟩
    · simp only at hc hlt
      simp (disch := omega) only [index_of_lt, Res.bind_ok, Res.bind_error, if_true, if_false,
        Bool.false_eq_true, *]
    clear hf
    rename' hf' => hf
    simp only at hc
  simp [firstFailingColumn] at hf

theorem weaponSettingsRow_ok {F : Type} (lib : Lib F) (record : List GoString)
    (hlen : 5 ≤ record.length) (hopt : record.length < 7 ∨ 16 ≤ record.length)
    (hc : columnsCoerce lib weaponRequired record = true) :
    weaponSettingsRow lib record = Res.ok (weaponOfRow lib record) := by
  simp only [columnsCoerce, weaponRequired, List.all_cons, List.all_nil, Bool.and_true,
    Bool.and_eq_true] at hc
  obtain ⟨c1, c2, c3, c4⟩ := hc
  unfold weaponSettingsRow weaponOfRow
  simp only [Res.monad_bind, Res.monad_pure, floatOrError_eq, intOrError_eq]
  rcases hopt with h | h
  · have h7 : ¬ record.length ≥ 7 := by omega
    simp (disch := omega) only [index_of_lt, Res.bind_ok, if_true, if_false, c1, c2, c3, c4, h7]
  · have h7 : record.length ≥ 7 := by omega
    simp (disch := omega) only [index_of_lt, Res.bind_ok, if_true, if_false, c1, c2, c3, c4, h7]

theorem weaponSettingsRow_panics {F : Type} (lib : Lib F) (record : List GoString)
    (h7 : 7 ≤ record.length) (h16 : record.length < 16)
    (hc : columnsCoerce lib weaponRequired record = true) :
    weaponSettingsRow lib record = Res.runtimePanic := by
  simp only [columnsCoerce, weaponRequired, List.all_cons, List.all_nil, Bool.and_true,
    Bool.and_eq_true] at hc
  obtain ⟨c1, c2, c3, c4⟩ := hc
  unfold weaponSettingsRow
  simp only [Res.monad_bind, Res.monad_pure, floatOrError_eq, intOrError_eq]
  have h7' : record.length ≥ 7 := h7
  obtain ⟨n, hn⟩ : ∃ n, record.length = n := ⟨_, rfl⟩
  rw [hn] at h7 h16
  interval_cases n <;>
    simp (disch := omega) only [index_of_lt, index_of_le, Res.bind_ok, Res.bind_runtimePanic,
      if_true, if_false, c1, c2, c3, c4, h7']

theorem weaponSettingsRow_failing {F : Type} (lib : Lib F) (record : List GoString)
    (c : Column) (hf : firstFailingColumn lib weaponRequired record = some c)
    (hlt : c.index < record.length) :
    weaponSettingsRow lib record
      = Res.error (Error.cannotParse (record.getD c.index []) c.kind c.name) := by
  unfold weaponSettingsRow
  simp only [Res.monad_bind, Res.monad_pure, floatOrError_eq, intOrError_eq]
  unfold weaponRequired at hf
  iterate 4
    rcases firstFailingColumn_cons lib record _ _ c hf with ⟨hc, rfl⟩ | ⟨hc, hf'⟩
    · simp only at hc hlt
      simp (disch := omega) only [index_of_lt, Res.bind_ok, Res.bind_error, if_true, if_false,
        Bool.false_eq_true, *]
    clear hf
    rename' hf' => hf
    simp only at hc
  simp [firstFailingColumn] at hf

theorem textFieldsEmpty_bind {F α : Type} (x : Res α) (f : α → Res (WeaponSettings F))
    (h : ∀ a w, f a = Res.ok w → w.textFieldsEmpty) :
    ∀ w, x.bind f = Res.ok w → w.textFieldsEmpty := by
  intro w hw
  obtain ⟨a, -, ha⟩ := Res.bind_eq_ok hw
  exact h a w ha

theorem weaponSettingsRow_textFields {F : Type} (lib : Lib F) (record : List GoString) :
    ∀ w, weaponSettingsRow lib record = Res.ok w → w.textFieldsEmpty := by
  unfold weaponSettingsRow
  simp only [Res.monad_bind, Res.monad_pure]
  repeat (first
    | (apply textFieldsEmpty_bind; intro _)
    | split)
  all_goals
    intro w hw
    cases hw
    exact ⟨rfl, rfl, rfl, rfl⟩

theorem killsLoop_header {F : Type} (lib : Lib F) (atEnd : Option Error)
    (header : List GoString) (rows : List (List GoString)) :
    killsLoop lib atEnd (header :: rows) 0 0 [] = killsLoop lib atEnd rows header.length 1 [] := by
  simp [killsLoop]

/-- Data rows of the length of the header row that decode are appended to the
kills, and the loop goes on. -/
theorem killsLoop_rows {F : Type} (lib : Lib F) (atEnd : Option Error) (L : Nat)
    (k : List GoString → Kill F) (rest : List (List GoString)) :
    ∀ (rows : List (List GoString)) (row : Nat) (kills : List (Kill F)),
      (∀ r ∈ rows, r.length = L ∧ killRow lib r = Res.ok (k r)) →
      killsLoop lib atEnd (rows ++ rest) L (row + 1) kills
        = killsLoop lib atEnd rest L (row + 1 + rows.length) (kills ++ rows.map k) := by
  intro rows
  induction rows with
  | nil => intro row kills _; simp
  | cons r rows ih =>
    intro row kills h
    have hr := h r (List.mem_cons_self _ _)
    have ih' := ih (row + 1) (kills ++ [k r]) (fun x hx => h x (List.mem_cons_of_mem _ hx))
    rw [List.cons_append, killsLoop]
    simp only [hr.1, ne_eq, not_true_eq_false, and_false, if_false, ite_self, hr.2, Res.bind_ok,
      Nat.succ_pos, if_true, gt_iff_lt]
    rw [ih']
    simp only [List.length_cons, List.map_cons, List.append_assoc, List.singleton_append]
    congr 1
    omega

theorem killsLoop_rows_exists {F : Type} (lib : Lib F) (atEnd : Option Error) (L : Nat)
    (rest : List (List GoString)) :
    ∀ (rows : List (List GoString)) (row : Nat) (kills : List (Kill F)),
      (∀ r ∈ rows, r.length = L ∧ ∃ kill, killRow lib r = Res.ok kill) →
      ∃ kills', killsLoop lib atEnd (rows ++ rest) L (row + 1) kills
        = killsLoop lib atEnd rest L (row + 1 + rows.length) kills' := by
  intro rows
  induction rows with
  | nil => intro row kills _; exact ⟨kills, by simp⟩
  | cons r rows ih =>
    intro row kills h
    obtain ⟨hl, kill, hk⟩ := h r (List.mem_cons_self _ _)
    obtain ⟨kills', ih'⟩ :=
      ih (row + 1) (kills ++ [kill]) (fun x hx => h x (List.mem_cons_of_mem _ hx))
    refine ⟨kills', ?_⟩
    rw [List.cons_append, killsLoop]
    simp only [hl, ne_eq, not_true_eq_false, and_false, if_false, ite_self, hk, Res.bind_ok,
      Nat.succ_pos, if_true, gt_iff_lt]
    rw [ih']
    simp only [List.length_cons]
    congr 1
    omega

theorem weaponSettingsLoop_header {F : Type} (lib : Lib F) (atEnd : Option Error)
    (header : List GoString) (rows : List (List GoString)) :
    weaponSettingsLoop lib atEnd (header :: rows) 0 none
      = weaponSettingsLoop lib atEnd rows 1 none := by
  simp [weaponSettingsLoop]

theorem weaponSettingsLoop_rows {F : Type} (lib : Lib F) (atEnd : Option Error)
    (rest : List (List GoString)) :
    ∀ (rows : List (List GoString)) (row : Nat) (settings : Option (WeaponSettings F)),
      (∀ r ∈ rows, ∃ w, weaponSettingsRow lib r = Res.ok w) →
      ∃ settings', weaponSettingsLoop lib atEnd (rows ++ rest) (row + 1) settings
        = weaponSettingsLoop lib atEnd rest (row + 1 + rows.length) settings' := by
  intro rows
  induction rows with
  | nil => intro row settings _; exact ⟨settings, by simp⟩
  | cons r rows ih =>
    intro row settings h
    obtain ⟨w, hw⟩ := h r (List.mem_cons_self _ _)
    obtain ⟨settings', ih'⟩ :=
      ih (row + 1) (some w) (fun x hx => h x (List.mem_cons_of_mem _ hx))
    refine ⟨settings', ?_⟩
    rw [List.cons_append, weaponSettingsLoop]
    simp only [hw, Res.bind_ok, Nat.succ_pos, if_true, gt_iff_lt]
    rw [ih']
    simp only [List.length_cons]
    congr 1
    omega

theorem weaponSettingsLoop_ok_inv {F : Type} (lib : Lib F) (atEnd : Option Error) :
    ∀ (records : List (List GoString)) (row : Nat) (settings : Option (WeaponSettings F))
      (w : WeaponSettings F),
      weaponSettingsLoop lib atEnd records row settings = Res.ok (some w) →
      settings = some w ∨ ∃ r ∈ records, weaponSettingsRow lib r = Res.ok w := by
  intro records
  induction records with
  | nil =>
    intro row settings w h
    unfold weaponSettingsLoop at h
    cases atEnd with
    | none => left; simpa using h
    | some e => simp at h
  | cons r records ih =>
    intro row settings w h
    unfold weaponSettingsLoop at h
    by_cases hrow : row > 0
    · rw [if_pos hrow] at h
      obtain ⟨fresh, hf, h'⟩ := Res.bind_eq_ok h
      rcases ih _ _ _ h' with e | ⟨x, hx, hxw⟩
      · right
        refine ⟨r, List.mem_cons_self _ _, ?_⟩
        rw [hf, Option.some.inj e]
      · exact Or.inr ⟨x, List.mem_cons_of_mem _ hx, hxw⟩
    · rw [if_neg hrow] at h
      rcases ih _ _ _ h with e | ⟨x, hx, hxw⟩
      · exact Or.inl e
      · exact Or.inr ⟨x, List.mem_cons_of_mem _ hx, hxw⟩

/-- Claim C13, amended.  Kill-log decode: for every kill-log block that the
reader splits into a header row of twelve fields and `n >= 0` data rows of twelve
fields each, in which columns 0, 5, 6, 7, 8, 9, 10 of every data row coerce to
floats and column 11 to a boolean, `parseKills` returns no error and exactly the
`n` records of the data rows, in row order, each holding the coerced values of
its row and columns 1 to 4 as they are.  A block of a header row only (of any
length) and a block in which the reader finds no record both give zero records
and no error. -/
theorem parseKills_decodes {F : Type} (lib : Lib F) (s : GoString)
    (header : List GoString) (rows : List (List GoString)) :
    (lib.csvRead s = (header :: rows, none) → header.length = 12 →
      (∀ r ∈ rows, r.length = 12 ∧ columnsCoerce lib killsRequired r = true) →
      parseKills lib s = Res.ok (rows.map (killOfRow lib)) ∧
      (rows.map (killOfRow lib)).length = rows.length) ∧
    (lib.csvRead s = ([header], none) → parseKills lib s = Res.ok []) ∧
    (lib.csvRead s = ([], none) → parseKills lib s = Res.ok []) := by
  refine ⟨fun hs hh hrows => ⟨?_, List.length_map _ _⟩, fun hs => ?_, fun hs => ?_⟩
  · unfold parseKills
    rw [hs, killsLoop_header, hh]
    have h := killsLoop_rows lib none 12 (killOfRow lib) [] rows 0 []
      (fun r hr => ⟨(hrows r hr).1,
        killRow_ok lib r (le_of_eq (hrows r hr).1.symm) (hrows r hr).2⟩)
    rw [List.append_nil] at h
    rw [h]
    rfl
  · unfold parseKills
    rw [hs, killsLoop_header]
    rfl
  · unfold parseKills
    rw [hs]
    rfl

theorem parseKills_decodes_witness :
    parseKills sampleLib exampleKillLog
      = Res.ok ([exampleKillRow1, exampleKillRow2].map (killOfRow sampleLib)) ∧
    ([exampleKillRow1, exampleKillRow2].map (killOfRow sampleLib)).length = 2 :=
  (parseKills_decodes sampleLib exampleKillLog (csvFields killLogHeader) _).1
    (by decide) (by decide) (by decide)

/-- Claim C13 as stated fails: a header row of one field before a data row of
twelve fields whose columns coerce gives `csv.ErrFieldCount`, as the reader of
`parseKills` holds every record to the length of the first. -/
theorem parseKills_short_header :
    sampleLib.csvRead shortHeaderKillLog = ([["Kills".toList], exampleKillRow1], none) ∧
    exampleKillRow1.length = 12 ∧
    columnsCoerce sampleLib killsRequired exampleKillRow1 = true ∧
    parseKills sampleLib shortHeaderKillLog = Res.error Error.csvFieldCount := by
  decide

/-- Claim C14, amended.  Tabular decoding is all-or-nothing over the whole block.
Take a block in which the data rows before the row `bad` decode, and in `bad`
some required column is present and does not coerce, `c` being the first of
them in the order in which the decoder reads them.  `parseWeaponSettings`
returns the error "can not parse 'raw' as kind for 'column' column." of `c`
and no record; so does `parseKills` when the rows up to `bad` have as many
fields as the header row (for a row of another length its reader returns
`csv.ErrFieldCount` first).  What the rows before `bad` decoded to is
discarded. -/
theorem tabular_all_or_nothing {F : Type} (lib : Lib F) (s : GoString)
    (header bad : List GoString) (pre post : List (List GoString)) (atEnd : Option Error)
    (c : Column) (hs : lib.csvRead s = (header :: (pre ++ bad :: post), atEnd))
    (hlt : c.index < bad.length) :
    ((∀ r ∈ pre, r.length = header.length ∧ ∃ kill, killRow lib r = Res.ok kill) →
      bad.length = header.length →
      firstFailingColumn lib killsRequired bad = some c →
      parseKills lib s
        = Res.error (Error.cannotParse (bad.getD c.index []) c.kind c.name)) ∧
    ((∀ r ∈ pre, ∃ w, weaponSettingsRow lib r = Res.ok w) →
      firstFailingColumn lib weaponRequired bad = some c →
      parseWeaponSettings lib s
        = Res.error (Error.cannotParse (bad.getD c.index []) c.kind c.name)) := by
  constructor
  · intro hpre hbad hf
    unfold parseKills
    rw [hs, killsLoop_header]
    obtain ⟨kills', h⟩ := killsLoop_rows_exists lib atEnd header.length (bad :: post) pre 0 []
      hpre
    rw [h, killsLoop]
    simp only [hbad, ne_eq, not_true_eq_false, and_false, if_false, ite_self]
    rw [if_pos (by omega), killRow_failing lib bad c hf hlt]
    rfl
  · intro hpre hf
    unfold parseWeaponSettings
    rw [hs, weaponSettingsLoop_header]
    obtain ⟨settings', h⟩ := weaponSettingsLoop_rows lib atEnd (bad :: post) pre 0 none hpre
    rw [h, weaponSettingsLoop, if_pos (by omega), weaponSettingsRow_failing lib bad c hf hlt]
    rfl

theorem tabular_all_or_nothing_witness :
    parseKills sampleLib badShotsKillLog
      = Res.error (Error.cannotParse "many".toList "float".toList "Shots".toList) :=
  (tabular_all_or_nothing sampleLib badShotsKillLog (csvFields killLogHeader)
    (csvFields "2,13:06:03,target,LG,0.7s,many,4,1.0,200,200,1.0,false".toList)
    [exampleKillRow1] [] none ⟨5, FieldType.float, "float".toList, "Shots".toList⟩
    (by decide) (by decide)).1
    (fun r hr => by
      rw [List.mem_singleton.mp hr]
      exact ⟨by decide, killOfRow sampleLib exampleKillRow1, by decide⟩)
    (by decide) (by decide)

/-- Claim C14 as stated fails: in a kill log whose data row has one field more
than the header row, a kill number that does not coerce is not reported; the
error is `csv.ErrFieldCount`, which names no column. -/
theorem parseKills_field_count_first :
    firstFailingColumn sampleLib killsRequired
      (csvFields "first,13:06:01,target,LG,0.5s,3,2,0.66,100,150,0.66,false,extra".toList)
      = some ⟨0, FieldType.float, "float".toList, "Kill #".toList⟩ ∧
    parseKills sampleLib longBadRowKillLog = Res.error Error.csvFieldCount := by
  decide

/-- Data rows that decode to `weaponOfRow`: the loop ends with the record of the
last of them. -/
theorem weaponSettingsLoop_last {F : Type} (lib : Lib F) :
    ∀ (rows : List (List GoString)) (row : Nat) (settings : Option (WeaponSettings F)),
      (∀ r ∈ rows, weaponSettingsRow lib r = Res.ok (weaponOfRow lib r)) →
      weaponSettingsLoop lib none rows (row + 1) settings
        = Res.ok (match rows.getLast? with
            | some last => some (weaponOfRow lib last)
            | none => settings) := by
  intro rows
  induction rows with
  | nil => intro row settings _; rfl
  | cons r rows ih =>
    intro row settings h
    rw [weaponSettingsLoop, if_pos (by omega), h r (List.mem_cons_self _ _), Res.bind_ok,
      ih (row + 1) _ (fun x hx => h x (List.mem_cons_of_mem _ hx))]
    cases rows with
    | nil => rfl
    | cons r' rows' =>
      have hl : (r' :: rows').getLast? = some ((r' :: rows').getLast (List.cons_ne_nil _ _)) :=
        List.getLast?_eq_getLast _ _
      rw [List.getLast?_cons_cons, hl]

/-- Claim C15, amended.  Rows of differing field counts.  `parseWeaponSettings`
permits them (its reader has `FieldsPerRecord = -1`): whatever the length of the
header row, a block whose data rows carry columns 1 to 4 with values that coerce,
each of them of fewer than 7 or of at least 16 fields, decodes without error, to
the record of its last data row.  `parseKills` does not: its reader holds every
record to the number of fields of the header row and returns
`csv.ErrFieldCount` for the first data row of another length, whatever its
columns hold. -/
theorem tabular_field_counts {F : Type} (lib : Lib F) (s : GoString)
    (header : List GoString) :
    (∀ rows : List (List GoString), lib.csvRead s = (header :: rows, none) →
      (∀ r ∈ rows, 5 ≤ r.length ∧ (r.length < 7 ∨ 16 ≤ r.length) ∧
        columnsCoerce lib weaponRequired r = true) →
      parseWeaponSettings lib s = Res.ok (rows.getLast?.map (weaponOfRow lib))) ∧
    (∀ (pre post : List (List GoString)) (bad : List GoString) (atEnd : Option Error),
      lib.csvRead s = (header :: (pre ++ bad :: post), atEnd) →
      0 < header.length →
      (∀ r ∈ pre, r.length = header.length ∧ ∃ kill, killRow lib r = Res.ok kill) →
      bad.length ≠ header.length →
      parseKills lib s = Res.error Error.csvFieldCount) := by
  constructor
  · intro rows hs hrows
    unfold parseWeaponSettings
    rw [hs, weaponSettingsLoop_header, weaponSettingsLoop_last lib rows 0 none
      (fun r hr => weaponSettingsRow_ok lib r (hrows r hr).1 (hrows r hr).2.1 (hrows r hr).2.2)]
    cases rows.getLast? <;> rfl
  · intro pre post bad atEnd hs hpos hpre hbad
    unfold parseKills
    rw [hs, killsLoop_header]
    obtain ⟨kills', h⟩ := killsLoop_rows_exists lib atEnd header.length (bad :: post) pre 0 []
      hpre
    rw [h, killsLoop, if_pos ⟨hpos, hbad⟩]

theorem tabular_field_counts_witness :
    parseWeaponSettings sampleLib exampleWeaponTable
      = Res.ok (some (weaponOfRow sampleLib
          (csvFields "RL,20,8,640,1600,,cm/360,1.2,1.2,103,true,plus.png,1.0,White,0.8,1.0".toList))) :=
  (tabular_field_counts sampleLib exampleWeaponTable (csvFields weaponHeader)).1
    [csvFields "LG,10,5,50,100".toList,
      csvFields "RL,20,8,640,1600,,cm/360,1.2,1.2,103,true,plus.png,1.0,White,0.8,1.0".toList]
    (by decide) (by decide)

/-- Claim C15 as stated fails for `parseKills`: a data row of thirteen fields
after a header row of twelve carries the required columns with values that
coerce, and the result is `csv.ErrFieldCount`. -/
theorem parseKills_long_row :
    columnsCoerce sampleLib killsRequired
      (csvFields "1,13:06:01,target,LG,0.5s,3,2,0.66,100,150,0.66,false,extra".toList) = true ∧
    parseKills sampleLib longRowKillLog = Res.error Error.csvFieldCount := by
  decide

theorem parseWeaponSettings_single_row {F : Type} (lib : Lib F) (s : GoString)
    (header record : List GoString) (hs : lib.csvRead s = ([header, record], none)) :
    parseWeaponSettings lib s
      = (weaponSettingsRow lib record).bind fun fresh => Res.ok (some fresh) := by
  unfold parseWeaponSettings
  rw [hs, weaponSettingsLoop_header, weaponSettingsLoop, if_pos (by omega)]
  rfl

/-- Claim C16, the behaviour of the code.  For a weapon table of a header row and
one data row in which columns 1 and 2 coerce to integers and columns 3 and 4 to
floats: a row of fewer than 7 fields gives a record whose optional fields are all
zero, a row of at least 16 fields a record with the optional columns decoded,
and a row of 7 to 15 fields passes the test `len(record) >= 7`, reads a column
from `record[7]` to `record[15]` that it does not have, and panics. -/
theorem weaponSettings_optional_guard {F : Type} (lib : Lib F) (s : GoString)
    (header record : List GoString) (hs : lib.csvRead s = ([header, record], none))
    (hlen : 5 ≤ record.length) (hc : columnsCoerce lib weaponRequired record = true) :
    (record.length < 7 →
      parseWeaponSettings lib s = Res.ok (some (weaponOfRow lib record)) ∧
      (weaponOfRow lib record).HorizSens = lib.zero ∧
      (weaponOfRow lib record).VertSens = lib.zero ∧
      (weaponOfRow lib record).FOV = lib.zero ∧
      (weaponOfRow lib record).HideGun = false ∧
      (weaponOfRow lib record).CrosshairScale = lib.zero ∧
      (weaponOfRow lib record).ADSSens = lib.zero ∧
      (weaponOfRow lib record).ADSZoomScale = lib.zero) ∧
    (16 ≤ record.length →
      parseWeaponSettings lib s = Res.ok (some (weaponOfRow lib record))) ∧
    (7 ≤ record.length → record.length < 16 →
      parseWeaponSettings lib s = Res.runtimePanic) := by
  have hstep := parseWeaponSettings_single_row lib s header record hs
  refine ⟨fun h => ⟨?_, ?_⟩, fun h => ?_, fun h7 h16 => ?_⟩
  · rw [hstep, weaponSettingsRow_ok lib record hlen (Or.inl h) hc]
    rfl
  · have h7 : ¬ record.length ≥ 7 := by omega
    simp only [weaponOfRow, h7, if_false, and_self]
  · rw [hstep, weaponSettingsRow_ok lib record hlen (Or.inr h) hc]
    rfl
  · rw [hstep, weaponSettingsRow_panics lib record h7 h16 hc]
    rfl

theorem weaponSettings_optional_guard_witness :
    (csvFields "LG,10,5,50,100,,cm/360".toList).length = 7 ∧
    parseWeaponSettings sampleLib sevenFieldWeaponTable = Res.runtimePanic :=
  ⟨by decide,
    (weaponSettings_optional_guard sampleLib sevenFieldWeaponTable
      (csvFields weaponHeader) (csvFields "LG,10,5,50,100,,cm/360".toList)
      (by decide) (by decide) (by decide)).2.2 (by decide) (by decide)⟩

/-- Claim C17, the behaviour of the code.  For a weapon table of a header row and
one data row of at least 16 fields whose columns 1 to 4 coerce,
`parseWeaponSettings` returns no error and a record in which each optional field
is the value that the `strconv` function returned for its column, whether or not
it returned an error with it: `false` for a boolean that does not parse, and for
a float whatever `strconv.ParseFloat` returns next to its error.  No field
depends on another column. -/
theorem weaponSettings_optional_values {F : Type} (lib : Lib F) (s : GoString)
    (header record : List GoString) (hs : lib.csvRead s = ([header, record], none))
    (hlen : 16 ≤ record.length) (hc : columnsCoerce lib weaponRequired record = true) :
    ∃ w, parseWeaponSettings lib s = Res.ok (some w) ∧
      w.Shots = (lib.ParseInt (record.getD 1 [])).getD 0 ∧
      w.Hits = (lib.ParseInt (record.getD 2 [])).getD 0 ∧
      w.DamageDone = (lib.ParseFloat (record.getD 3 [])).1 ∧
      w.DamagePossible = (lib.ParseFloat (record.getD 4 [])).1 ∧
      w.HorizSens = (lib.ParseFloat (record.getD 7 [])).1 ∧
      w.VertSens = (lib.ParseFloat (record.getD 8 [])).1 ∧
      w.FOV = (lib.ParseFloat (record.getD 9 [])).1 ∧
      w.HideGun = (parseBool (record.getD 10 [])).getD false ∧
      w.CrosshairScale = (lib.ParseFloat (record.getD 12 [])).1 ∧
      w.ADSSens = (lib.ParseFloat (record.getD 14 [])).1 ∧
      w.ADSZoomScale = (lib.ParseFloat (record.getD 15 [])).1 := by
  have h7 : record.length ≥ 7 := by omega
  refine ⟨weaponOfRow lib record, ?_, ?_⟩
  · rw [parseWeaponSettings_single_row lib s header record hs,
      weaponSettingsRow_ok lib record (by omega) (Or.inr hlen) hc]
    rfl
  · simp only [weaponOfRow, h7, if_true, and_self]

theorem weaponSettings_optional_values_witness :
    (overflowLib.ParseFloat "1e999".toList).2 = false ∧
    ∃ w, parseWeaponSettings overflowLib overflowWeaponTable = Res.ok (some w) ∧
      w.Shots = 20 ∧ w.Hits = 8 ∧ w.DamageDone = some ⟨640, 0⟩ ∧
      w.DamagePossible = some ⟨1600, 0⟩ ∧ w.ADSSens = none ∧ w.ADSSens ≠ overflowLib.zero := by
  refine ⟨by decide, ?_⟩
  obtain ⟨w, hw, h1, h2, h3, h4, -, -, -, -, -, h14, -⟩ :=
    weaponSettings_optional_values overflowLib overflowWeaponTable
      (csvFields weaponHeader)
      (csvFields "RL,20,8,640,1600,,cm/360,1.2,1.2,103,true,plus.png,1.0,White,1e999,1.0".toList)
      (by decide) (by decide) (by decide)
  refine ⟨w, hw, ?_, ?_, ?_, ?_, ?_, ?_⟩
  · rw [h1]; decide
  · rw [h2]; decide
  · rw [h3]; decide
  · rw [h4]; decide
  · rw [h14]; decide
  · rw [h14]; decide

/-- Claim C19.  Weapon-settings row selection.  `parseWeaponSettings` returns nil
and no error when the reader finds no record in the block, and when it finds a
header row only.  When the data rows all decode, the result is the record of
the last of them: `w`, which `weaponSettingsRow` makes from that row alone.
And in every record that `parseWeaponSettings` returns, `Weapon`, `SensScale`,
`Crosshair` and `CrosshairColor` are empty. -/
theorem parseWeaponSettings_row_selection {F : Type} (lib : Lib F) (s : GoString) :
    (lib.csvRead s = ([], none) → parseWeaponSettings lib s = Res.ok none) ∧
    (∀ header, lib.csvRead s = ([header], none) → parseWeaponSettings lib s = Res.ok none) ∧
    (∀ header rows last w, lib.csvRead s = (header :: (rows ++ [last]), none) →
      (∀ r ∈ rows, ∃ w', weaponSettingsRow lib r = Res.ok w') →
      weaponSettingsRow lib last = Res.ok w →
      parseWeaponSettings lib s = Res.ok (some w)) ∧
    (∀ w, parseWeaponSettings lib s = Res.ok (some w) →
      w.Weapon = [] ∧ w.SensScale = [] ∧ w.Crosshair = [] ∧ w.CrosshairColor = []) := by
  refine ⟨fun hs => ?_, fun header hs => ?_, fun header rows last w hs hrows hlast => ?_,
    fun w hw => ?_⟩
  · unfold parseWeaponSettings
    rw [hs]
    rfl
  · unfold parseWeaponSettings
    rw [hs]
    rfl
  · unfold parseWeaponSettings
    rw [hs, weaponSettingsLoop_header]
    obtain ⟨settings', h⟩ := weaponSettingsLoop_rows lib none [last] rows 0 none hrows
    rw [h, weaponSettingsLoop, if_pos (by omega), hlast]
    rfl
  · unfold parseWeaponSettings at hw
    rcases weaponSettingsLoop_ok_inv lib _ _ _ _ w hw with h | ⟨r, -, hr⟩
    · cases h
    · exact weaponSettingsRow_textFields lib r w hr

theorem parseWeaponSettings_row_selection_witness :
    parseWeaponSettings sampleLib exampleWeaponTable
      = Res.ok (some (weaponOfRow sampleLib
          (csvFields "RL,20,8,640,1600,,cm/360,1.2,1.2,103,true,plus.png,1.0,White,0.8,1.0".toList))) :=
  (parseWeaponSettings_row_selection sampleLib exampleWeaponTable).2.2.1
    (csvFields weaponHeader) [csvFields "LG,10,5,50,100".toList]
    (csvFields "RL,20,8,640,1600,,cm/360,1.2,1.2,103,true,plus.png,1.0,White,0.8,1.0".toList) _
    (by decide)
    (fun r hr => by
      rw [List.mem_singleton.mp hr]
      exact ⟨weaponOfRow sampleLib (csvFields "LG,10,5,50,100".toList), by decide⟩)
    (by decide)

/-! ## Reconstruction of the content and the batch encoder -/

theorem indexOf?_split {d : GoString} :
    ∀ (s : GoString) (i : Nat), indexOf? s d = some i →
      s = s.take i ++ d ++ s.drop (i + d.length) := by
  intro s
  induction s with
  | nil =>
    intro i h
    cases d with
    | nil => simp
    | cons c cs => simp [indexOf?] at h
  | cons x s ih =>
    intro i h
    unfold indexOf? at h
    split at h
    · rename_i hp
      cases h
      obtain ⟨t, ht⟩ := List.isPrefixOf_iff_prefix.mp hp
      rw [← ht]
      simp
    · cases hs : indexOf? s d with
      | none => simp [hs] at h
      | some j =>
        simp [hs] at h
        subst h
        have := ih j hs
        simp only [List.take_succ_cons, List.cons_append, Nat.add_right_comm j 1,
          List.drop_succ_cons]
        rw [← this]

theorem indexOf?_take_self {d : GoString} (hd : d ≠ []) (s : GoString) (i : Nat)
    (h : indexOf? s d = some i) : indexOf? (s.take i) d = none := by
  cases h' : indexOf? (s.take i) d with
  | none => rfl
  | some j =>
    have hle := indexOf?_add_length_le d _ j h'
    have hj := indexOf?_take d s i j h'
    rw [h] at hj
    cases hj
    have hd' : 0 < d.length := List.length_pos.mpr hd
    simp only [List.length_take] at hle
    omega

theorem scanLoop_acc {d : GoString} :
    ∀ (fuel : Nat) (rest : GoString) (acc : List GoString),
      scanLoop (splitAt d) fuel rest acc
        = (acc ++ (scanLoop (splitAt d) fuel rest []).1, (scanLoop (splitAt d) fuel rest []).2) := by
  intro fuel
  induction fuel with
  | zero => intro rest acc; simp [scanLoop]
  | succ fuel ih =>
    intro rest acc
    simp only [scanLoop]
    rcases splitAt d (List.take maxScanTokenSize rest)
      (decide (rest.length < maxScanTokenSize)) with ⟨advance, _ | token⟩
    · by_cases h : rest.length < maxScanTokenSize <;> simp [h]
    · simp only
      rw [ih _ (acc ++ [token]), ih _ ([] ++ [token])]
      simp

theorem stringsJoin_cons (a : GoString) (l : List GoString) (d : GoString) (hl : l ≠ []) :
    stringsJoin (a :: l) d = a ++ d ++ stringsJoin l d := by
  cases l with
  | nil => exact absurd rfl hl
  | cons b rest => rfl

/-- The blocks found from `rest` on: none contains the delimiter, and when the
scan ends without error they give back `rest`. -/
theorem scanLoop_join {d : GoString} (hd : d ≠ []) :
    ∀ (fuel : Nat) (rest : GoString), rest.length < fuel →
      (∀ b ∈ (scanLoop (splitAt d) fuel rest []).1, indexOf? b d = none) ∧
      ((scanLoop (splitAt d) fuel rest []).2 = none →
        ((scanLoop (splitAt d) fuel rest []).1 = [] ↔ rest = []) ∧
        stringsJoin (scanLoop (splitAt d) fuel rest []).1 d
          ++ (if afterLast rest d = [] ∧ rest ≠ [] then d else []) = rest) := by
  intro fuel
  induction fuel with
  | zero => intro rest h; omega
  | succ fuel ih =>
    intro rest hlt
    cases rest with
    | nil => simp [scanLoop_nil, stringsJoin]
    | cons c cs =>
      have hM : 0 < maxScanTokenSize := by decide
      cases hi : indexOf? ((c :: cs).take maxScanTokenSize) d with
      | some i =>
        have hi' := indexOf?_take d _ _ _ hi
        have hiM : i ≤ maxScanTokenSize := by
          have := indexOf?_add_length_le d _ i hi
          simp only [List.length_take] at this
          omega
        have htok : ((c :: cs).take maxScanTokenSize).take i = (c :: cs).take i := by
          rw [List.take_take, Nat.min_eq_left hiM]
        have hlen : ((c :: cs).drop (i + d.length)).length < fuel := by
          have := length_drop_lt hd (n := fuel) hi' (by omega)
          have h1 := indexOf?_lt_length hd _ _ hi'
          have hd' : 0 < d.length := List.length_pos.mpr hd
          simp only [List.length_drop] at this ⊢
          omega
        have hne : (c :: cs).take maxScanTokenSize ≠ [] := by
          intro h0
          have := congrArg List.length h0
          simp only [List.length_take, List.length_cons, List.length_nil] at this
          omega
        have hstep : scanLoop (splitAt d) (fuel + 1) (c :: cs) []
            = ((c :: cs).take i :: (scanLoop (splitAt d) fuel ((c :: cs).drop (i + d.length)) []).1,
                (scanLoop (splitAt d) fuel ((c :: cs).drop (i + d.length)) []).2) := by
          simp only [scanLoop, splitAt_of_some _ hi hne, htok]
          rw [scanLoop_acc]
          rfl
        obtain ⟨ih1, ih2⟩ := ih ((c :: cs).drop (i + d.length)) hlen
        have hsplit := indexOf?_split (c :: cs) i hi'
        rw [hstep]
        refine ⟨?_, fun he => ⟨by simp, ?_⟩⟩
        · intro b hb
          rcases List.mem_cons.mp hb with rfl | hb
          · exact indexOf?_take_self hd _ _ hi'
          · exact ih1 b hb
        · obtain ⟨hnil, hjoin⟩ := ih2 he
          rw [afterLast_of_some hd hi']
          simp only [ne_eq, not_false_eq_true, and_true, reduceCtorEq]
          by_cases hr : (c :: cs).drop (i + d.length) = []
          · rw [hnil.mpr hr]
            rw [hr] at hjoin ⊢
            have h0 : afterLast ([] : GoString) d = [] :=
              afterLast_of_none (indexOf?_nil_of_ne_nil hd)
            rw [if_pos h0]
            rw [hr, List.append_nil] at hsplit
            exact hsplit.symm
          · have hne' : (scanLoop (splitAt d) fuel ((c :: cs).drop (i + d.length)) []).1 ≠ [] :=
              fun h => hr (hnil.mp h)
            rw [stringsJoin_cons _ _ _ hne']
            have e : (if afterLast ((c :: cs).drop (i + d.length)) d = [] then d else [])
                = (if afterLast ((c :: cs).drop (i + d.length)) d = [] ∧
                    (c :: cs).drop (i + d.length) ≠ [] then d else []) := by
              simp [hr]
            rw [e, List.append_assoc, hjoin]
            exact hsplit.symm
      | none =>
        by_cases hE : (c :: cs).length < maxScanTokenSize
        · have htake : (c :: cs).take maxScanTokenSize = c :: cs :=
            List.take_of_length_le (by omega)
          rw [htake] at hi
          have hfuel : fuel ≠ 0 := by
            simp only [List.length_cons] at hlt; omega
          obtain ⟨k, rfl⟩ := Nat.exists_eq_succ_of_ne_zero hfuel
          have hstep : scanLoop (splitAt d) (k + 1 + 1) (c :: cs) [] = ([c :: cs], none) := by
            rw [scanLoop, htake]
            simp only [hE, decide_True, splitAt_of_none_atEOF hi (List.cons_ne_nil c cs)]
            rw [List.drop_length, scanLoop_nil]
            rfl
          rw [hstep]
          refine ⟨?_, fun _ => ⟨by simp, ?_⟩⟩
          · intro b hb
            rw [List.mem_singleton.mp hb]
            exact hi
          · rw [afterLast_of_none hi]
            simp [stringsJoin]
        · have hstep : scanLoop (splitAt d) (fuel + 1) (c :: cs) []
              = ([], some Error.tokenTooLong) := by
            rw [scanLoop]
            simp only [hE, decide_False, splitAt_of_none hi]
            simp
          rw [hstep]
          simp

/-- Claim C20, amended.  SectionSplitter reconstruction: for every content and
non-empty delimiter `d`, no block produced by scanning with `splitAt(d)`
contains `d`, and the empty content yields zero blocks.  When the scan ends
without a scanner error, the blocks are in content order and joined with `d`
they give back the content, except that when no text follows the last of the
non-overlapping instances of `d` that the scan cuts at, that one trailing
delimiter is dropped (no empty final block is produced for it). -/
theorem scanWith_reconstruction (d content : GoString) (hd : d ≠ []) :
    (∀ b ∈ (scanWith d content).1, indexOf? b d = none) ∧
    (content = [] → scanWith d content = ([], none)) ∧
    ((scanWith d content).2 = none →
      stringsJoin (scanWith d content).1 d
        ++ (if afterLast content d = [] ∧ content ≠ [] then d else []) = content) ∧
    scanSections content = scanWith "\r\n\r\n".toList content := by
  have h := scanLoop_join hd (content.length + 1) content (Nat.lt_succ_self _)
  refine ⟨h.1, ?_, fun he => (h.2 he).2, rfl⟩
  intro hc
  subst hc
  exact scanLoop_nil d _ []

theorem scanWith_reconstruction_witness :
    stringsJoin (scanWith "--".toList "a--b--".toList).1 "--".toList ++ "--".toList
      = "a--b--".toList := by
  have h := (scanWith_reconstruction "--".toList "a--b--".toList (by decide)).2.2.1 (by decide)
  rw [if_pos (by decide)] at h
  exact h

/-- Claim C20 as stated fails: the content of three line breaks ends with the
delimiter "\r\n\r\n", the scan cuts at the first two line breaks and keeps the
third as the last block, and the blocks joined give back the whole content: no
trailing delimiter is dropped. -/
theorem scanSections_overlapping_end :
    List.isSuffixOf "\r\n\r\n".toList "\r\n\r\n\r\n".toList = true ∧
    scanSections "\r\n\r\n\r\n".toList = ([[], "\r\n".toList], none) ∧
    stringsJoin (scanSections "\r\n\r\n\r\n".toList).1 "\r\n\r\n".toList
      = "\r\n\r\n\r\n".toList ∧
    stringsJoin (scanSections "\r\n\r\n\r\n".toList).1 "\r\n\r\n".toList
      ≠ "\r\n".toList := by
  decide

/-! ## The blocks of the scan and those of `strings.Split` -/

theorem dropEmptyLast_cons (a : GoString) (l : List GoString) (hl : l ≠ []) :
    dropEmptyLast (a :: l) = a :: dropEmptyLast l := by
  cases l with
  | nil => exact absurd rfl hl
  | cons b rest =>
    unfold dropEmptyLast
    rw [List.getLast?_cons_cons]
    by_cases h : (b :: rest).getLast? = some []
    · rw [if_pos h, if_pos h]; rfl
    · rw [if_neg h, if_neg h]

theorem stringsSplit_ne_nil (s d : GoString) : stringsSplit s d ≠ [] := by
  obtain ⟨x, xs, h⟩ := splitLoop_ne_nil d s.length s
  unfold stringsSplit
  rw [h]
  exact List.cons_ne_nil _ _

/-- A scan that ends with an error ends with `ErrTooLong`, on an input that
does not fit the buffer. -/
theorem scanLoop_error (split : GoString → Bool → Nat × Option GoString) :
    ∀ (fuel : Nat) (rest : GoString) (acc : List GoString) (e : Error),
      (scanLoop split fuel rest acc).2 = some e →
      e = Error.tokenTooLong ∧ maxScanTokenSize ≤ rest.length := by
  intro fuel
  induction fuel with
  | zero => intro rest acc e h; simp [scanLoop] at h
  | succ fuel ih =>
    intro rest acc e h
    rcases hs : split (List.take maxScanTokenSize rest)
      (decide (rest.length < maxScanTokenSize)) with ⟨advance, _ | token⟩
    · simp only [scanLoop, hs] at h
      by_cases hE : rest.length < maxScanTokenSize
      · simp [hE] at h
      · simp [hE] at h
        exact ⟨h.symm, by omega⟩
    · simp only [scanLoop, hs] at h
      obtain ⟨h1, h2⟩ := ih _ _ e h
      refine ⟨h1, ?_⟩
      simp only [List.length_drop] at h2
      omega

/-- The blocks that a scan without error finds are those of `strings.Split`,
an empty last block left out. -/
theorem scanLoop_split {d : GoString} (hd : d ≠ []) :
    ∀ (fuel : Nat) (rest : GoString), rest.length < fuel →
      (scanLoop (splitAt d) fuel rest []).2 = none →
      (scanLoop (splitAt d) fuel rest []).1 = splitBlocks d rest := by
  intro fuel
  induction fuel with
  | zero => intro rest h; omega
  | succ fuel ih =>
    intro rest hlt
    cases rest with
    | nil =>
      intro _
      have h0 : indexOf? ([] : GoString) d = none := indexOf?_nil_of_ne_nil hd
      rw [scanLoop_nil, splitBlocks, stringsSplit_of_none h0]
      rfl
    | cons c cs =>
      have hM : 0 < maxScanTokenSize := by decide
      cases hi : indexOf? ((c :: cs).take maxScanTokenSize) d with
      | some i =>
        have hi' := indexOf?_take d _ _ _ hi
        have hiM : i ≤ maxScanTokenSize := by
          have := indexOf?_add_length_le d _ i hi
          simp only [List.length_take] at this
          omega
        have htok : ((c :: cs).take maxScanTokenSize).take i = (c :: cs).take i := by
          rw [List.take_take, Nat.min_eq_left hiM]
        have hlen : ((c :: cs).drop (i + d.length)).length < fuel := by
          have := length_drop_lt hd (n := fuel) hi' (by omega)
          have h1 := indexOf?_lt_length hd _ _ hi'
          have hd' : 0 < d.length := List.length_pos.mpr hd
          simp only [List.length_drop] at this ⊢
          omega
        have hne : (c :: cs).take maxScanTokenSize ≠ [] := by
          intro h0
          have := congrArg List.length h0
          simp only [List.length_take, List.length_cons, List.length_nil] at this
          omega
        have hstep : scanLoop (splitAt d) (fuel + 1) (c :: cs) []
            = ((c :: cs).take i :: (scanLoop (splitAt d) fuel ((c :: cs).drop (i + d.length)) []).1,
                (scanLoop (splitAt d) fuel ((c :: cs).drop (i + d.length)) []).2) := by
          simp only [scanLoop, splitAt_of_some _ hi hne, htok]
          rw [scanLoop_acc]
          rfl
        rw [hstep]
        intro he
        simp only at he ⊢
        rw [ih _ hlen he, splitBlocks, splitBlocks, stringsSplit_of_some hd hi',
          dropEmptyLast_cons _ _ (stringsSplit_ne_nil _ _)]
      | none =>
        by_cases hE : (c :: cs).length < maxScanTokenSize
        · have htake : (c :: cs).take maxScanTokenSize = c :: cs :=
            List.take_of_length_le (by omega)
          rw [htake] at hi
          have hfuel : fuel ≠ 0 := by
            simp only [List.length_cons] at hlt; omega
          obtain ⟨k, rfl⟩ := Nat.exists_eq_succ_of_ne_zero hfuel
          have hstep : scanLoop (splitAt d) (k + 1 + 1) (c :: cs) [] = ([c :: cs], none) := by
            rw [scanLoop, htake]
            simp only [hE, decide_True, splitAt_of_none_atEOF hi (List.cons_ne_nil c cs)]
            rw [List.drop_length, scanLoop_nil]
            rfl
          rw [hstep]
          intro _
          rw [splitBlocks, stringsSplit_of_none hi]
          simp [dropEmptyLast]
        · have hstep : scanLoop (splitAt d) (fuel + 1) (c :: cs) []
              = ([], some Error.tokenTooLong) := by
            rw [scanLoop]
            simp only [hE, decide_False, splitAt_of_none hi]
            simp
          rw [hstep]
          intro he
          simp at he

theorem scanSections_eq_splitBlocks (content : GoString)
    (h : (scanSections content).2 = none) :
    (scanSections content).1 = splitBlocks "\r\n\r\n".toList content :=
  scanLoop_split (by decide) (content.length + 1) content (Nat.lt_succ_self _) h

/-- Claim C2, amended.  Structural failure: for every content whose split on
the delimiter "\r\n\r\n" yields, an empty block after the last delimiter not
counted, a number of blocks other than 4, and for every file name,
`parseSession` returns an error and no `Session`.  The error is "invalid file,
does not contain 4 sections", or the scanner's `ErrTooLong` when a block does
not fit the scanner's buffer of 64 KiB (never for a content shorter than that).
It is the same error for every file name: the count of blocks is checked before
the file name is hashed and before `parseTimeStamp` reads it, so a file name on
which `parseTimeStamp` panics or ends the process gets it too. -/
theorem parseSession_structural_failure {F : Type} (lib : Lib F) (content : GoString)
    (h : (splitBlocks "\r\n\r\n".toList content).length ≠ 4) :
    ∃ e, (e = Error.invalidFile ∨ e = Error.tokenTooLong) ∧
      (content.length < maxScanTokenSize → e = Error.invalidFile) ∧
      ∀ fileName : GoString, parseSession lib fileName content = Res.error e := by
  cases hs : (scanSections content).2 with
  | none =>
    refine ⟨Error.invalidFile, Or.inl rfl, fun _ => rfl, fun fileName => ?_⟩
    have hl : (scanSections content).1.length ≠ 4 := by
      rw [scanSections_eq_splitBlocks content hs]; exact h
    unfold parseSession
    rw [hs]
    simp [hl]
  | some e =>
    obtain ⟨h1, h2⟩ := scanLoop_error _ _ _ _ e hs
    refine ⟨e, Or.inr h1, fun hlt => absurd hlt (by omega), fun fileName => ?_⟩
    unfold parseSession
    rw [hs]

theorem parseSession_structural_failure_witness :
    parseTimeStamp "abc".toList = Res.runtimePanic ∧
    parseSession sampleLib "abc".toList "a\r\n\r\nb".toList = Res.error Error.invalidFile := by
  obtain ⟨e, -, he, h⟩ :=
    parseSession_structural_failure sampleLib "a\r\n\r\nb".toList (by decide)
  rw [h, he (by decide)]
  exact ⟨by decide, rfl⟩

/-- Claim C2 as stated fails: the split of the content on the delimiter yields
five blocks, the fifth empty, and `parseSession` returns a `Session`: the
scanner makes no block of the empty text after the last delimiter. -/
theorem parseSession_trailing_delimiter :
    (stringsSplit trailingDelimiterContent "\r\n\r\n".toList).length = 5 ∧
    parseSession sampleLib exampleFileName trailingDelimiterContent = Res.ok otherSession :=
  ⟨by decide, parseSession_eq_ok sampleLib exampleFileName trailingDelimiterContent
    "a".toList "b".toList "c:,d".toList "d:,u".toList
    _ _ _ _ _ (by decide) (by decide)
    (Or.inr ⟨⟨Error.cannotParse [] "float".toList "Input Lag".toList, by decide⟩, rfl⟩)
    (Or.inl (by decide))
    (Or.inr ⟨⟨Error.cannotParse [] "float".toList "Kills".toList, by decide⟩, rfl⟩)
    (Or.inl (by decide))⟩

/-! ## Empty lines in the blocks of a file -/

/-- A text in which `d` is written after `p` has an instance of `d` that starts
in `p` or right after it. -/
theorem indexOf?_append_le {d : GoString} (hd : d ≠ []) (t : GoString) :
    ∀ p : GoString, ∃ j, indexOf? (p ++ d ++ t) d = some j ∧ j ≤ p.length := by
  intro p
  induction p with
  | nil =>
    refine ⟨0, ?_, le_refl _⟩
    cases hdt : d ++ t with
    | nil =>
      have := congrArg List.length hdt
      have hd' : 0 < d.length := List.length_pos.mpr hd
      simp only [List.length_append, List.length_nil] at this
      omega
    | cons c cs =>
      have hp : d.isPrefixOf (c :: cs) = true := by
        rw [← hdt]
        exact ( List.isPrefixOf_iff_prefix.mpr (List.prefix_append d t))
      rw [List.nil_append, hdt, indexOf?, if_pos hp]
  | cons x p ih =>
    obtain ⟨j, hj, hle⟩ := ih
    by_cases hp : d.isPrefixOf (x :: (p ++ d ++ t)) = true
    · refine ⟨0, ?_, Nat.zero_le _⟩
      simp only [List.cons_append]
      rw [indexOf?, if_pos hp]
    · refine ⟨j + 1, ?_, by simp only [List.length_cons]; omega⟩
      simp only [List.cons_append]
      rw [indexOf?, if_neg hp, hj]
      rfl

/-- The text before the first "\r\n\r\n" does not end with "\r\n". -/
theorem take_index_not_crlf (rest : GoString) (i : Nat)
    (h : indexOf? rest "\r\n\r\n".toList = some i) (p : GoString) :
    rest.take i ≠ p ++ "\r\n".toList := by
  intro hp
  have hsplit := indexOf?_split rest i h
  have hlen := congrArg List.length hp
  have hi := indexOf?_lt_length (by decide) rest i h
  rw [hp] at hsplit
  have e : rest = p ++ "\r\n\r\n".toList
      ++ ("\r\n".toList ++ rest.drop (i + "\r\n\r\n".toList.length)) := by
    have e1 : p ++ "\r\n".toList ++ "\r\n\r\n".toList
        = p ++ "\r\n\r\n".toList ++ "\r\n".toList := by
      simp [List.append_assoc]
    rw [e1] at hsplit
    rw [← List.append_assoc]
    exact hsplit
  obtain ⟨j, hj, hle⟩ := indexOf?_append_le (d := "\r\n\r\n".toList) (by decide)
    ("\r\n".toList ++ rest.drop (i + "\r\n\r\n".toList.length)) p
  rw [← e, h] at hj
  cases hj
  simp only [List.length_take, List.length_append] at hlen
  have h2 : "\r\n".toList.length = 2 := rfl
  omega

/-- A block that the scan with `splitAt("\r\n\r\n")` cuts at a delimiter (every
block but the last) does not end with "\r\n". -/
theorem scanLoop_block_not_crlf :
    ∀ (fuel : Nat) (rest : GoString), rest.length < fuel →
      ∀ b ∈ (scanLoop (splitAt "\r\n\r\n".toList) fuel rest []).1.dropLast,
        ∀ p : GoString, b ≠ p ++ "\r\n".toList := by
  have hd : "\r\n\r\n".toList ≠ [] := by decide
  intro fuel
  induction fuel with
  | zero => intro rest h; omega
  | succ fuel ih =>
    intro rest hlt
    cases rest with
    | nil => simp [scanLoop_nil]
    | cons c cs =>
      have hM : 0 < maxScanTokenSize := by decide
      cases hi : indexOf? ((c :: cs).take maxScanTokenSize) "\r\n\r\n".toList with
      | some i =>
        have hi' := indexOf?_take "\r\n\r\n".toList _ _ _ hi
        have hiM : i ≤ maxScanTokenSize := by
          have := indexOf?_add_length_le "\r\n\r\n".toList _ i hi
          simp only [List.length_take] at this
          omega
        have htok : ((c :: cs).take maxScanTokenSize).take i = (c :: cs).take i := by
          rw [List.take_take, Nat.min_eq_left hiM]
        have hlen : ((c :: cs).drop (i + "\r\n\r\n".toList.length)).length < fuel := by
          have := length_drop_lt hd (n := fuel) hi' (by omega)
          have h1 := indexOf?_lt_length hd _ _ hi'
          have hd' : 0 < "\r\n\r\n".toList.length := by decide
          simp only [List.length_drop] at this ⊢
          omega
        have hne : (c :: cs).take maxScanTokenSize ≠ [] := by
          intro h0
          have := congrArg List.length h0
          simp only [List.length_take, List.length_cons, List.length_nil] at this
          omega
        have hstep : scanLoop (splitAt "\r\n\r\n".toList) (fuel + 1) (c :: cs) []
            = ((c :: cs).take i ::
                (scanLoop (splitAt "\r\n\r\n".toList) fuel
                  ((c :: cs).drop (i + "\r\n\r\n".toList.length)) []).1,
                (scanLoop (splitAt "\r\n\r\n".toList) fuel
                  ((c :: cs).drop (i + "\r\n\r\n".toList.length)) []).2) := by
          simp only [scanLoop, splitAt_of_some _ hi hne, htok]
          rw [scanLoop_acc]
          rfl
        have ih' := ih _ hlen
        rw [hstep]
        intro b hb
        cases hL : (scanLoop (splitAt "\r\n\r\n".toList) fuel
            ((c :: cs).drop (i + "\r\n\r\n".toList.length)) []).1 with
        | nil => rw [hL] at hb; simp at hb
        | cons b' L =>
          rw [hL] at hb ih'
          rw [List.dropLast_cons₂] at hb
          rcases List.mem_cons.mp hb with rfl | hb
          · exact take_index_not_crlf _ _ hi'
          · exact ih' b hb
      | none =>
        by_cases hE : (c :: cs).length < maxScanTokenSize
        · have htake : (c :: cs).take maxScanTokenSize = c :: cs :=
            List.take_of_length_le (by omega)
          rw [htake] at hi
          have hfuel : fuel ≠ 0 := by
            simp only [List.length_cons] at hlt; omega
          obtain ⟨k, rfl⟩ := Nat.exists_eq_succ_of_ne_zero hfuel
          have hstep : scanLoop (splitAt "\r\n\r\n".toList) (k + 1 + 1) (c :: cs) []
              = ([c :: cs], none) := by
            rw [scanLoop, htake]
            simp only [hE, decide_True, splitAt_of_none_atEOF hi (List.cons_ne_nil c cs)]
            rw [List.drop_length, scanLoop_nil]
            rfl
          rw [hstep]
          simp
        · have hstep : scanLoop (splitAt "\r\n\r\n".toList) (fuel + 1) (c :: cs) []
              = ([], some Error.tokenTooLong) := by
            rw [scanLoop]
            simp only [hE, decide_False, splitAt_of_none hi]
            simp
          rw [hstep]
          simp

/-- The third of four sections has no empty line between two lines and none at
its end. -/
theorem statistics_section_lines (content b0 b1 b2 b3 : GoString)
    (h : scanSections content = ([b0, b1, b2, b3], none)) :
    (∀ a b : GoString, b2 ≠ a ++ "\r\n".toList ++ "\r\n".toList ++ b) ∧
    (∀ s : GoString, b2 ≠ s ++ "\r\n".toList) := by
  constructor
  · intro a b hb
    have hnone := (scanLoop_join (d := "\r\n\r\n".toList) (by decide) (content.length + 1)
      content (Nat.lt_succ_self _)).1 b2 (by
        have : scanLoop (splitAt "\r\n\r\n".toList) (content.length + 1) content []
            = ([b0, b1, b2, b3], none) := h
        rw [this]; simp)
    obtain ⟨j, hj, -⟩ := indexOf?_append_le (d := "\r\n\r\n".toList) (by decide) b a
    have e : a ++ "\r\n".toList ++ "\r\n".toList ++ b = a ++ "\r\n\r\n".toList ++ b := by
      simp [List.append_assoc]
    rw [hb, e, hj] at hnone
    cases hnone
  · have hmem := scanLoop_block_not_crlf (content.length + 1) content (Nat.lt_succ_self _) b2 (by
      have : scanLoop (splitAt "\r\n\r\n".toList) (content.length + 1) content []
          = ([b0, b1, b2, b3], none) := h
      rw [this]; simp)
    exact hmem

/-- Claim C12, amended.  Empty lines are ignored by `parseGeneralSettings`: for
every block, a second "\r\n" after a line break, or a "\r\n" at the end of the
block, does not change its result.  For `parseSessionStats` no such line reaches
it from `parseSession`: the statistics block, the third of the four blocks that
the scan cuts at "\r\n\r\n", has no empty line between two lines and does not
end with "\r\n". -/
theorem emptyLine_decoders {F : Type} (lib : Lib F) :
    (∀ a b : GoString,
      parseGeneralSettings lib (a ++ "\r\n".toList ++ "\r\n".toList ++ b)
        = parseGeneralSettings lib (a ++ "\r\n".toList ++ b)) ∧
    (∀ s : GoString,
      parseGeneralSettings lib (s ++ "\r\n".toList) = parseGeneralSettings lib s) ∧
    (∀ content b0 b1 b2 b3 : GoString,
      scanSections content = ([b0, b1, b2, b3], none) →
      (∀ a b : GoString, b2 ≠ a ++ "\r\n".toList ++ "\r\n".toList ++ b) ∧
      (∀ s : GoString, b2 ≠ s ++ "\r\n".toList)) :=
  ⟨(parseGeneralSettings_empty_line lib).1, (parseGeneralSettings_empty_line lib).2,
    statistics_section_lines⟩

theorem emptyLine_decoders_witness :
    scanSections exampleContent
      = (["Kill #,Timestamp".toList, "Weapon,Shots".toList, "Kills:,none".toList,
          exampleGeneralSettings], none) ∧
    (∀ a b : GoString, "Kills:,none".toList ≠ a ++ "\r\n".toList ++ "\r\n".toList ++ b) ∧
    (∀ s : GoString, "Kills:,none".toList ≠ s ++ "\r\n".toList) :=
  ⟨by decide, (emptyLine_decoders sampleLib).2.2 exampleContent "Kill #,Timestamp".toList
    "Weapon,Shots".toList "Kills:,none".toList exampleGeneralSettings (by decide)⟩

/-- Claim C12 as stated fails for `parseSessionStats`, called on a block by
itself: the statistics of the example decode, and with a "\r\n" at their end, or
with a second "\r\n" after their first line, `parseSessionStats` panics. -/
theorem parseSessionStats_empty_line_panics :
    parseSessionStats sampleLib exampleStatistics = Res.ok {
      Kills := ⟨12, 0⟩
      Deaths := ⟨0, 0⟩
      FightTime := ⟨583, 1⟩
      AvgTTK := ⟨48, 1⟩
      DamageDone := ⟨2400, 0⟩
      DamageTaken := ⟨0, 0⟩
      Midairs := ⟨0, 0⟩
      Midaired := ⟨0, 0⟩
      Directs := ⟨0, 0⟩
      Directed := ⟨0, 0⟩
      DistanceTraveled := ⟨0, 0⟩
      Scenario := "1wall5targets_pasu".toList
      Score := ⟨12005, 1⟩
      Hash := []
      GameVersion := [] } ∧
    parseSessionStats sampleLib (exampleStatistics ++ "\r\n".toList) = Res.runtimePanic ∧
    parseSessionStats sampleLib
      ("Kills:,12\r\n".toList ++ "\r\n".toList ++ (exampleStatistics.drop 11))
      = Res.runtimePanic ∧
    "Kills:,12\r\n".toList ++ exampleStatistics.drop 11 = exampleStatistics := by
  decide

/-! ## The batch encoder -/

theorem stringsSplit_line (e rest : GoString) (he : indexOf? e "\r\n".toList = none) :
    stringsSplit (e ++ "\r\n".toList ++ rest) "\r\n".toList
      = e :: stringsSplit rest "\r\n".toList := by
  have h := stringsSplit_append_crlf rest _ e (le_refl _)
  have he' : indexOf? e ['\r', '\n'] = none := he
  rw [stringsSplit_of_none he'] at h
  simpa using h

theorem bufferSessions_eq {F : Type} (marshal : Session F → Res GoString)
    (enc : Session F → GoString) :
    ∀ (sessions : List (Session F)) (buffer : GoString),
      (∀ s ∈ sessions, marshal s = Res.ok (enc s)) →
      bufferSessions marshal sessions buffer
        = Res.ok (buffer ++ (sessions.map (fun s => enc s ++ "\r\n".toList)).flatten) := by
  intro sessions
  induction sessions with
  | nil => intro buffer _; simp [bufferSessions]
  | cons s sessions ih =>
    intro buffer h
    rw [bufferSessions, h s (List.mem_cons_self _ _), Res.bind_ok,
      ih _ (fun x hx => h x (List.mem_cons_of_mem _ hx))]
    simp

theorem payload_lines {F : Type} (enc : Session F → GoString) :
    ∀ (sessions : List (Session F)),
      (∀ s ∈ sessions, indexOf? (enc s) "\r\n".toList = none) →
      stringsSplit (sessions.map (fun s => enc s ++ "\r\n".toList)).flatten "\r\n".toList
        = sessions.map enc ++ [[]] := by
  intro sessions
  induction sessions with
  | nil => intro _; rfl
  | cons s sessions ih =>
    intro h
    rw [List.map_cons, List.flatten_cons, stringsSplit_line _ _ (h s (List.mem_cons_self _ _)),
      ih (fun x hx => h x (List.mem_cons_of_mem _ hx))]
    rfl

/-- The error of the first session that `json.Marshal` does not encode ends the
loop: nothing is returned but the error. -/
theorem bufferSessions_error {F : Type} (marshal : Session F → Res GoString)
    (s : Session F) (post : List (Session F)) (e : Error) (hs : marshal s = Res.error e) :
    ∀ (pre : List (Session F)) (buffer : GoString),
      (∀ x ∈ pre, ∃ j, marshal x = Res.ok j) →
      bufferSessions marshal (pre ++ s :: post) buffer = Res.error e := by
  intro pre
  induction pre with
  | nil =>
    intro buffer _
    rw [List.nil_append, bufferSessions, hs]
    rfl
  | cons x pre ih =>
    intro buffer h
    obtain ⟨j, hj⟩ := h x (List.mem_cons_self _ _)
    rw [List.cons_append, bufferSessions, hj, Res.bind_ok]
    exact ih _ (fun y hy => h y (List.mem_cons_of_mem _ hy))

/-- Claim C18, amended.  Batch encoding.  For every sequence of `n` Sessions each
of which `json.Marshal` encodes, the payload is the concatenation, in input
order, of each Session's encoding followed by "\r\n".  It is empty for `n = 0`
and ends with "\r\n" for `n > 0`; it begins with the encoding of the first
Session, so nothing encloses the lines; and, when no encoding has a line break in
it, the payload cut at "\r\n" is exactly the `n` encodings, in order, with
nothing after the last "\r\n".  When `json.Marshal` returns an error for one of
the Sessions, the batch encoder returns the error of the first such Session and
no payload. -/
theorem bufferSessions_payload {F : Type} (marshal : Session F → Res GoString)
    (sessions : List (Session F)) :
    (∀ enc : Session F → GoString, (∀ s ∈ sessions, marshal s = Res.ok (enc s)) →
      bufferSessions marshal sessions []
        = Res.ok ((sessions.map (fun s => enc s ++ "\r\n".toList)).flatten) ∧
      (sessions = [] → (sessions.map (fun s => enc s ++ "\r\n".toList)).flatten = []) ∧
      (sessions ≠ [] →
        ∃ init, (sessions.map (fun s => enc s ++ "\r\n".toList)).flatten
          = init ++ "\r\n".toList) ∧
      (∀ s rest, sessions = s :: rest →
        ∃ tail, (sessions.map (fun s => enc s ++ "\r\n".toList)).flatten = enc s ++ tail) ∧
      ((∀ s ∈ sessions, indexOf? (enc s) "\r\n".toList = none) →
        stringsSplit (sessions.map (fun s => enc s ++ "\r\n".toList)).flatten "\r\n".toList
          = sessions.map enc ++ [[]]) ∧
      (sessions.map enc).length = sessions.length) ∧
    (∀ (pre : List (Session F)) (s : Session F) (post : List (Session F)) (e : Error),
      sessions = pre ++ s :: post → (∀ x ∈ pre, ∃ j, marshal x = Res.ok j) →
      marshal s = Res.error e →
      bufferSessions marshal sessions [] = Res.error e) := by
  constructor
  · intro enc hm
    refine ⟨?_, ?_, ?_, ?_, payload_lines enc sessions, List.length_map _ _⟩
    · have := bufferSessions_eq marshal enc sessions [] hm
      simpa using this
    · intro h
      subst h
      rfl
    · intro hne
      obtain ⟨init, last, rfl⟩ : ∃ init last, sessions = init ++ [last] :=
        ⟨sessions.dropLast, sessions.getLast hne, (List.dropLast_append_getLast hne).symm⟩
      refine ⟨(init.map (fun s => enc s ++ "\r\n".toList)).flatten ++ enc last, ?_⟩
      simp
    · intro s rest h
      subst h
      exact ⟨"\r\n".toList ++ (rest.map (fun s => enc s ++ "\r\n".toList)).flatten, by simp⟩
  · intro pre s post e hsess hpre hs
    rw [hsess]
    exact bufferSessions_error marshal s post e hs pre [] hpre

theorem bufferSessions_payload_witness :
    bufferSessions sampleMarshal [emptySession "a1", emptySession "b2"] []
      = Res.ok ("\x7b\"session_hash\":\"a1\"\x7d\r\n\x7b\"session_hash\":\"b2\"\x7d\r\n".toList) ∧
    (overflowMarshal finiteSession).returns = true ∧
    bufferSessions overflowMarshal [finiteSession, overflowSession] []
      = Res.error Error.unsupportedValue := by
  have h := ((bufferSessions_payload sampleMarshal [emptySession "a1", emptySession "b2"]).1
    (fun s => "\x7b\"session_hash\":\"".toList ++ s.SessionHash ++ "\"\x7d".toList)
    (by decide)).1
  have h2 := (bufferSessions_payload overflowMarshal [finiteSession, overflowSession]).2
    [finiteSession] overflowSession [] Error.unsupportedValue rfl
    (fun x hx => by rw [List.mem_singleton.mp hx]; exact ⟨_, rfl⟩) (by decide)
  rw [h]
  exact ⟨by decide, rfl, h2⟩

/-- Claim C18 as stated fails: the session that `parseSession` returns for
`overflowContent` has the ADS sensitivity +Inf, `json.Marshal` returns an error
for it, and the batch encoder returns that error and no payload. -/
theorem bufferSessions_no_payload :
    parseSession overflowLib exampleFileName overflowContent = Res.ok overflowSession ∧
    bufferSessions overflowMarshal [overflowSession] [] = Res.error Error.unsupportedValue :=
  ⟨parseSession_eq_ok overflowLib exampleFileName overflowContent
    "a".toList overflowWeaponTable "c:,d".toList "d:,u".toList
    _ _ _ _ _ (by decide) (by decide)
    (Or.inr ⟨⟨Error.cannotParse [] "float".toList "Input Lag".toList, by decide⟩, rfl⟩)
    (Or.inl (by decide))
    (Or.inr ⟨⟨Error.cannotParse [] "float".toList "Kills".toList, by decide⟩, rfl⟩)
    (Or.inl (by decide)), by decide⟩

end FATStats
